import Mathlib

/-!
W2W (write to WOZ): a verification development.

A shallow embedding of `W2W.cpp` — the bit writer, the 6-and-2 encoders, the two
sector serialisers, the CRC-32 unit and the placement loop of `main` — followed by
theorems about them.

Conventions of the embedding.

* A `uint8_t*` is a `Buffer`: the list of the cells from the pointer to the end
  of the array it points into. `peek` reads a cell and `poke` stores into one;
  outside the array a read gives 0 and a store is dropped, and the theorems
  carry the hypothesis that the accesses they describe fall inside.
  Pointer arithmetic `base + k` drops the first `k` cells.
* Machine integers are natural numbers; a store into a `uint8_t` cell that can
  overflow is written with an explicit `% 256`.
* A function that mutates a buffer and returns a position returns the pair
  `(buffer, position)`.
* The `bVerbose` parameter only guards `printf` calls and is dropped.
-/

namespace W2W

/-! ## Buffers -/

/-- A byte buffer addressed through a pointer: the cells from the pointer on. -/
abbrev Buffer := List Nat

/-- The read `buffer[i]`. -/
def peek (buffer : Buffer) (i : Nat) : Nat :=
  buffer.getD i 0

/-- The store `buffer[i] = v`. -/
def poke (buffer : Buffer) (i v : Nat) : Buffer :=
  buffer.set i v

/-- The loop `for (; count-- > 0; ++c) dest[base + c] = value(c, dest)`: `count`
iterations are left to run and the loop variable is at `c`. -/
def store_loop (base : Nat) (value : Nat → Buffer → Nat) : Nat → Nat → Buffer → Buffer
  | 0, _, dest => dest
  | count + 1, c, dest =>
      store_loop base value count (c + 1) (poke dest (base + c) (value c dest))

/-- The library call `memset(buffer + start, value, count)`. -/
def memset (buffer : Buffer) (start value count : Nat) : Buffer :=
  store_loop start (fun _ _ => value) count 0 buffer

/-- The pointer `base + k`. -/
def offset_view (base : Buffer) (k : Nat) : Buffer :=
  base.drop k

/-- The array behind `base` after stores through the pointer `base + k` have left
`region` from cell `k` on. -/
def store_view (base : Buffer) (k : Nat) (region : Buffer) : Buffer :=
  base.take k ++ region

/-- The all-zero buffer of `size` cells. -/
def zero_buffer (size : Nat) : Buffer :=
  List.replicate size 0

/-! ## Bit writer (`write_bit`, `write_byte`, `write_byte_prologue`, `write_4_and_4`, `write_sync`) -/

/-- Source `write_bit`: `buffer[position >> 3] |= (value ? 0x80 : 0x00) >> (position & 7)`. -/
def write_bit (buffer : Buffer) (position value : Nat) : Buffer × Nat :=
  (poke buffer (position >>> 3)
      ((peek buffer (position >>> 3) ||| ((if value ≠ 0 then 0x80 else 0x00) >>> (position &&& 7))) % 256),
   position + 1)

/-- Source `write_byte`: the value is OR-ed into one or two cells. -/
def write_byte (buffer : Buffer) (position value : Nat) : Buffer × Nat :=
  let shift := position &&& 7
  let byte_position := position >>> 3
  let buffer := poke buffer byte_position ((peek buffer byte_position ||| (value >>> shift)) % 256)
  let buffer :=
    if shift ≠ 0 then
      poke buffer (byte_position + 1) ((peek buffer (byte_position + 1) ||| (value <<< (8 - shift))) % 256)
    else buffer
  (buffer, position + 8)

/-- Source `write_byte_prologue`: `write_byte` followed by the substitution
`0x0D → 0xCD`, `0x03 → 0xF3` on the first cell touched. -/
def write_byte_prologue (buffer : Buffer) (position value : Nat) : Buffer × Nat :=
  let shift := position &&& 7
  let byte_position := position >>> 3
  let buffer := poke buffer byte_position ((peek buffer byte_position ||| (value >>> shift)) % 256)
  let buffer :=
    if shift ≠ 0 then
      poke buffer (byte_position + 1) ((peek buffer (byte_position + 1) ||| (value <<< (8 - shift))) % 256)
    else buffer
  let buffer :=
    if peek buffer byte_position = 0x0D then poke buffer byte_position 0xCD
    else if peek buffer byte_position = 0x03 then poke buffer byte_position 0xF3
    else buffer
  (buffer, position + 8)

/-- Source `write_4_and_4`. -/
def write_4_and_4 (buffer : Buffer) (position value : Nat) : Buffer × Nat :=
  let r := write_byte buffer position ((value >>> 1) ||| 0xaa)
  write_byte r.1 r.2 (value ||| 0xaa)

/-- Source `write_sync`: `0xff`, then two bits are skipped. -/
def write_sync (buffer : Buffer) (position : Nat) : Buffer × Nat :=
  let r := write_byte buffer position 0xff
  (r.1, r.2 + 2)

/-- The loop `for (c = 0; c < count; ++c) track_position = write_sync(dest, track_position)`. -/
def write_syncs : Nat → Buffer × Nat → Buffer × Nat
  | 0, st => st
  | c + 1, st => write_syncs c (write_sync st.1 st.2)

/-! ## 6-and-2 encoders -/

/-- The table `six_and_two_mapping` (the same in both encoders). -/
def six_and_two_mapping : List Nat :=
  [0x96, 0x97, 0x9a, 0x9b, 0x9d, 0x9e, 0x9f, 0xa6,
   0xa7, 0xab, 0xac, 0xad, 0xae, 0xaf, 0xb2, 0xb3,
   0xb4, 0xb5, 0xb6, 0xb7, 0xb9, 0xba, 0xbb, 0xbc,
   0xbd, 0xbe, 0xbf, 0xcb, 0xcd, 0xce, 0xcf, 0xd3,
   0xd6, 0xd7, 0xd9, 0xda, 0xdb, 0xdc, 0xdd, 0xde,
   0xdf, 0xe5, 0xe6, 0xe7, 0xe9, 0xea, 0xeb, 0xec,
   0xed, 0xee, 0xef, 0xf2, 0xf3, 0xf4, 0xf5, 0xf6,
   0xf7, 0xf9, 0xfa, 0xfb, 0xfc, 0xfd, 0xfe, 0xff]

/-- The table `bit_reverse`. -/
def bit_reverse : List Nat := [0, 2, 1, 3]

/-- The loop `while (location > 1) { --location; dest[location] ^= dest[location - 1]; }`,
started with the given value of `location`. -/
def xor_loop : Nat → Buffer → Buffer
  | 0, dest => dest
  | 1, dest => dest
  | location + 2, dest =>
      xor_loop (location + 1) (poke dest (location + 1) (peek dest (location + 1) ^^^ peek dest location))

/-- Source `encode_6_and_2_256(dest, src)`. -/
def encode_6_and_2_256 (dest src : Buffer) : Buffer :=
  let dest := store_loop 0 (fun c _ =>
      bit_reverse.getD (peek src c &&& 3) 0 |||
      (bit_reverse.getD (peek src (c + 86) &&& 3) 0 <<< 2) |||
      (bit_reverse.getD (peek src (c + 172) &&& 3) 0 <<< 4)) 84 0 dest
  let dest := poke dest 84
      ((bit_reverse.getD (peek src 84 &&& 3) 0 <<< 0) ||| (bit_reverse.getD (peek src 170 &&& 3) 0 <<< 2))
  let dest := poke dest 85
      ((bit_reverse.getD (peek src 85 &&& 3) 0 <<< 0) ||| (bit_reverse.getD (peek src 171 &&& 3) 0 <<< 2))
  let dest := store_loop 86 (fun c _ => peek src c >>> 2) 256 0 dest
  let dest := poke dest 342 (peek dest 341)
  let dest := xor_loop 342 dest
  store_loop 0 (fun c dest => six_and_two_mapping.getD (peek dest c) 0) 343 0 dest

/-- Source `encode_6_and_2_128(dest, src)`. -/
def encode_6_and_2_128 (dest src : Buffer) : Buffer :=
  let dest := store_loop 0 (fun c _ =>
      bit_reverse.getD (peek src c &&& 3) 0 |||
      (bit_reverse.getD (peek src (c + 43) &&& 3) 0 <<< 2) |||
      (bit_reverse.getD (peek src (c + 86) &&& 3) 0 <<< 4)) 42 0 dest
  let dest := poke dest 42
      (bit_reverse.getD (peek src 42 &&& 3) 0 ||| (bit_reverse.getD (peek src 85 &&& 3) 0 <<< 2))
  let dest := store_loop 43 (fun c _ => peek src c >>> 2) 128 0 dest
  let dest := poke dest 171 (peek dest 170)
  let dest := xor_loop 171 dest
  store_loop 0 (fun c dest => six_and_two_mapping.getD (peek dest c) 0) 172 0 dest

/-! ## Sector serialisers -/

/-- The loop `for (c = 0; c < sizeof(contents); ++c) track_position = write_byte(dest, track_position, contents[c])`:
`count` iterations are left to run and the loop variable is at `c`. -/
def write_contents (contents : Buffer) : Nat → Nat → Buffer × Nat → Buffer × Nat
  | 0, _, st => st
  | count + 1, c, st => write_contents contents count (c + 1) (write_byte st.1 st.2 (peek contents c))

/-- Source `serialise_sector_standard`. The local array `contents` is not
initialised in the source; the encoder stores every one of its cells before
reading it, and the embedding starts it at zero. The pair returned is the track
buffer and the final value of `track_position`. -/
def serialise_sector_standard (dest src : Buffer)
    (track_position sector_number track_number : Nat) : Buffer × Nat :=
  let dest := memset dest (track_position >>> 3) 0 (3134 >>> 3)
  -- header prologue
  let r := write_byte_prologue dest track_position 0xd5
  let r := write_byte_prologue r.1 r.2 0xaa
  let r := write_byte_prologue r.1 r.2 0x96
  -- volume, track, sector and checksum
  let r := write_4_and_4 r.1 r.2 254
  let r := write_4_and_4 r.1 r.2 track_number
  let r := write_4_and_4 r.1 r.2 sector_number
  let r := write_4_and_4 r.1 r.2 (254 ^^^ track_number ^^^ sector_number)
  -- header epilogue
  let r := write_byte r.1 r.2 0xde
  let r := write_byte r.1 r.2 0xaa
  let r := write_byte r.1 r.2 0xeb
  -- gap 2
  let r := write_syncs 7 r
  -- data prologue
  let r := write_byte r.1 r.2 0xd5
  let r := write_byte r.1 r.2 0xaa
  let r := write_byte r.1 r.2 0xad
  -- sector contents
  let contents := encode_6_and_2_256 (zero_buffer 343) src
  let r := write_contents contents 343 0 r
  -- data epilogue
  let r := write_byte r.1 r.2 0xde
  let r := write_byte r.1 r.2 0xaa
  let r := write_byte r.1 r.2 0xeb
  -- gap 3
  write_syncs 16 r

/-- Source `serialise_sector_custom1`; see `serialise_sector_standard` for the
conventions. `track_number` reaches only the `printf` calls. -/
def serialise_sector_custom1 (dest src : Buffer)
    (track_position sector_number _track_number : Nat) : Buffer × Nat :=
  let dest := memset dest (track_position >>> 3) 0 (1590 >>> 3)
  -- header prologue
  let r := write_byte_prologue dest track_position 0xd5
  let r := write_byte_prologue r.1 r.2 0xaa
  let r := write_byte_prologue r.1 r.2 0x96
  -- sector number
  let r := write_4_and_4 r.1 r.2 sector_number
  -- gap 2
  let r := write_syncs 7 r
  -- data prologue
  let r := write_byte r.1 r.2 0xd5
  let r := write_byte r.1 r.2 0xaa
  let r := write_byte r.1 r.2 0xad
  -- sector contents
  let contents := encode_6_and_2_128 (zero_buffer 172) src
  let r := write_contents contents 172 0 r
  -- gap 3
  write_syncs 8 r

/-! ## CRC-32 -/

/-- The table `crc32_tab`. -/
def crc32_tab : List Nat :=
  [0x00000000, 0x77073096, 0xee0e612c, 0x990951ba, 0x076dc419, 0x706af48f,
   0xe963a535, 0x9e6495a3, 0x0edb8832, 0x79dcb8a4, 0xe0d5e91e, 0x97d2d988,
   0x09b64c2b, 0x7eb17cbd, 0xe7b82d07, 0x90bf1d91, 0x1db71064, 0x6ab020f2,
   0xf3b97148, 0x84be41de, 0x1adad47d, 0x6ddde4eb, 0xf4d4b551, 0x83d385c7,
   0x136c9856, 0x646ba8c0, 0xfd62f97a, 0x8a65c9ec, 0x14015c4f, 0x63066cd9,
   0xfa0f3d63, 0x8d080df5, 0x3b6e20c8, 0x4c69105e, 0xd56041e4, 0xa2677172,
   0x3c03e4d1, 0x4b04d447, 0xd20d85fd, 0xa50ab56b, 0x35b5a8fa, 0x42b2986c,
   0xdbbbc9d6, 0xacbcf940, 0x32d86ce3, 0x45df5c75, 0xdcd60dcf, 0xabd13d59,
   0x26d930ac, 0x51de003a, 0xc8d75180, 0xbfd06116, 0x21b4f4b5, 0x56b3c423,
   0xcfba9599, 0xb8bda50f, 0x2802b89e, 0x5f058808, 0xc60cd9b2, 0xb10be924,
   0x2f6f7c87, 0x58684c11, 0xc1611dab, 0xb6662d3d, 0x76dc4190, 0x01db7106,
   0x98d220bc, 0xefd5102a, 0x71b18589, 0x06b6b51f, 0x9fbfe4a5, 0xe8b8d433,
   0x7807c9a2, 0x0f00f934, 0x9609a88e, 0xe10e9818, 0x7f6a0dbb, 0x086d3d2d,
   0x91646c97, 0xe6635c01, 0x6b6b51f4, 0x1c6c6162, 0x856530d8, 0xf262004e,
   0x6c0695ed, 0x1b01a57b, 0x8208f4c1, 0xf50fc457, 0x65b0d9c6, 0x12b7e950,
   0x8bbeb8ea, 0xfcb9887c, 0x62dd1ddf, 0x15da2d49, 0x8cd37cf3, 0xfbd44c65,
   0x4db26158, 0x3ab551ce, 0xa3bc0074, 0xd4bb30e2, 0x4adfa541, 0x3dd895d7,
   0xa4d1c46d, 0xd3d6f4fb, 0x4369e96a, 0x346ed9fc, 0xad678846, 0xda60b8d0,
   0x44042d73, 0x33031de5, 0xaa0a4c5f, 0xdd0d7cc9, 0x5005713c, 0x270241aa,
   0xbe0b1010, 0xc90c2086, 0x5768b525, 0x206f85b3, 0xb966d409, 0xce61e49f,
   0x5edef90e, 0x29d9c998, 0xb0d09822, 0xc7d7a8b4, 0x59b33d17, 0x2eb40d81,
   0xb7bd5c3b, 0xc0ba6cad, 0xedb88320, 0x9abfb3b6, 0x03b6e20c, 0x74b1d29a,
   0xead54739, 0x9dd277af, 0x04db2615, 0x73dc1683, 0xe3630b12, 0x94643b84,
   0x0d6d6a3e, 0x7a6a5aa8, 0xe40ecf0b, 0x9309ff9d, 0x0a00ae27, 0x7d079eb1,
   0xf00f9344, 0x8708a3d2, 0x1e01f268, 0x6906c2fe, 0xf762575d, 0x806567cb,
   0x196c3671, 0x6e6b06e7, 0xfed41b76, 0x89d32be0, 0x10da7a5a, 0x67dd4acc,
   0xf9b9df6f, 0x8ebeeff9, 0x17b7be43, 0x60b08ed5, 0xd6d6a3e8, 0xa1d1937e,
   0x38d8c2c4, 0x4fdff252, 0xd1bb67f1, 0xa6bc5767, 0x3fb506dd, 0x48b2364b,
   0xd80d2bda, 0xaf0a1b4c, 0x36034af6, 0x41047a60, 0xdf60efc3, 0xa867df55,
   0x316e8eef, 0x4669be79, 0xcb61b38c, 0xbc66831a, 0x256fd2a0, 0x5268e236,
   0xcc0c7795, 0xbb0b4703, 0x220216b9, 0x5505262f, 0xc5ba3bbe, 0xb2bd0b28,
   0x2bb45a92, 0x5cb36a04, 0xc2d7ffa7, 0xb5d0cf31, 0x2cd99e8b, 0x5bdeae1d,
   0x9b64c2b0, 0xec63f226, 0x756aa39c, 0x026d930a, 0x9c0906a9, 0xeb0e363f,
   0x72076785, 0x05005713, 0x95bf4a82, 0xe2b87a14, 0x7bb12bae, 0x0cb61b38,
   0x92d28e9b, 0xe5d5be0d, 0x7cdcefb7, 0x0bdbdf21, 0x86d3d2d4, 0xf1d4e242,
   0x68ddb3f8, 0x1fda836e, 0x81be16cd, 0xf6b9265b, 0x6fb077e1, 0x18b74777,
   0x88085ae6, 0xff0f6a70, 0x66063bca, 0x11010b5c, 0x8f659eff, 0xf862ae69,
   0x616bffd3, 0x166ccf45, 0xa00ae278, 0xd70dd2ee, 0x4e048354, 0x3903b3c2,
   0xa7672661, 0xd06016f7, 0x4969474d, 0x3e6e77db, 0xaed16a4a, 0xd9d65adc,
   0x40df0b66, 0x37d83bf0, 0xa9bcae53, 0xdebb9ec5, 0x47b2cf7f, 0x30b5ffe9,
   0xbdbdf21c, 0xcabac28a, 0x53b39330, 0x24b4a3a6, 0xbad03605, 0xcdd70693,
   0x54de5729, 0x23d967bf, 0xb3667a2e, 0xc4614ab8, 0x5d681b02, 0x2a6f2b94,
   0xb40bbe37, 0xc30c8ea1, 0x5a05df1b, 0x2d02ef8d]

/-- The loop `while (size--) { crc = crc32_tab[(crc ^ buf[byte]) & 0xFF] ^ (crc >> 8); ++byte; }`. -/
def crc32_loop (buf : Buffer) : Nat → Nat → Nat → Nat
  | 0, _, crc => crc
  | size + 1, byte, crc =>
      crc32_loop buf size (byte + 1) (crc32_tab.getD ((crc ^^^ peek buf byte) &&& 0xFF) 0 ^^^ (crc >>> 8))

/-- Source `crc32(buf, size)`; `~` on a `uint32_t` is the XOR with `0xFFFFFFFF`. -/
def crc32 (buf : Buffer) (size : Nat) : Nat :=
  crc32_loop buf size 0 0xFFFFFFFF ^^^ 0xFFFFFFFF

/-! ## The driver `main` -/

/-- The table `Offset_Standard_Header`. -/
def Offset_Standard_Header : List Nat :=
  [160, 3294, 6428, 9562, 12696, 15830, 18964, 22098,
   25232, 28366, 31500, 34634, 37768, 40902, 44036, 47170]

/-- The table `Offset_Custom1_Header` (GAP1 = 8 / GAP2 = 7 / GAP3 = 8). -/
def Offset_Custom1_Header : List Nat :=
  [80, 1670, 3260, 4850, 6440, 8030, 9620, 11210, 12800, 14390, 15980, 17570, 19160, 20750, 22340, 23930,
   25520, 27110, 28700, 30290, 31880, 33470, 35060, 36650, 38240, 39830, 41420, 43010, 44600, 46190, 47780, 49370]

/-- The table `Standard_Dos_Interleaving`. -/
def Standard_Dos_Interleaving : List Nat :=
  [0x00, 0x0D, 0x0B, 0x09, 0x07, 0x05, 0x03, 0x01, 0x0E, 0x0C, 0x0A, 0x08, 0x06, 0x04, 0x02, 0x0F]

/-- The table `Standard_Physical_Interleaving`. -/
def Standard_Physical_Interleaving : List Nat :=
  [0x00, 0x01, 0x02, 0x03, 0x04, 0x05, 0x06, 0x07, 0x08, 0x09, 0x0A, 0x0B, 0x0C, 0x0D, 0x0E, 0x0F]

/-- The table `Standard_Interleaving1`. -/
def Standard_Interleaving1 : List Nat :=
  [0x00, 0x0D, 0x0B, 0x09, 0x07, 0x05, 0x03, 0x01, 0x0E, 0x0C, 0x0A, 0x08, 0x06, 0x04, 0x02, 0x0F]

/-- The table `Custom_Dos_Interleaving`. -/
def Custom_Dos_Interleaving : List Nat :=
  [0x00, 0x10, 0x01, 0x11, 0x02, 0x12, 0x03, 0x13, 0x04, 0x14, 0x05, 0x15, 0x06, 0x16, 0x07, 0x17,
   0x08, 0x18, 0x09, 0x19, 0x0A, 0x1A, 0x0B, 0x1B, 0x0C, 0x1C, 0x0D, 0x1D, 0x0E, 0x1E, 0x0F, 0x1F]

/-- The table `Custom_Physical_Interleaving`. -/
def Custom_Physical_Interleaving : List Nat :=
  [0x00, 0x01, 0x02, 0x03, 0x04, 0x05, 0x06, 0x07, 0x08, 0x09, 0x0A, 0x0B, 0x0C, 0x0D, 0x0E, 0x0F,
   0x10, 0x11, 0x12, 0x13, 0x14, 0x15, 0x16, 0x17, 0x18, 0x19, 0x1A, 0x1B, 0x1C, 0x1D, 0x1E, 0x1F]

/-- The table `Custom_Interleaving1`. -/
def Custom_Interleaving1 : List Nat :=
  [0, 1, 2, 3, 4, 5, 6, 7, 16, 17, 18, 19, 20, 21, 22, 23,
   8, 9, 10, 11, 12, 13, 14, 15, 24, 25, 26, 27, 28, 29, 30, 31]

/-- The value of `sector_size` for the structure flag (`true` is custom). -/
def sector_size (bStructure : Bool) : Nat := if bStructure then 128 else 256

/-- The value of `sectors_per_track` for the structure flag (`true` is custom). -/
def sectors_per_track (bStructure : Bool) : Nat := if bStructure then 32 else 16

/-- The computation of `nb_sectors` from `binary_image_size` and `sector_size`. -/
def nb_sectors (binary_image_size sector_size : Nat) : Nat :=
  if binary_image_size % sector_size ≠ 0 then binary_image_size / sector_size + 1
  else binary_image_size / sector_size

/-- The interleaving table the loop body reads `physical_sector` from. -/
def interleaving_table (bStructure : Bool) (interleaving : Nat) : List Nat :=
  if !bStructure then
    if interleaving = 1 then Standard_Physical_Interleaving
    else if interleaving = 2 then Standard_Interleaving1
    else Standard_Dos_Interleaving
  else
    if interleaving = 1 then Custom_Physical_Interleaving
    else if interleaving = 2 then Custom_Interleaving1
    else Custom_Dos_Interleaving

/-- The offset table the loop body reads `offset_header` from. -/
def offset_table (bStructure : Bool) : List Nat :=
  if !bStructure then Offset_Standard_Header else Offset_Custom1_Header

/-- The variables the placement loop carries from one iteration to the next. -/
structure LoopState where
  /-- The image buffer `woz`. -/
  woz : Buffer
  /-- The variable `track`. -/
  track : Nat
  /-- The variable `sector`. -/
  sector : Nat

/-- The arguments of the serialiser call of one iteration: `dest = woz + dest_offset`,
`src = binary + src_offset`, then `offset_header`, `physical_sector`, `track`. -/
structure SerialiserCall where
  /-- The offset of `dest` in `woz`. -/
  dest_offset : Nat
  /-- The offset of `src` in `binary`. -/
  src_offset : Nat
  /-- The argument `track_position`. -/
  offset_header : Nat
  /-- The argument `sector_number`. -/
  physical_sector : Nat
  /-- The argument `track_number`. -/
  track : Nat
deriving DecidableEq, Repr

/-- The first part of the loop body: the table lookups and the two pointers. A
table index outside its table has no defined result. -/
def serialiser_call (bStructure : Bool) (interleaving : Nat) (j track sector : Nat) :
    Option SerialiserCall := do
  let physical_sector ← (interleaving_table bStructure interleaving)[sector]?
  let offset_header ← (offset_table bStructure)[physical_sector]?
  pure { dest_offset := 256 + track * 6656, src_offset := j * sector_size bStructure,
         offset_header := offset_header, physical_sector := physical_sector, track := track }

/-- The serialiser call itself, on the image buffer. The pointer `woz + dest_offset`
is the view of the image from that cell on; it lies inside the image only for
tracks 0 to 34 (`256 + 35 * 6656 = 233216`), and past the image the view is empty
and stores are dropped, where the source writes outside `woz`. Theorems on the
loop carry the track bound. -/
def run_call (bStructure : Bool) (binary woz : Buffer) (call : SerialiserCall) : Buffer :=
  let dest := offset_view woz call.dest_offset
  let src := offset_view binary call.src_offset
  let r :=
    if !bStructure then
      serialise_sector_standard dest src call.offset_header call.physical_sector call.track
    else
      serialise_sector_custom1 dest src call.offset_header call.physical_sector call.track
  store_view woz call.dest_offset r.1

/-- One iteration of the placement loop, for the loop variable `j`. -/
def loop_body (bStructure : Bool) (interleaving : Nat) (binary : Buffer) (j : Nat) (st : LoopState) :
    Option LoopState := do
  let call ← serialiser_call bStructure interleaving j st.track st.sector
  let woz := run_call bStructure binary st.woz call
  let sector := st.sector + 1
  if sector > sectors_per_track bStructure - 1 then
    pure { woz := woz, track := st.track + 1, sector := 0 }
  else
    pure { woz := woz, track := st.track, sector := sector }

/-- The loop `for (j = ...; j < nb_sectors; j++)` with `count` iterations left to run. -/
def main_loop (bStructure : Bool) (interleaving : Nat) (binary : Buffer) :
    Nat → Nat → LoopState → Option LoopState
  | 0, _, st => some st
  | count + 1, j, st =>
      (loop_body bStructure interleaving binary j st).bind
        (main_loop bStructure interleaving binary count (j + 1))

/-- The finalisation step of `main`: the CRC of `woz + 12` over `sizeof(woz) - 12`
bytes is stored in cells 8 to 11. -/
def write_crc (woz : Buffer) : Buffer :=
  let crc := crc32 (offset_view woz 12) (233216 - 12)
  let woz := poke woz 8 (crc &&& 0xff)
  let woz := poke woz 9 ((crc >>> 8) &&& 0xff)
  let woz := poke woz 10 ((crc >>> 16) &&& 0xff)
  poke woz 11 ((crc >>> 24) % 256)

/-- The buffer `binary`: `nb_sectors * sector_size` zero cells (`calloc`) into which
the `source` file is read. -/
def binary_buffer (source : List Nat) (sector_size : Nat) : Buffer :=
  source ++ List.replicate (nb_sectors source.length sector_size * sector_size - source.length) 0

/-- The part of `main` between reading the two files and writing the image:
the placement loop followed by the finalisation step. `woz` is the image as read
and `source` the content of the binary file. -/
def main_image (bStructure : Bool) (interleaving first_track first_sector : Nat)
    (woz : Buffer) (source : List Nat) : Option Buffer :=
  (main_loop bStructure interleaving (binary_buffer source (sector_size bStructure))
      (nb_sectors source.length (sector_size bStructure)) 0
      { woz := woz, track := first_track, sector := first_sector }).map
    (fun st => write_crc st.woz)

/-! ## Reading a buffer back

The readers and the expected bit streams below are not in the source; they
state what the specification says the writers leave in the buffer. -/

/-- The bit at a bit position, most significant bit of a cell first. -/
def read_bit (buffer : Buffer) (position : Nat) : Bool :=
  (peek buffer (position >>> 3)).testBit (7 - (position &&& 7))

/-- The value of a list of bits, most significant bit first. -/
def bits_value (bits : List Bool) : Nat :=
  bits.foldl (fun acc b => 2 * acc + b.toNat) 0

/-- The byte made of the eight bits from a bit position on, most significant bit first. -/
def read_byte (buffer : Buffer) (position : Nat) : Nat :=
  bits_value ((List.range 8).map (fun i => read_bit buffer (position + i)))

/-- Consecutive `write_byte` calls for a list of byte values, each at the position
the one before returned. -/
def write_bytes (buffer : Buffer) (position : Nat) : List Nat → Buffer × Nat
  | [] => (buffer, position)
  | v :: vs => write_bytes (write_byte buffer position v).1 (write_byte buffer position v).2 vs

/-- The eight bits of a byte value, most significant bit first. -/
def bits_of_byte (v : Nat) : List Bool :=
  (List.range 8).map (fun i => v.testBit (7 - i))

/-- The bits of a sequence of byte values. -/
def bits_of_bytes (vs : List Nat) : List Bool :=
  vs.flatMap bits_of_byte

/-- A sync word: `FF` followed by two 0 bits. -/
def sync_word : List Bool :=
  bits_of_byte 0xFF ++ [false, false]

/-- A run of sync words. -/
def sync_words (n : Nat) : List Bool :=
  (List.replicate n sync_word).flatten

/-- The 4-and-4 pair of a value. -/
def four_and_four (v : Nat) : List Nat :=
  [(v >>> 1) ||| 0xAA, v ||| 0xAA]

/-- The bit stream of a Standard sector record for track `t`, sector `n` and
source bytes `s`. -/
def record_standard (t n : Nat) (s : List Nat) : List Bool :=
  bits_of_bytes [0xD5, 0xAA, 0x96] ++
  bits_of_bytes (four_and_four 254 ++ four_and_four t ++ four_and_four n ++
    four_and_four (254 ^^^ t ^^^ n)) ++
  bits_of_bytes [0xDE, 0xAA, 0xEB] ++
  sync_words 7 ++
  bits_of_bytes [0xD5, 0xAA, 0xAD] ++
  bits_of_bytes (encode_6_and_2_256 (zero_buffer 343) s) ++
  bits_of_bytes [0xDE, 0xAA, 0xEB] ++
  sync_words 16

/-- The bit stream of a Custom sector record for sector `n` and source bytes `s`. -/
def record_custom1 (n : Nat) (s : List Nat) : List Bool :=
  bits_of_bytes [0xD5, 0xAA, 0x96] ++
  bits_of_bytes (four_and_four n) ++
  sync_words 7 ++
  bits_of_bytes [0xD5, 0xAA, 0xAD] ++
  bits_of_bytes (encode_6_and_2_128 (zero_buffer 172) s) ++
  sync_words 8

/-! ### The inverse procedure named by the specification

Un-map each byte through the nibble table, XOR-unfold, recombine the 2-bit and
6-bit parts. -/

/-- The position of a disk byte in the nibble table. -/
def unmap (b : Nat) : Nat := six_and_two_mapping.indexOf b

/-- XOR-unfold: entry `i` is the XOR of the entries `0..i` of `e`. -/
def xor_unfold (e : Nat → Nat) : Nat → Nat
  | 0 => e 0
  | i + 1 => e (i + 1) ^^^ xor_unfold e i

/-- Inverse of the 256-byte encoder on a 343-byte block. -/
def decode_6_and_2_256 (block : List Nat) : List Nat :=
  let x := xor_unfold (fun i => unmap (block.getD i 0))
  (List.range 256).map (fun i =>
    (x (86 + i) <<< 2) ||| bit_reverse.getD ((x (i % 86) >>> (2 * (i / 86))) &&& 3) 0)

/-- Inverse of the 128-byte encoder on a 172-byte block. -/
def decode_6_and_2_128 (block : List Nat) : List Nat :=
  let x := xor_unfold (fun i => unmap (block.getD i 0))
  (List.range 128).map (fun i =>
    (x (43 + i) <<< 2) ||| bit_reverse.getD ((x (i % 43) >>> (2 * (i / 43))) &&& 3) 0)

/-! ### The reference CRC-32 named by the specification

Reflected CRC-32 computed bit by bit: polynomial `0xEDB88320`, initial value
`0xFFFFFFFF`, final complement. -/

/-- One bit of the reflected CRC: shift right, XOR the polynomial in when the bit
shifted out is 1. -/
def crc_bit (crc : Nat) : Nat :=
  if crc % 2 = 1 then (crc >>> 1) ^^^ 0xEDB88320 else crc >>> 1

/-- One byte of the reflected CRC: XOR the byte in, then eight bit steps. -/
def crc_byte (crc b : Nat) : Nat :=
  crc_bit (crc_bit (crc_bit (crc_bit (crc_bit (crc_bit (crc_bit (crc_bit (crc ^^^ b))))))))

/-- The reference CRC-32 of a list of bytes. -/
def crc32_reference (bytes : List Nat) : Nat :=
  bytes.foldl crc_byte 0xFFFFFFFF ^^^ 0xFFFFFFFF

/-! ## Auxiliary definitions used in the proofs -/

/-- The array `dest` of `encode_6_and_2_256` when the XOR pass starts. -/
def fill_256 (dest src : Buffer) : Buffer :=
  let dest := store_loop 0 (fun c _ =>
      bit_reverse.getD (peek src c &&& 3) 0 |||
      (bit_reverse.getD (peek src (c + 86) &&& 3) 0 <<< 2) |||
      (bit_reverse.getD (peek src (c + 172) &&& 3) 0 <<< 4)) 84 0 dest
  let dest := poke dest 84
      ((bit_reverse.getD (peek src 84 &&& 3) 0 <<< 0) ||| (bit_reverse.getD (peek src 170 &&& 3) 0 <<< 2))
  let dest := poke dest 85
      ((bit_reverse.getD (peek src 85 &&& 3) 0 <<< 0) ||| (bit_reverse.getD (peek src 171 &&& 3) 0 <<< 2))
  let dest := store_loop 86 (fun c _ => peek src c >>> 2) 256 0 dest
  poke dest 342 (peek dest 341)

/-- The array `dest` of `encode_6_and_2_128` when the XOR pass starts. -/
def fill_128 (dest src : Buffer) : Buffer :=
  let dest := store_loop 0 (fun c _ =>
      bit_reverse.getD (peek src c &&& 3) 0 |||
      (bit_reverse.getD (peek src (c + 43) &&& 3) 0 <<< 2) |||
      (bit_reverse.getD (peek src (c + 86) &&& 3) 0 <<< 4)) 42 0 dest
  let dest := poke dest 42
      (bit_reverse.getD (peek src 42 &&& 3) 0 ||| (bit_reverse.getD (peek src 85 &&& 3) 0 <<< 2))
  let dest := store_loop 43 (fun c _ => peek src c >>> 2) 128 0 dest
  poke dest 171 (peek dest 170)

/-- The two low bits of a source byte, as stored by the encoders. -/
def low2 (src : Buffer) (i : Nat) : Nat :=
  bit_reverse.getD (peek src i &&& 3) 0

/-- Cell `i` of `fill_256`, in closed form. -/
def pre_256 (src : Buffer) (i : Nat) : Nat :=
  if i < 84 then low2 src i ||| (low2 src (i + 86) <<< 2) ||| (low2 src (i + 172) <<< 4)
  else if i < 86 then low2 src i ||| (low2 src (i + 86) <<< 2)
  else if i < 342 then peek src (i - 86) >>> 2
  else peek src 255 >>> 2

/-- Cell `i` of `fill_128`, in closed form. -/
def pre_128 (src : Buffer) (i : Nat) : Nat :=
  if i < 42 then low2 src i ||| (low2 src (i + 43) <<< 2) ||| (low2 src (i + 86) <<< 4)
  else if i < 43 then low2 src i ||| (low2 src (i + 43) <<< 2)
  else if i < 171 then peek src (i - 43) >>> 2
  else peek src 127 >>> 2

/-- The effect of the XOR pass on a sequence of `n + 1` cells given in closed form. -/
def xored (pre : Nat → Nat) (n : Nat) (i : Nat) : Nat :=
  if 1 ≤ i ∧ i < n then pre i ^^^ pre (i - 1) else pre i

/-- The substitution of `write_byte_prologue` on a cell value. -/
def prologue_fix (x : Nat) : Nat :=
  if x = 0x0D then 0xCD else if x = 0x03 then 0xF3 else x

/-- The bit that writing the byte `v` at bit position `pos` puts at bit position `q`. -/
def byte_bit (pos v q : Nat) : Bool :=
  decide (pos ≤ q ∧ q < pos + 8) && v.testBit (7 - (q - pos))

/-- The state `st` of a writer started at bit position `p` on the buffer `buf0`:
it stands right after the bits `bits`, and from `p` on the buffer holds `bits`
OR-ed onto what `buf0` held. -/
def Written (buf0 : Buffer) (p : Nat) (bits : List Bool) (st : Buffer × Nat) : Prop :=
  st.1.length = buf0.length ∧ st.2 = p + bits.length ∧
  ∀ q, p ≤ q → read_bit st.1 q = (read_bit buf0 q || bits.getD (q - p) false)

/-- The step `track_position = write_byte(dest, track_position, v)` on the pair of
the buffer and the position. -/
def step_byte (v : Nat) (st : Buffer × Nat) : Buffer × Nat :=
  write_byte st.1 st.2 v

/-- The step `track_position = write_byte_prologue(dest, track_position, v)`. -/
def step_prologue (v : Nat) (st : Buffer × Nat) : Buffer × Nat :=
  write_byte_prologue st.1 st.2 v

/-- The step `track_position = write_4_and_4(dest, track_position, v)`. -/
def step_4_and_4 (v : Nat) (st : Buffer × Nat) : Buffer × Nat :=
  write_4_and_4 st.1 st.2 v

/-- The bytes of the prologue and epilogue sequences `D5 AA 96`, `D5 AA AD`, `DE AA EB`. -/
def framing_markers : List Nat :=
  [0xD5, 0xAA, 0x96, 0xD5, 0xAA, 0xAD, 0xDE, 0xAA, 0xEB]

/-- XOR-fold of a list: the XOR of all its entries. -/
def xor_fold (l : List Nat) : Nat :=
  l.foldl (fun acc x => acc ^^^ x) 0

/-! ### The cells a serialiser call indexes

The index expressions of the stores and reads on the track buffer, collected along
the same sequence of positions as the serialisers run through: a log is the pair of
the cells indexed so far and the current `track_position`. -/

/-- The cells `memset(buffer + start, _, count)` stores into. -/
def memset_cells (start count : Nat) : List Nat :=
  (List.range count).map (fun c => start + c)

/-- The cells `write_byte` and `write_byte_prologue` index at a position:
`buffer[byte_position]`, and `buffer[byte_position + 1]` when `shift` is not 0. -/
def write_byte_cells (position : Nat) : List Nat :=
  if position &&& 7 ≠ 0 then [position >>> 3, position >>> 3 + 1] else [position >>> 3]

/-- The log after one `write_byte` or `write_byte_prologue` call. -/
def log_byte (log : List Nat × Nat) : List Nat × Nat :=
  (log.1 ++ write_byte_cells log.2, log.2 + 8)

/-- The log after `count` consecutive byte writes. -/
def log_bytes : Nat → List Nat × Nat → List Nat × Nat
  | 0, log => log
  | count + 1, log => log_bytes count (log_byte log)

/-- The log after one `write_sync` call. -/
def log_sync (log : List Nat × Nat) : List Nat × Nat :=
  ((log_byte log).1, (log_byte log).2 + 2)

/-- The log after `count` consecutive `write_sync` calls. -/
def log_syncs : Nat → List Nat × Nat → List Nat × Nat
  | 0, log => log
  | count + 1, log => log_syncs count (log_sync log)

/-- The log of `serialise_sector_standard` started at `track_position`. -/
def serialise_sector_standard_cells (track_position : Nat) : List Nat × Nat :=
  let log := (memset_cells (track_position >>> 3) (3134 >>> 3), track_position)
  -- header prologue
  let log := log_bytes 3 log
  -- volume, track, sector and checksum, two bytes each
  let log := log_bytes 2 log
  let log := log_bytes 2 log
  let log := log_bytes 2 log
  let log := log_bytes 2 log
  -- header epilogue
  let log := log_bytes 3 log
  -- gap 2
  let log := log_syncs 7 log
  -- data prologue
  let log := log_bytes 3 log
  -- sector contents
  let log := log_bytes 343 log
  -- data epilogue
  let log := log_bytes 3 log
  -- gap 3
  log_syncs 16 log

/-- The log of `serialise_sector_custom1` started at `track_position`. -/
def serialise_sector_custom1_cells (track_position : Nat) : List Nat × Nat :=
  let log := (memset_cells (track_position >>> 3) (1590 >>> 3), track_position)
  -- header prologue
  let log := log_bytes 3 log
  -- sector number, two bytes
  let log := log_bytes 2 log
  -- gap 2
  let log := log_syncs 7 log
  -- data prologue
  let log := log_bytes 3 log
  -- sector contents
  let log := log_bytes 172 log
  -- gap 3
  log_syncs 8 log

/-- The writer state `st` has run through the log `log` from the buffer `buf0`: it
stands at the log's position and every cell outside the log is as in `buf0`. -/
def Logged (buf0 : Buffer) (log : List Nat × Nat) (st : Buffer × Nat) : Prop :=
  st.2 = log.2 ∧ ∀ j, j ∉ log.1 → peek st.1 j = peek buf0 j

/-- Every cell of the log lies in the `memset` span of `span` cells from the cell of
`p`, or before the log's position. -/
def LogBelow (p span : Nat) (log : List Nat × Nat) : Prop :=
  ∀ c ∈ log.1, c < p / 8 + span ∨ 8 * c < log.2

/-- Successive `write_bit` calls at advancing positions, `count` of them, supplying
bit `count - 1` of `value`, then the next lower bit, down to bit 0 (each bit as the
0 or 1 it is). -/
def write_bits (value : Nat) : Nat → Buffer × Nat → Buffer × Nat
  | 0, st => st
  | count + 1, st => write_bits value count (write_bit st.1 st.2 ((value >>> count) &&& 1))

/-- The standard 4-and-4 decode of the byte pair `a`, `b`: `((a << 1) | 1) & b`,
taken modulo 256. -/
def decode_4_and_4 (a b : Nat) : Nat :=
  (((a <<< 1) ||| 1) &&& b) % 256

/-- Writers at positions of at least `8 * lo` have left every cell below `lo` as it
is in `buf0`. -/
def Keeps (lo : Nat) (buf0 : Buffer) (st : Buffer × Nat) : Prop :=
  8 * lo ≤ st.2 ∧ ∀ j, j < lo → peek st.1 j = peek buf0 j

/-! ## Basic facts about buffers -/

theorem length_poke (b : Buffer) (i v : Nat) : (poke b i v).length = b.length := by
  simp [poke]

theorem peek_poke (b : Buffer) (i v j : Nat) :
    peek (poke b i v) j = if j = i ∧ i < b.length then v else peek b j := by
  unfold peek poke
  by_cases hji : j = i
  · subst hji
    by_cases hlt : j < b.length
    · simp [List.getD_eq_getElem?_getD, List.getElem?_set, hlt]
    · have hle : b.length ≤ j := by omega
      simp [List.getD_eq_getElem?_getD, List.getElem?_set, hlt, List.getElem?_eq_none hle]
  · have hij : ¬ i = j := fun h => hji h.symm
    simp [List.getD_eq_getElem?_getD, List.getElem?_set, hji, hij]

theorem peek_poke_ne (b : Buffer) (i v j : Nat) (h : j ≠ i) : peek (poke b i v) j = peek b j := by
  rw [peek_poke]; simp [h]

theorem peek_poke_self (b : Buffer) (i v : Nat) (h : i < b.length) : peek (poke b i v) i = v := by
  rw [peek_poke]; simp [h]

theorem peek_of_length_le (b : Buffer) (i : Nat) (h : b.length ≤ i) : peek b i = 0 := by
  unfold peek
  simp [List.getD_eq_getElem?_getD, List.getElem?_eq_none h]

theorem length_store_loop (base : Nat) (value : Nat → Buffer → Nat) (count c : Nat) (dest : Buffer) :
    (store_loop base value count c dest).length = dest.length := by
  induction count generalizing c dest with
  | zero => rfl
  | succ k ih => simp [store_loop, ih, length_poke]

/-- A store loop whose stored value looks only at the cell it stores into (or at
nothing of the buffer) acts cell by cell. -/
theorem peek_store_loop (base : Nat) (value : Nat → Buffer → Nat)
    (hv : ∀ c d d', peek d (base + c) = peek d' (base + c) → value c d = value c d')
    (count c : Nat) (dest : Buffer) (i : Nat) :
    peek (store_loop base value count c dest) i =
      if base + c ≤ i ∧ i < base + c + count ∧ i < dest.length then value (i - base) dest
      else peek dest i := by
  induction count generalizing c dest with
  | zero =>
    have : ¬ (base + c ≤ i ∧ i < base + c + 0 ∧ i < dest.length) := by omega
    rw [if_neg this]; rfl
  | succ k ih =>
    rw [store_loop, ih, length_poke]
    by_cases h1 : base + (c + 1) ≤ i ∧ i < base + (c + 1) + k ∧ i < dest.length
    · have h2 : base + c ≤ i ∧ i < base + c + (k + 1) ∧ i < dest.length := by omega
      rw [if_pos h1, if_pos h2]
      apply hv
      rw [peek_poke_ne]
      omega
    · rw [if_neg h1]
      by_cases h3 : i = base + c ∧ base + c < dest.length
      · have h2 : base + c ≤ i ∧ i < base + c + (k + 1) ∧ i < dest.length := by omega
        rw [if_pos h2, peek_poke, if_pos h3]
        have : i - base = c := by omega
        rw [this]
      · have h2 : ¬ (base + c ≤ i ∧ i < base + c + (k + 1) ∧ i < dest.length) := by omega
        rw [if_neg h2, peek_poke, if_neg h3]

theorem length_memset (b : Buffer) (start value count : Nat) :
    (memset b start value count).length = b.length := by
  simp [memset, length_store_loop]

theorem peek_memset (b : Buffer) (start value count i : Nat) :
    peek (memset b start value count) i =
      if start ≤ i ∧ i < start + count ∧ i < b.length then value else peek b i := by
  unfold memset
  rw [peek_store_loop start (fun _ _ => value) (fun _ _ _ _ => rfl)]
  simp

theorem length_xor_loop (n : Nat) (dest : Buffer) : (xor_loop n dest).length = dest.length := by
  induction n generalizing dest with
  | zero => rfl
  | succ m ih =>
    cases m with
    | zero => rfl
    | succ l => rw [xor_loop, ih, length_poke]

theorem peek_xor_loop (n : Nat) (dest : Buffer) (hn : n ≤ dest.length) (i : Nat) :
    peek (xor_loop n dest) i =
      if 1 ≤ i ∧ i < n then peek dest i ^^^ peek dest (i - 1) else peek dest i := by
  induction n generalizing dest with
  | zero => simp [xor_loop]
  | succ m ih =>
    cases m with
    | zero =>
      have : ¬ (1 ≤ i ∧ i < 0 + 1) := by omega
      rw [if_neg this]; rfl
    | succ l =>
      rw [xor_loop, ih _ (by rw [length_poke]; omega)]
      by_cases h1 : 1 ≤ i ∧ i < l + 1
      · have h2 : 1 ≤ i ∧ i < l + 1 + 1 := by omega
        rw [if_pos h1, if_pos h2, peek_poke_ne _ _ _ _ (by omega), peek_poke_ne _ _ _ _ (by omega)]
      · rw [if_neg h1]
        by_cases h3 : i = l + 1
        · subst h3
          have h2 : 1 ≤ l + 1 ∧ l + 1 < l + 1 + 1 := by omega
          rw [if_pos h2, peek_poke_self _ _ _ (by omega)]
          simp
        · have h2 : ¬ (1 ≤ i ∧ i < l + 1 + 1) := by omega
          rw [if_neg h2, peek_poke_ne _ _ _ _ h3]

/-! ## The encoders -/

theorem peek_store_loop_const (base : Nat) (f : Nat → Nat) (count c : Nat) (dest : Buffer) (i : Nat) :
    peek (store_loop base (fun c _ => f c) count c dest) i =
      if base + c ≤ i ∧ i < base + c + count ∧ i < dest.length then f (i - base)
      else peek dest i :=
  peek_store_loop base (fun c _ => f c) (fun _ _ _ _ => rfl) count c dest i

theorem peek_store_loop_cell (g : Nat → Nat) (count c : Nat) (dest : Buffer) (i : Nat) :
    peek (store_loop 0 (fun c d => g (peek d c)) count c dest) i =
      if c ≤ i ∧ i < c + count ∧ i < dest.length then g (peek dest i) else peek dest i := by
  rw [peek_store_loop 0 (fun c d => g (peek d c))
    (fun c d d' h => by simp only [Nat.zero_add] at h; simp only [h])]
  simp only [Nat.zero_add, Nat.sub_zero]

theorem encode_6_and_2_256_eq (dest src : Buffer) :
    encode_6_and_2_256 dest src =
      store_loop 0 (fun c d => six_and_two_mapping.getD (peek d c) 0) 343 0
        (xor_loop 342 (fill_256 dest src)) := rfl

theorem encode_6_and_2_128_eq (dest src : Buffer) :
    encode_6_and_2_128 dest src =
      store_loop 0 (fun c d => six_and_two_mapping.getD (peek d c) 0) 172 0
        (xor_loop 171 (fill_128 dest src)) := rfl

theorem length_fill_256 (dest src : Buffer) : (fill_256 dest src).length = dest.length := by
  simp [fill_256, length_poke, length_store_loop]

theorem length_fill_128 (dest src : Buffer) : (fill_128 dest src).length = dest.length := by
  simp [fill_128, length_poke, length_store_loop]

theorem peek_fill_256 (dest src : Buffer) (hd : dest.length = 343) (i : Nat) (hi : i < 343) :
    peek (fill_256 dest src) i = pre_256 src i := by
  unfold fill_256 pre_256 low2
  simp only [peek_poke, peek_store_loop_const, length_poke, length_store_loop, hd]
  split_ifs <;> first | rfl | omega | simp_all

theorem peek_fill_128 (dest src : Buffer) (hd : dest.length = 172) (i : Nat) (hi : i < 172) :
    peek (fill_128 dest src) i = pre_128 src i := by
  unfold fill_128 pre_128 low2
  simp only [peek_poke, peek_store_loop_const, length_poke, length_store_loop, hd]
  split_ifs <;> first | rfl | omega | simp_all

theorem length_encode_6_and_2_256 (dest src : Buffer) :
    (encode_6_and_2_256 dest src).length = dest.length := by
  rw [encode_6_and_2_256_eq, length_store_loop, length_xor_loop, length_fill_256]

theorem length_encode_6_and_2_128 (dest src : Buffer) :
    (encode_6_and_2_128 dest src).length = dest.length := by
  rw [encode_6_and_2_128_eq, length_store_loop, length_xor_loop, length_fill_128]

/-- Every cell of the 256-byte encoder's output is the table entry of the XOR-ed
closed form. -/
theorem peek_encode_6_and_2_256 (dest src : Buffer) (hd : dest.length = 343) (i : Nat)
    (hi : i < 343) :
    peek (encode_6_and_2_256 dest src) i =
      six_and_two_mapping.getD (xored (pre_256 src) 342 i) 0 := by
  rw [encode_6_and_2_256_eq, peek_store_loop_cell (fun x => six_and_two_mapping.getD x 0),
    length_xor_loop, length_fill_256, hd,
    if_pos (by omega), peek_xor_loop _ _ (by rw [length_fill_256]; omega)]
  unfold xored
  split_ifs with h
  · rw [peek_fill_256 _ _ hd _ hi, peek_fill_256 _ _ hd _ (by omega)]
  · rw [peek_fill_256 _ _ hd _ hi]

/-- Every cell of the 128-byte encoder's output is the table entry of the XOR-ed
closed form. -/
theorem peek_encode_6_and_2_128 (dest src : Buffer) (hd : dest.length = 172) (i : Nat)
    (hi : i < 172) :
    peek (encode_6_and_2_128 dest src) i =
      six_and_two_mapping.getD (xored (pre_128 src) 171 i) 0 := by
  rw [encode_6_and_2_128_eq, peek_store_loop_cell (fun x => six_and_two_mapping.getD x 0),
    length_xor_loop, length_fill_128, hd,
    if_pos (by omega), peek_xor_loop _ _ (by rw [length_fill_128]; omega)]
  unfold xored
  split_ifs with h
  · rw [peek_fill_128 _ _ hd _ hi, peek_fill_128 _ _ hd _ (by omega)]
  · rw [peek_fill_128 _ _ hd _ hi]

/-! ### Small facts about the tables -/

theorem bit_reverse_facts :
    ∀ y < 4, bit_reverse.getD y 0 < 4 ∧ bit_reverse.getD (bit_reverse.getD y 0) 0 = y := by
  decide

theorem low2_lt (src : Buffer) (i : Nat) : low2 src i < 4 := by
  unfold low2
  have h : peek src i &&& 3 < 4 := Nat.lt_succ_of_le Nat.and_le_right
  exact (bit_reverse_facts _ h).1

theorem pack3_facts : ∀ a < 4, ∀ b < 4, ∀ c < 4,
    (a ||| (b <<< 2) ||| (c <<< 4)) < 64 ∧
    ((a ||| (b <<< 2) ||| (c <<< 4)) >>> 0) &&& 3 = a ∧
    ((a ||| (b <<< 2) ||| (c <<< 4)) >>> 2) &&& 3 = b ∧
    ((a ||| (b <<< 2) ||| (c <<< 4)) >>> 4) &&& 3 = c := by
  decide

theorem pack2_facts : ∀ a < 4, ∀ b < 4,
    (a ||| (b <<< 2)) < 64 ∧
    ((a ||| (b <<< 2)) >>> 0) &&& 3 = a ∧
    ((a ||| (b <<< 2)) >>> 2) &&& 3 = b := by
  decide

theorem unmap_mapping : ∀ x < 64, unmap (six_and_two_mapping.getD x 0) = x := by
  decide

theorem peek_lt_256 (src : Buffer) (hb : ∀ b ∈ src, b < 256) (i : Nat) : peek src i < 256 := by
  unfold peek
  rw [List.getD_eq_getElem?_getD]
  by_cases h : i < src.length
  · rw [List.getElem?_eq_getElem h]
    exact hb _ (List.getElem_mem h)
  · rw [List.getElem?_eq_none (by omega)]
    decide

theorem shift2_lt (v : Nat) (h : v < 256) : v >>> 2 < 64 := by
  rw [Nat.shiftRight_eq_div_pow]
  omega

theorem pre_256_lt (src : Buffer) (hb : ∀ b ∈ src, b < 256) (i : Nat) : pre_256 src i < 64 := by
  unfold pre_256
  split_ifs
  · exact (pack3_facts _ (low2_lt _ _) _ (low2_lt _ _) _ (low2_lt _ _)).1
  · exact (pack2_facts _ (low2_lt _ _) _ (low2_lt _ _)).1
  · exact shift2_lt _ (peek_lt_256 _ hb _)
  · exact shift2_lt _ (peek_lt_256 _ hb _)

theorem pre_128_lt (src : Buffer) (hb : ∀ b ∈ src, b < 256) (i : Nat) : pre_128 src i < 64 := by
  unfold pre_128
  split_ifs
  · exact (pack3_facts _ (low2_lt _ _) _ (low2_lt _ _) _ (low2_lt _ _)).1
  · exact (pack2_facts _ (low2_lt _ _) _ (low2_lt _ _)).1
  · exact shift2_lt _ (peek_lt_256 _ hb _)
  · exact shift2_lt _ (peek_lt_256 _ hb _)

theorem xored_lt (pre : Nat → Nat) (hp : ∀ i, pre i < 64) (n i : Nat) : xored pre n i < 64 := by
  unfold xored
  split_ifs
  · exact Nat.xor_lt_two_pow (n := 6) (hp _) (hp _)
  · exact hp _

/-- XOR-unfolding the XOR-ed cells gives the cells back, up to the last but one. -/
theorem xor_unfold_xored (e pre : Nat → Nat) (n : Nat)
    (he : ∀ k, k < n → e k = xored pre n k) (i : Nat) (hi : i < n) :
    xor_unfold e i = pre i := by
  induction i with
  | zero =>
    rw [xor_unfold, he 0 hi]
    simp [xored]
  | succ k ih =>
    rw [xor_unfold, ih (by omega), he _ hi]
    unfold xored
    rw [if_pos (by omega), Nat.add_sub_cancel, Nat.xor_assoc, Nat.xor_self, Nat.xor_zero]

/-- The last cell is the copy of the last but one, so the unfolded run ends in 0. -/
theorem xor_unfold_last (e pre : Nat → Nat) (n : Nat)
    (he : ∀ k, k < n + 2 → e k = xored pre (n + 1) k) (hlast : pre (n + 1) = pre n) :
    xor_unfold e (n + 1) = 0 := by
  have h1 : xor_unfold e n = pre n :=
    xor_unfold_xored e pre (n + 1) (fun k hk => he k (by omega)) n (by omega)
  rw [xor_unfold, h1, he _ (by omega)]
  unfold xored
  rw [if_neg (by omega), hlast, Nat.xor_self]

set_option maxRecDepth 8192 in
theorem join_facts :
    ∀ v < 256, ((v >>> 2) <<< 2) ||| bit_reverse.getD (bit_reverse.getD (v &&& 3) 0) 0 = v := by
  decide

theorem low_extract_256 (s : Buffer) (i : Nat) (hi : i < 256) :
    (pre_256 s (i % 86) >>> (2 * (i / 86))) &&& 3 = low2 s i := by
  have h3 := fun k => pack3_facts _ (low2_lt s k) _ (low2_lt s (k + 86)) _ (low2_lt s (k + 172))
  have h2 := fun k => pack2_facts _ (low2_lt s k) _ (low2_lt s (k + 86))
  unfold pre_256
  rcases Nat.lt_or_ge i 86 with h | h
  · have e1 : i % 86 = i := by omega
    have e2 : 2 * (i / 86) = 0 := by omega
    rw [e1, e2]
    split_ifs
    · exact (h3 i).2.1
    · exact (h2 i).2.1
  · rcases Nat.lt_or_ge i 172 with h' | h'
    · have e2 : 2 * (i / 86) = 2 := by omega
      have e3 : i = i % 86 + 86 := by omega
      rw [e2]
      split_ifs
      · rw [(h3 (i % 86)).2.2.1, ← e3]
      · rw [(h2 (i % 86)).2.2, ← e3]
      all_goals omega
    · have e2 : 2 * (i / 86) = 4 := by omega
      have e3 : i = i % 86 + 172 := by omega
      rw [e2, if_pos (by omega), (h3 (i % 86)).2.2.2, ← e3]

theorem low_extract_128 (s : Buffer) (i : Nat) (hi : i < 128) :
    (pre_128 s (i % 43) >>> (2 * (i / 43))) &&& 3 = low2 s i := by
  have h3 := fun k => pack3_facts _ (low2_lt s k) _ (low2_lt s (k + 43)) _ (low2_lt s (k + 86))
  have h2 := fun k => pack2_facts _ (low2_lt s k) _ (low2_lt s (k + 43))
  unfold pre_128
  rcases Nat.lt_or_ge i 43 with h | h
  · have e1 : i % 43 = i := by omega
    have e2 : 2 * (i / 43) = 0 := by omega
    rw [e1, e2]
    split_ifs
    · exact (h3 i).2.1
    · exact (h2 i).2.1
  · rcases Nat.lt_or_ge i 86 with h' | h'
    · have e2 : 2 * (i / 43) = 2 := by omega
      have e3 : i = i % 43 + 43 := by omega
      rw [e2]
      split_ifs
      · rw [(h3 (i % 43)).2.2.1, ← e3]
      · rw [(h2 (i % 43)).2.2, ← e3]
      all_goals omega
    · have e2 : 2 * (i / 43) = 4 := by omega
      have e3 : i = i % 43 + 86 := by omega
      rw [e2, if_pos (by omega), (h3 (i % 43)).2.2.2, ← e3]

theorem range_map_peek (s : List Nat) (n : Nat) (h : s.length = n) :
    (List.range n).map (peek s) = s := by
  subst h
  apply List.ext_getElem
  · simp
  · intro i h1 h2
    simp [peek, List.getD_eq_getElem?_getD, List.getElem?_eq_getElem h2]

/-- The cells of the encoder's output, un-mapped, are the XOR-ed closed form. -/
theorem unmap_encode_256 (dest s : Buffer) (hd : dest.length = 343) (hb : ∀ b ∈ s, b < 256)
    (k : Nat) (hk : k < 343) :
    unmap ((encode_6_and_2_256 dest s).getD k 0) = xored (pre_256 s) 342 k := by
  have h := peek_encode_6_and_2_256 dest s hd k hk
  unfold peek at h
  rw [h, unmap_mapping _ (xored_lt _ (pre_256_lt s hb) _ _)]

theorem unmap_encode_128 (dest s : Buffer) (hd : dest.length = 172) (hb : ∀ b ∈ s, b < 256)
    (k : Nat) (hk : k < 172) :
    unmap ((encode_6_and_2_128 dest s).getD k 0) = xored (pre_128 s) 171 k := by
  have h := peek_encode_6_and_2_128 dest s hd k hk
  unfold peek at h
  rw [h, unmap_mapping _ (xored_lt _ (pre_128_lt s hb) _ _)]

theorem decode_encode_256 (dest s : Buffer) (hd : dest.length = 343) (hlen : s.length = 256)
    (hb : ∀ b ∈ s, b < 256) :
    decode_6_and_2_256 (encode_6_and_2_256 dest s) = s := by
  have hx : ∀ i, i < 342 →
      xor_unfold (fun i => unmap ((encode_6_and_2_256 dest s).getD i 0)) i = pre_256 s i :=
    fun i hi => xor_unfold_xored _ (pre_256 s) 342
      (fun k hk => unmap_encode_256 dest s hd hb k (by omega)) i hi
  unfold decode_6_and_2_256
  conv_rhs => rw [← range_map_peek s 256 hlen]
  apply List.map_congr_left
  intro i hi
  have hi' : i < 256 := List.mem_range.mp hi
  rw [hx _ (by omega), hx _ (by omega), low_extract_256 s i hi']
  have e : pre_256 s (86 + i) = peek s i >>> 2 := by
    unfold pre_256
    rw [if_neg (by omega), if_neg (by omega), if_pos (by omega)]
    congr 2; omega
  rw [e]
  exact join_facts _ (peek_lt_256 s hb i)

theorem decode_encode_128 (dest s : Buffer) (hd : dest.length = 172) (hlen : s.length = 128)
    (hb : ∀ b ∈ s, b < 256) :
    decode_6_and_2_128 (encode_6_and_2_128 dest s) = s := by
  have hx : ∀ i, i < 171 →
      xor_unfold (fun i => unmap ((encode_6_and_2_128 dest s).getD i 0)) i = pre_128 s i :=
    fun i hi => xor_unfold_xored _ (pre_128 s) 171
      (fun k hk => unmap_encode_128 dest s hd hb k (by omega)) i hi
  unfold decode_6_and_2_128
  conv_rhs => rw [← range_map_peek s 128 hlen]
  apply List.map_congr_left
  intro i hi
  have hi' : i < 128 := List.mem_range.mp hi
  rw [hx _ (by omega), hx _ (by omega), low_extract_128 s i hi']
  have e : pre_128 s (43 + i) = peek s i >>> 2 := by
    unfold pre_128
    rw [if_neg (by omega), if_neg (by omega), if_pos (by omega)]
    congr 2; omega
  rw [e]
  exact join_facts _ (peek_lt_256 s hb i)

/-- C1. For every 256-byte sector `s` (bytes 0..255) and whatever the 343-cell
array `dest` held before, `encode_6_and_2_256` leaves exactly 343 cells from which
the inverse procedure (un-map, XOR-unfold, recombine) returns `s`; hence two
sectors with the same encoding are equal. -/
theorem encode_6_and_2_256_roundtrip (s : List Nat) (hlen : s.length = 256)
    (hb : ∀ b ∈ s, b < 256) (dest : Buffer) (hd : dest.length = 343) :
    (encode_6_and_2_256 dest s).length = 343 ∧
    decode_6_and_2_256 (encode_6_and_2_256 dest s) = s ∧
    ∀ s' : List Nat, s'.length = 256 → (∀ b ∈ s', b < 256) →
      encode_6_and_2_256 dest s' = encode_6_and_2_256 dest s → s' = s := by
  refine ⟨by rw [length_encode_6_and_2_256, hd], decode_encode_256 dest s hd hlen hb, ?_⟩
  intro s' hlen' hb' heq
  rw [← decode_encode_256 dest s' hd hlen' hb', heq, decode_encode_256 dest s hd hlen hb]

/-- C1, at the all-zero sector. -/
theorem encode_6_and_2_256_roundtrip_witness :
    (List.replicate 256 0).length = 256 ∧
    (encode_6_and_2_256 (zero_buffer 343) (List.replicate 256 0)).length = 343 ∧
    decode_6_and_2_256 (encode_6_and_2_256 (zero_buffer 343) (List.replicate 256 0))
      = List.replicate 256 0 :=
  have h := encode_6_and_2_256_roundtrip (List.replicate 256 0) (List.length_replicate 256 0)
    (fun b h => by rw [List.eq_of_mem_replicate h]; decide) (zero_buffer 343)
    (List.length_replicate 343 0)
  ⟨List.length_replicate 256 0, h.1, h.2.1⟩

/-- C2. For every 128-byte sector `s` (bytes 0..255) and whatever the 172-cell
array `dest` held before, `encode_6_and_2_128` leaves exactly 172 cells from which
the inverse procedure (un-map, XOR-unfold, recombine) returns `s`; the low two
bits of each of the 128 source bytes are read back from the first 43 cells. -/
theorem encode_6_and_2_128_roundtrip (s : List Nat) (hlen : s.length = 128)
    (hb : ∀ b ∈ s, b < 256) (dest : Buffer) (hd : dest.length = 172) :
    (encode_6_and_2_128 dest s).length = 172 ∧
    decode_6_and_2_128 (encode_6_and_2_128 dest s) = s ∧
    ∀ i, i < 128 →
      bit_reverse.getD
        ((xor_unfold (fun k => unmap (((encode_6_and_2_128 dest s).take 43).getD k 0)) (i % 43)
            >>> (2 * (i / 43))) &&& 3) 0
        = s.getD i 0 &&& 3 := by
  refine ⟨by rw [length_encode_6_and_2_128, hd], decode_encode_128 dest s hd hlen hb, ?_⟩
  intro i hi
  have hx : xor_unfold (fun k => unmap (((encode_6_and_2_128 dest s).take 43).getD k 0)) (i % 43)
      = pre_128 s (i % 43) := by
    apply xor_unfold_xored _ (pre_128 s) 43 _ _ (by omega)
    intro k hk
    have h1 : ((encode_6_and_2_128 dest s).take 43).getD k 0
        = (encode_6_and_2_128 dest s).getD k 0 := by
      simp [List.getD_eq_getElem?_getD, List.getElem?_take, hk]
    rw [h1, unmap_encode_128 dest s hd hb k (by omega)]
    unfold xored
    by_cases h : 1 ≤ k
    · rw [if_pos (by omega), if_pos (by omega)]
    · rw [if_neg (by omega), if_neg (by omega)]
  rw [hx, low_extract_128 s i hi]
  unfold low2
  exact (bit_reverse_facts _ (Nat.lt_succ_of_le Nat.and_le_right)).2

/-- C2, at the all-zero sector. -/
theorem encode_6_and_2_128_roundtrip_witness :
    (List.replicate 128 0).length = 128 ∧
    (encode_6_and_2_128 (zero_buffer 172) (List.replicate 128 0)).length = 172 ∧
    decode_6_and_2_128 (encode_6_and_2_128 (zero_buffer 172) (List.replicate 128 0))
      = List.replicate 128 0 :=
  have h := encode_6_and_2_128_roundtrip (List.replicate 128 0) (List.length_replicate 128 0)
    (fun b h => by rw [List.eq_of_mem_replicate h]; decide) (zero_buffer 172)
    (List.length_replicate 172 0)
  ⟨List.length_replicate 128 0, h.1, h.2.1⟩

/-! ## The bit writer -/

theorem and_7 (x : Nat) : x &&& 7 = x % 8 := Nat.and_pow_two_sub_one_eq_mod x 3

theorem shr_3 (x : Nat) : x >>> 3 = x / 8 := Nat.shiftRight_eq_div_pow x 3

theorem read_bit_eq (buf : Buffer) (q : Nat) :
    read_bit buf q = (peek buf (q / 8)).testBit (7 - q % 8) := by
  unfold read_bit
  rw [and_7, shr_3]

theorem testBit_byte_or (x y k : Nat) (hk : k < 8) :
    ((x ||| y) % 256).testBit k = (x.testBit k || y.testBit k) := by
  have h : (256 : Nat) = 2 ^ 8 := rfl
  rw [h, Nat.testBit_mod_two_pow, Nat.testBit_or]
  simp [hk]

theorem testBit_high (v j : Nat) (hv : v < 256) (hj : 8 ≤ j) : v.testBit j = false := by
  apply Nat.testBit_lt_two_pow
  calc v < 2 ^ 8 := hv
    _ ≤ 2 ^ j := Nat.pow_le_pow_right (by decide) hj

theorem write_byte_snd (buf : Buffer) (pos v : Nat) : (write_byte buf pos v).2 = pos + 8 := rfl

theorem write_byte_prologue_snd (buf : Buffer) (pos v : Nat) :
    (write_byte_prologue buf pos v).2 = pos + 8 := rfl

theorem length_write_byte (buf : Buffer) (pos v : Nat) :
    (write_byte buf pos v).1.length = buf.length := by
  unfold write_byte
  simp only []
  split_ifs <;> simp [length_poke]

theorem length_write_byte_prologue (buf : Buffer) (pos v : Nat) :
    (write_byte_prologue buf pos v).1.length = buf.length := by
  unfold write_byte_prologue
  simp only []
  split_ifs <;> simp [length_poke]

/-- The cells `write_byte` leaves, when the eight bits lie inside the buffer. -/
theorem peek_write_byte (buf : Buffer) (pos v j : Nat) (hfit : pos + 8 ≤ 8 * buf.length) :
    peek (write_byte buf pos v).1 j =
      if j = pos / 8 then (peek buf j ||| (v >>> (pos % 8))) % 256
      else if j = pos / 8 + 1 ∧ pos % 8 ≠ 0 then (peek buf j ||| (v <<< (8 - pos % 8))) % 256
      else peek buf j := by
  unfold write_byte
  simp only [and_7, shr_3]
  by_cases hs : pos % 8 ≠ 0
  · rw [if_pos hs]
    simp only [peek_poke, length_poke]
    by_cases h1 : j = pos / 8
    · subst h1
      rw [if_neg (by omega), if_pos ⟨rfl, by omega⟩, if_pos rfl]
    · by_cases h2 : j = pos / 8 + 1
      · subst h2
        rw [if_pos ⟨rfl, by omega⟩, if_neg (by omega), if_neg h1, if_pos ⟨rfl, hs⟩]
      · rw [if_neg (by omega), if_neg (by omega), if_neg h1, if_neg (by omega)]
  · rw [if_neg hs]
    simp only [peek_poke]
    by_cases h1 : j = pos / 8
    · subst h1
      rw [if_pos ⟨rfl, by omega⟩, if_pos rfl]
    · rw [if_neg (by omega), if_neg h1, if_neg (by omega)]

/-- The bits `write_byte` leaves: the bits of `v` OR-ed onto what was there. -/
theorem read_bit_write_byte (buf : Buffer) (pos v q : Nat) (hv : v < 256)
    (hfit : pos + 8 ≤ 8 * buf.length) :
    read_bit (write_byte buf pos v).1 q = (read_bit buf q || byte_bit pos v q) := by
  rw [read_bit_eq, read_bit_eq, peek_write_byte buf pos v _ hfit]
  unfold byte_bit
  have hk : 7 - q % 8 < 8 := by omega
  by_cases h1 : q / 8 = pos / 8
  · rw [if_pos h1, testBit_byte_or _ _ _ hk, Nat.testBit_shiftRight]
    by_cases h2 : pos % 8 ≤ q % 8
    · have e1 : decide (pos ≤ q ∧ q < pos + 8) = true := by
        rw [decide_eq_true_iff]; omega
      have e2 : pos % 8 + (7 - q % 8) = 7 - (q - pos) := by omega
      rw [e1, e2, Bool.true_and]
    · have e1 : decide (pos ≤ q ∧ q < pos + 8) = false := by
        rw [decide_eq_false_iff_not]; omega
      rw [e1, testBit_high v _ hv (by omega), Bool.false_and]
  · rw [if_neg h1]
    by_cases h2 : q / 8 = pos / 8 + 1 ∧ pos % 8 ≠ 0
    · rw [if_pos h2, testBit_byte_or _ _ _ hk, Nat.testBit_shiftLeft]
      by_cases h3 : q % 8 < pos % 8
      · have e1 : decide (pos ≤ q ∧ q < pos + 8) = true := by
          rw [decide_eq_true_iff]; omega
        have e2 : decide (7 - q % 8 ≥ 8 - pos % 8) = true := by
          rw [decide_eq_true_iff]; omega
        have e3 : 7 - q % 8 - (8 - pos % 8) = 7 - (q - pos) := by omega
        rw [e1, e2, e3]
      · have e1 : decide (pos ≤ q ∧ q < pos + 8) = false := by
          rw [decide_eq_false_iff_not]; omega
        have e2 : decide (7 - q % 8 ≥ 8 - pos % 8) = false := by
          rw [decide_eq_false_iff_not]; omega
        rw [e1, e2, Bool.false_and, Bool.false_and]
    · rw [if_neg h2]
      have e1 : decide (pos ≤ q ∧ q < pos + 8) = false := by
        rw [decide_eq_false_iff_not]; omega
      rw [e1, Bool.false_and, Bool.or_false]

/-! ### Bit lists -/

theorem length_bits_of_byte (v : Nat) : (bits_of_byte v).length = 8 := by
  simp [bits_of_byte]

theorem getD_bits_of_byte (v k : Nat) :
    (bits_of_byte v).getD k false = (decide (k < 8) && v.testBit (7 - k)) := by
  unfold bits_of_byte
  by_cases h : k < 8
  · simp [List.getD_eq_getElem?_getD, List.getElem?_map, List.getElem?_range h, h]
  · have h' : (List.map (fun i => v.testBit (7 - i)) (List.range 8)).length ≤ k := by
      simp; omega
    simp [List.getD_eq_getElem?_getD, List.getElem?_eq_none h', h]

theorem bits_of_bytes_nil : bits_of_bytes [] = [] := rfl

theorem bits_of_bytes_cons (v : Nat) (vs : List Nat) :
    bits_of_bytes (v :: vs) = bits_of_byte v ++ bits_of_bytes vs := by
  simp [bits_of_bytes]

theorem bits_of_bytes_append (us vs : List Nat) :
    bits_of_bytes (us ++ vs) = bits_of_bytes us ++ bits_of_bytes vs := by
  simp [bits_of_bytes]

theorem length_bits_of_bytes (vs : List Nat) : (bits_of_bytes vs).length = 8 * vs.length := by
  induction vs with
  | nil => rfl
  | cons v vs ih =>
    rw [bits_of_bytes_cons, List.length_append, length_bits_of_byte, ih, List.length_cons]
    omega

theorem length_sync_word : sync_word.length = 10 := by
  simp [sync_word, length_bits_of_byte]

theorem sync_words_succ (n : Nat) : sync_words (n + 1) = sync_word ++ sync_words n := by
  simp [sync_words, List.replicate_succ]

theorem length_sync_words (n : Nat) : (sync_words n).length = 10 * n := by
  induction n with
  | zero => rfl
  | succ n ih =>
    rw [sync_words_succ, List.length_append, length_sync_word, ih]
    omega

/-! ### The invariant of a run of writes -/

theorem written_init (buf0 : Buffer) (p : Nat) : Written buf0 p [] (buf0, p) := by
  refine ⟨rfl, rfl, ?_⟩
  intro q _
  simp

theorem written_write_byte (buf0 : Buffer) (p : Nat) (bits : List Bool) (st : Buffer × Nat)
    (h : Written buf0 p bits st) (v : Nat) (hv : v < 256)
    (hfit : st.2 + 8 ≤ 8 * buf0.length) :
    Written buf0 p (bits ++ bits_of_byte v) (write_byte st.1 st.2 v) := by
  obtain ⟨hl, hp, hq⟩ := h
  refine ⟨by rw [length_write_byte, hl], ?_, ?_⟩
  · rw [write_byte_snd, hp, List.length_append, length_bits_of_byte]
    omega
  · intro q hpq
    rw [read_bit_write_byte _ _ _ _ hv (by rw [hl]; exact hfit), hq q hpq, Bool.or_assoc]
    congr 1
    unfold byte_bit
    by_cases h1 : q - p < bits.length
    · rw [List.getD_append _ _ _ _ h1]
      have e1 : decide (st.2 ≤ q ∧ q < st.2 + 8) = false := by
        rw [decide_eq_false_iff_not]; omega
      rw [e1, Bool.false_and, Bool.or_false]
    · have h2 : bits.length ≤ q - p := by omega
      rw [List.getD_append_right _ _ _ _ h2, getD_bits_of_byte]
      have e0 : bits.getD (q - p) false = false := by
        simp [List.getD_eq_getElem?_getD, List.getElem?_eq_none h2]
      have e2 : q - p - bits.length = q - st.2 := by omega
      rw [e0, e2, Bool.false_or]
      congr 1
      rw [decide_eq_decide]
      omega

theorem getD_append_two_false (l : List Bool) (k : Nat) :
    (l ++ [false, false]).getD k false = l.getD k false := by
  by_cases h : k < l.length
  · rw [List.getD_append _ _ _ _ h]
  · have h2 : l.length ≤ k := by omega
    rw [List.getD_append_right _ _ _ _ h2]
    have e0 : l.getD k false = false := by
      simp [List.getD_eq_getElem?_getD, List.getElem?_eq_none h2]
    rw [e0]
    rcases Nat.lt_or_ge (k - l.length) 2 with h3 | h3
    · interval_cases (k - l.length) <;> rfl
    · simp [List.getD_eq_getElem?_getD, List.getElem?_eq_none (l := [false, false]) h3]

theorem written_write_sync (buf0 : Buffer) (p : Nat) (bits : List Bool) (st : Buffer × Nat)
    (h : Written buf0 p bits st) (hfit : st.2 + 8 ≤ 8 * buf0.length) :
    Written buf0 p (bits ++ sync_word) (write_sync st.1 st.2) := by
  obtain ⟨hl, hp, hq⟩ := written_write_byte buf0 p bits st h 0xff (by decide) hfit
  unfold write_sync sync_word
  rw [← List.append_assoc]
  refine ⟨hl, ?_, ?_⟩
  · simp only [hp, List.length_append, List.length_cons, List.length_nil]
    omega
  · intro q hpq
    rw [getD_append_two_false]
    exact hq q hpq

theorem written_write_syncs (buf0 : Buffer) (p : Nat) (n : Nat) (bits : List Bool)
    (st : Buffer × Nat) (h : Written buf0 p bits st)
    (hfit : st.2 + 10 * n ≤ 8 * buf0.length + 2) :
    Written buf0 p (bits ++ sync_words n) (write_syncs n st) := by
  induction n generalizing bits st with
  | zero => simpa [sync_words, write_syncs] using h
  | succ n ih =>
    rw [write_syncs, sync_words_succ, ← List.append_assoc]
    have h1 := written_write_sync buf0 p bits st h (by omega)
    apply ih _ _ h1
    have e := h.2.1
    rw [h1.2.1, List.length_append, length_sync_word]
    omega

theorem written_write_4_and_4 (buf0 : Buffer) (p : Nat) (bits : List Bool) (st : Buffer × Nat)
    (h : Written buf0 p bits st) (v : Nat) (hv : v < 256)
    (hfit : st.2 + 16 ≤ 8 * buf0.length) :
    Written buf0 p (bits ++ bits_of_bytes (four_and_four v)) (write_4_and_4 st.1 st.2 v) := by
  have hv1 : (v >>> 1) ||| 0xaa < 256 :=
    Nat.or_lt_two_pow (n := 8) (by rw [Nat.shiftRight_eq_div_pow]; omega) (by decide)
  have hv2 : v ||| 0xaa < 256 := Nat.or_lt_two_pow (n := 8) hv (by decide)
  have h1 := written_write_byte buf0 p bits st h _ hv1 (by omega)
  have h2 := written_write_byte buf0 p _ _ h1 _ hv2 (by rw [write_byte_snd]; omega)
  unfold write_4_and_4 four_and_four
  rw [bits_of_bytes_cons, bits_of_bytes_cons, bits_of_bytes_nil, List.append_nil,
    ← List.append_assoc]
  exact h2

theorem written_write_bytes (buf0 : Buffer) (p : Nat) (vs : List Nat) (bits : List Bool)
    (st : Buffer × Nat) (h : Written buf0 p bits st) (hv : ∀ v ∈ vs, v < 256)
    (hfit : st.2 + 8 * vs.length ≤ 8 * buf0.length) :
    Written buf0 p (bits ++ bits_of_bytes vs) (write_bytes st.1 st.2 vs) := by
  induction vs generalizing bits st with
  | nil => simpa [write_bytes, bits_of_bytes_nil] using h
  | cons v vs ih =>
    rw [write_bytes, bits_of_bytes_cons, ← List.append_assoc]
    rw [List.length_cons] at hfit
    have h1 := written_write_byte buf0 p bits st h v (hv v (List.mem_cons_self v vs)) (by omega)
    apply ih _ _ h1 (fun w hw => hv w (List.mem_cons_of_mem v hw))
    rw [write_byte_snd]
    omega

theorem write_contents_eq (contents : Buffer) (count c : Nat) (st : Buffer × Nat) :
    write_contents contents count c st =
      write_bytes st.1 st.2 ((List.range count).map (fun k => peek contents (c + k))) := by
  induction count generalizing c st with
  | zero => rfl
  | succ n ih =>
    rw [write_contents, ih, List.range_succ_eq_map, List.map_cons, List.map_map, write_bytes]
    congr 1
    apply List.map_congr_left
    intro k _
    simp only [Function.comp, Nat.succ_eq_add_one]
    congr 1
    omega

theorem peek_zero_buffer (size j : Nat) : peek (zero_buffer size) j = 0 := by
  unfold peek zero_buffer
  rw [List.getD_eq_getElem?_getD, List.getElem?_replicate]
  split_ifs <;> rfl

theorem read_bit_zero_buffer (size q : Nat) : read_bit (zero_buffer size) q = false := by
  rw [read_bit_eq, peek_zero_buffer]
  exact Nat.zero_testBit _

theorem getD_bits_of_bytes (vs : List Nat) (i k : Nat) (hi : i < vs.length) (hk : k < 8) :
    (bits_of_bytes vs).getD (8 * i + k) false = (bits_of_byte (vs.getD i 0)).getD k false := by
  induction vs generalizing i with
  | nil => simp at hi
  | cons v vs ih =>
    rw [bits_of_bytes_cons]
    cases i with
    | zero =>
      rw [List.getD_append _ _ _ _ (by rw [length_bits_of_byte]; omega)]
      simp
    | succ j =>
      rw [List.getD_append_right _ _ _ _ (by rw [length_bits_of_byte]; omega),
        length_bits_of_byte]
      have e : 8 * (j + 1) + k - 8 = 8 * j + k := by omega
      rw [e, ih j (by simpa using hi)]
      simp

set_option maxRecDepth 8192 in
theorem bits_value_bits_of_byte : ∀ v < 256, bits_value (bits_of_byte v) = v := by
  decide

theorem bits_of_byte_eq_map_getD (v : Nat) :
    bits_of_byte v = (List.range 8).map (fun k => (bits_of_byte v).getD k false) := by
  conv_lhs => unfold bits_of_byte
  apply List.map_congr_left
  intro k hk
  rw [getD_bits_of_byte]
  simp [List.mem_range.mp hk]

/-- C6. Consecutive `write_byte` calls for byte values `vs`, started at any bit
position `p` on a buffer that holds the written bits and is zero there, return
`p + 8 * k`, and the eight bits read back at `p + 8 * i` are `vs[i]`, for every `i`. -/
theorem write_byte_read_back (buf : Buffer) (p : Nat) (vs : List Nat)
    (hv : ∀ v ∈ vs, v < 256) (hfit : p + 8 * vs.length ≤ 8 * buf.length)
    (hzero : ∀ q, p ≤ q → q < p + 8 * vs.length → read_bit buf q = false) :
    (write_bytes buf p vs).2 = p + 8 * vs.length ∧
    ∀ i, i < vs.length → read_byte (write_bytes buf p vs).1 (p + 8 * i) = vs.getD i 0 := by
  have h := written_write_bytes buf p vs [] (buf, p) (written_init buf p) hv hfit
  rw [List.nil_append] at h
  obtain ⟨_, hp, hq⟩ := h
  refine ⟨by rw [hp, length_bits_of_bytes], ?_⟩
  intro i hi
  have hvi : vs.getD i 0 < 256 := peek_lt_256 vs hv i
  unfold read_byte
  rw [← bits_value_bits_of_byte _ hvi]
  congr 1
  conv_rhs => rw [bits_of_byte_eq_map_getD]
  apply List.map_congr_left
  intro k hk
  have hk' : k < 8 := List.mem_range.mp hk
  rw [hq _ (by omega), hzero _ (by omega) (by omega), Bool.false_or]
  have e : p + 8 * i + k - p = 8 * i + k := by omega
  rw [e, getD_bits_of_bytes vs i k hi hk']

/-- C6, for the bytes `D5 AA 96` written at bit position 3 of a zeroed 8-byte buffer. -/
theorem write_byte_read_back_witness :
    (3 + 8 * [0xD5, 0xAA, 0x96].length ≤ 8 * (zero_buffer 8).length) ∧
    (write_bytes (zero_buffer 8) 3 [0xD5, 0xAA, 0x96]).2 = 3 + 8 * [0xD5, 0xAA, 0x96].length ∧
    read_byte (write_bytes (zero_buffer 8) 3 [0xD5, 0xAA, 0x96]).1 (3 + 8 * 1) = 0xAA :=
  have h := write_byte_read_back (zero_buffer 8) 3 [0xD5, 0xAA, 0x96] (by decide) (by decide)
    (fun q _ _ => read_bit_zero_buffer 8 q)
  ⟨by decide, h.1, h.2 1 (by decide)⟩

/-! ### The prologue writer -/

theorem write_byte_prologue_fst (buf : Buffer) (pos v : Nat) :
    (write_byte_prologue buf pos v).1 =
      if peek (write_byte buf pos v).1 (pos / 8) = 0x0D then
        poke (write_byte buf pos v).1 (pos / 8) 0xCD
      else if peek (write_byte buf pos v).1 (pos / 8) = 0x03 then
        poke (write_byte buf pos v).1 (pos / 8) 0xF3
      else (write_byte buf pos v).1 := by
  unfold write_byte_prologue write_byte
  simp only [and_7, shr_3]

/-- When the substitution does not fire, `write_byte_prologue` is `write_byte`. -/
theorem write_byte_prologue_eq (buf : Buffer) (pos v : Nat)
    (h1 : peek (write_byte buf pos v).1 (pos / 8) ≠ 0x0D)
    (h2 : peek (write_byte buf pos v).1 (pos / 8) ≠ 0x03) :
    write_byte_prologue buf pos v = write_byte buf pos v := by
  apply Prod.ext
  · rw [write_byte_prologue_fst, if_neg h1, if_neg h2]
  · rfl

theorem peek_write_byte_prologue_ne (buf : Buffer) (pos v j : Nat) (h : j ≠ pos / 8) :
    peek (write_byte_prologue buf pos v).1 j = peek (write_byte buf pos v).1 j := by
  rw [write_byte_prologue_fst]
  split_ifs
  · exact peek_poke_ne _ _ _ _ h
  · exact peek_poke_ne _ _ _ _ h
  · rfl

theorem peek_write_byte_prologue_self (buf : Buffer) (pos v : Nat)
    (hfit : pos + 8 ≤ 8 * buf.length) :
    peek (write_byte_prologue buf pos v).1 (pos / 8) =
      prologue_fix (peek (write_byte buf pos v).1 (pos / 8)) := by
  have hl : pos / 8 < (write_byte buf pos v).1.length := by
    rw [length_write_byte]; omega
  rw [write_byte_prologue_fst]
  unfold prologue_fix
  split_ifs
  · exact peek_poke_self _ _ _ hl
  · exact peek_poke_self _ _ _ hl
  · rfl

/-- The substitution on `D5 >> s` changes no bit at or after bit `s` of the cell. -/
theorem prologue_fix_d5 : ∀ s < 8, ∀ r < 8, s ≤ r →
    (prologue_fix ((0 ||| (0xd5 >>> s)) % 256)).testBit (7 - r)
      = ((0 ||| (0xd5 >>> s)) % 256).testBit (7 - r) := by
  decide

/-- The cell that the second and third prologue bytes are OR-ed into never reads
`0x0D` or `0x03`, at any alignment. -/
theorem prologue_no_fire : ∀ s < 8,
    (((if s ≠ 0 then (0 ||| (0xd5 <<< (8 - s))) % 256 else 0) ||| (0xaa >>> s)) % 256 ≠ 0x0D ∧
     ((if s ≠ 0 then (0 ||| (0xd5 <<< (8 - s))) % 256 else 0) ||| (0xaa >>> s)) % 256 ≠ 0x03) ∧
    (((if s ≠ 0 then (0 ||| (0xaa <<< (8 - s))) % 256 else 0) ||| (0x96 >>> s)) % 256 ≠ 0x0D ∧
     ((if s ≠ 0 then (0 ||| (0xaa <<< (8 - s))) % 256 else 0) ||| (0x96 >>> s)) % 256 ≠ 0x03) := by
  decide

theorem written_prologue_first (buf0 : Buffer) (p : Nat) (hfit : p + 8 ≤ 8 * buf0.length)
    (h0 : peek buf0 (p / 8) = 0) :
    Written buf0 p (bits_of_byte 0xd5) (write_byte_prologue buf0 p 0xd5) := by
  have hw := written_write_byte buf0 p [] (buf0, p) (written_init buf0 p) 0xd5 (by decide) hfit
  rw [List.nil_append] at hw
  obtain ⟨hl, hp, hq⟩ := hw
  refine ⟨by rw [length_write_byte_prologue], hp, ?_⟩
  intro q hpq
  rw [← hq q hpq, read_bit_eq, read_bit_eq]
  by_cases hj : q / 8 = p / 8
  · rw [hj, peek_write_byte_prologue_self _ _ _ hfit, peek_write_byte _ _ _ _ hfit, if_pos rfl, h0]
    exact prologue_fix_d5 (p % 8) (by omega) (q % 8) (by omega) (by omega)
  · rw [peek_write_byte_prologue_ne _ _ _ _ hj]

theorem written_prologue (buf0 : Buffer) (p : Nat) (hfit : p + 24 ≤ 8 * buf0.length)
    (h0 : ∀ j, p / 8 ≤ j → j < p / 8 + 3 → peek buf0 j = 0) :
    Written buf0 p (bits_of_bytes [0xd5, 0xaa, 0x96])
      (write_byte_prologue
        (write_byte_prologue (write_byte_prologue buf0 p 0xd5).1
          (write_byte_prologue buf0 p 0xd5).2 0xaa).1
        (write_byte_prologue (write_byte_prologue buf0 p 0xd5).1
          (write_byte_prologue buf0 p 0xd5).2 0xaa).2 0x96) := by
  have nf := prologue_no_fire (p % 8) (by omega)
  have h1 := written_prologue_first buf0 p (by omega) (h0 _ (by omega) (by omega))
  have hl1 : (write_byte_prologue buf0 p 0xd5).1.length = buf0.length :=
    length_write_byte_prologue _ _ _
  -- the second byte
  have c1 : peek (write_byte_prologue buf0 p 0xd5).1 ((p + 8) / 8)
      = if p % 8 ≠ 0 then (0 ||| (0xd5 <<< (8 - p % 8))) % 256 else 0 := by
    rw [peek_write_byte_prologue_ne _ _ _ _ (by omega), peek_write_byte _ _ _ _ (by omega),
      if_neg (by omega), h0 _ (by omega) (by omega)]
    by_cases hs : p % 8 ≠ 0
    · rw [if_pos ⟨by omega, hs⟩, if_pos hs]
    · rw [if_neg (by omega), if_neg hs]
  have x2 : peek (write_byte (write_byte_prologue buf0 p 0xd5).1 (p + 8) 0xaa).1 ((p + 8) / 8)
      = ((if p % 8 ≠ 0 then (0 ||| (0xd5 <<< (8 - p % 8))) % 256 else 0) ||| (0xaa >>> (p % 8)))
          % 256 := by
    rw [peek_write_byte _ _ _ _ (by rw [hl1]; omega), if_pos rfl, c1]
    congr 3
    omega
  have e2 : write_byte_prologue (write_byte_prologue buf0 p 0xd5).1 (p + 8) 0xaa
      = write_byte (write_byte_prologue buf0 p 0xd5).1 (p + 8) 0xaa :=
    write_byte_prologue_eq _ _ _ (by rw [x2]; exact nf.1.1) (by rw [x2]; exact nf.1.2)
  -- the third byte
  have hl2 : (write_byte (write_byte_prologue buf0 p 0xd5).1 (p + 8) 0xaa).1.length
      = buf0.length := by
    rw [length_write_byte, hl1]
  have c2 : peek (write_byte (write_byte_prologue buf0 p 0xd5).1 (p + 8) 0xaa).1 ((p + 8 + 8) / 8)
      = if p % 8 ≠ 0 then (0 ||| (0xaa <<< (8 - p % 8))) % 256 else 0 := by
    have hj : ∀ x, peek (write_byte_prologue buf0 p 0xd5).1 ((p + 8 + 8) / 8) ||| x = 0 ||| x := by
      intro x
      rw [peek_write_byte_prologue_ne _ _ _ _ (by omega), peek_write_byte _ _ _ _ (by omega),
        if_neg (by omega), if_neg (by omega), h0 _ (by omega) (by omega)]
    rw [peek_write_byte _ _ _ _ (by rw [hl1]; omega), if_neg (by omega)]
    by_cases hs : p % 8 ≠ 0
    · rw [if_pos ⟨by omega, by omega⟩, if_pos hs, hj]
      congr 4
      omega
    · rw [if_neg (by omega), if_neg hs]
      have := hj 0
      simpa using this
  have x3 : peek (write_byte (write_byte (write_byte_prologue buf0 p 0xd5).1 (p + 8) 0xaa).1
        (p + 8 + 8) 0x96).1 ((p + 8 + 8) / 8)
      = ((if p % 8 ≠ 0 then (0 ||| (0xaa <<< (8 - p % 8))) % 256 else 0) ||| (0x96 >>> (p % 8)))
          % 256 := by
    rw [peek_write_byte _ _ _ _ (by rw [hl2]; omega), if_pos rfl, c2]
    congr 3
    omega
  have e3 : write_byte_prologue (write_byte (write_byte_prologue buf0 p 0xd5).1 (p + 8) 0xaa).1
        (p + 8 + 8) 0x96
      = write_byte (write_byte (write_byte_prologue buf0 p 0xd5).1 (p + 8) 0xaa).1
        (p + 8 + 8) 0x96 :=
    write_byte_prologue_eq _ _ _ (by rw [x3]; exact nf.2.1) (by rw [x3]; exact nf.2.2)
  show Written buf0 p (bits_of_bytes [0xd5, 0xaa, 0x96])
    (write_byte_prologue (write_byte_prologue (write_byte_prologue buf0 p 0xd5).1 (p + 8) 0xaa).1
      (write_byte_prologue (write_byte_prologue buf0 p 0xd5).1 (p + 8) 0xaa).2 0x96)
  rw [e2]
  show Written buf0 p (bits_of_bytes [0xd5, 0xaa, 0x96])
    (write_byte_prologue (write_byte (write_byte_prologue buf0 p 0xd5).1 (p + 8) 0xaa).1
      (p + 8 + 8) 0x96)
  rw [e3]
  have h2 := written_write_byte buf0 p _ _ h1 0xaa (by decide)
    (by rw [write_byte_prologue_snd]; omega)
  have h3 := written_write_byte buf0 p _ _ h2 0x96 (by decide)
    (by rw [write_byte_snd, write_byte_prologue_snd]; omega)
  rw [bits_of_bytes_cons, bits_of_bytes_cons, bits_of_bytes_cons, bits_of_bytes_nil,
    List.append_nil, ← List.append_assoc]
  exact h3

/-! ## The sector serialisers -/

theorem serialise_sector_standard_eq (dest src : Buffer) (p n t : Nat) :
    serialise_sector_standard dest src p n t =
      write_syncs 16 (step_byte 0xeb (step_byte 0xaa (step_byte 0xde
        (write_contents (encode_6_and_2_256 (zero_buffer 343) src) 343 0
          (step_byte 0xad (step_byte 0xaa (step_byte 0xd5
            (write_syncs 7 (step_byte 0xeb (step_byte 0xaa (step_byte 0xde
              (step_4_and_4 (254 ^^^ t ^^^ n) (step_4_and_4 n (step_4_and_4 t (step_4_and_4 254
                (step_prologue 0x96 (step_prologue 0xaa (step_prologue 0xd5
                  (memset dest (p >>> 3) 0 (3134 >>> 3), p))))))))))))))))))) := by
  simp only [serialise_sector_standard, step_byte, step_prologue, step_4_and_4]

theorem serialise_sector_custom1_eq (dest src : Buffer) (p n t : Nat) :
    serialise_sector_custom1 dest src p n t =
      write_syncs 8
        (write_contents (encode_6_and_2_128 (zero_buffer 172) src) 172 0
          (step_byte 0xad (step_byte 0xaa (step_byte 0xd5
            (write_syncs 7
              (step_4_and_4 n
                (step_prologue 0x96 (step_prologue 0xaa (step_prologue 0xd5
                  (memset dest (p >>> 3) 0 (1590 >>> 3), p)))))))))) := by
  simp only [serialise_sector_custom1, step_byte, step_prologue, step_4_and_4]

theorem written_step_byte (buf0 : Buffer) (p : Nat) (bits : List Bool) (st : Buffer × Nat)
    (h : Written buf0 p bits st) (v : Nat) (hv : v < 256)
    (hfit : p + bits.length + 8 ≤ 8 * buf0.length) :
    Written buf0 p (bits ++ bits_of_byte v) (step_byte v st) :=
  written_write_byte buf0 p bits st h v hv (by rw [h.2.1]; exact hfit)

theorem written_step_4_and_4 (buf0 : Buffer) (p : Nat) (bits : List Bool) (st : Buffer × Nat)
    (h : Written buf0 p bits st) (v : Nat) (hv : v < 256)
    (hfit : p + bits.length + 16 ≤ 8 * buf0.length) :
    Written buf0 p (bits ++ bits_of_bytes (four_and_four v)) (step_4_and_4 v st) :=
  written_write_4_and_4 buf0 p bits st h v hv (by rw [h.2.1]; exact hfit)

theorem written_syncs (buf0 : Buffer) (p : Nat) (n : Nat) (bits : List Bool)
    (st : Buffer × Nat) (h : Written buf0 p bits st)
    (hfit : p + bits.length + 10 * n ≤ 8 * buf0.length + 2) :
    Written buf0 p (bits ++ sync_words n) (write_syncs n st) :=
  written_write_syncs buf0 p n bits st h (by rw [h.2.1]; exact hfit)

theorem written_contents (buf0 : Buffer) (p : Nat) (contents : Buffer) (bits : List Bool)
    (st : Buffer × Nat) (h : Written buf0 p bits st) (hv : ∀ v ∈ contents, v < 256)
    (hfit : p + bits.length + 8 * contents.length ≤ 8 * buf0.length) :
    Written buf0 p (bits ++ bits_of_bytes contents)
      (write_contents contents contents.length 0 st) := by
  have e : (List.range contents.length).map (fun k => peek contents (0 + k)) = contents := by
    simp only [Nat.zero_add]
    exact range_map_peek contents _ rfl
  rw [write_contents_eq, e]
  exact written_write_bytes buf0 p contents bits st h hv (by rw [h.2.1]; exact hfit)

theorem written_step_prologue (buf0 : Buffer) (p : Nat) (hfit : p + 24 ≤ 8 * buf0.length)
    (h0 : ∀ j, p / 8 ≤ j → j < p / 8 + 3 → peek buf0 j = 0) :
    Written buf0 p (bits_of_bytes [0xd5, 0xaa, 0x96])
      (step_prologue 0x96 (step_prologue 0xaa (step_prologue 0xd5 (buf0, p)))) :=
  written_prologue buf0 p hfit h0

/-- Every cell the encoders leave is an entry of the nibble table (or the 0 read
outside it), so a byte. -/
theorem mapping_getD_lt (x : Nat) : six_and_two_mapping.getD x 0 < 256 := by
  rw [List.getD_eq_getElem?_getD]
  by_cases h : x < six_and_two_mapping.length
  · rw [List.getElem?_eq_getElem h]
    have hall : ∀ b ∈ six_and_two_mapping, b < 256 := by decide
    exact hall _ (List.getElem_mem h)
  · rw [List.getElem?_eq_none (by omega)]
    decide

theorem encode_256_bytes (src : Buffer) :
    ∀ v ∈ encode_6_and_2_256 (zero_buffer 343) src, v < 256 := by
  intro v hv
  obtain ⟨i, hi, rfl⟩ := List.getElem_of_mem hv
  have hl : (encode_6_and_2_256 (zero_buffer 343) src).length = 343 := by
    rw [length_encode_6_and_2_256]; exact List.length_replicate 343 0
  have h := peek_encode_6_and_2_256 (zero_buffer 343) src (List.length_replicate 343 0) i
    (by omega)
  unfold peek at h
  rw [List.getD_eq_getElem?_getD, List.getElem?_eq_getElem hi] at h
  simp only [Option.getD_some] at h
  rw [h]
  exact mapping_getD_lt _

theorem encode_128_bytes (src : Buffer) :
    ∀ v ∈ encode_6_and_2_128 (zero_buffer 172) src, v < 256 := by
  intro v hv
  obtain ⟨i, hi, rfl⟩ := List.getElem_of_mem hv
  have hl : (encode_6_and_2_128 (zero_buffer 172) src).length = 172 := by
    rw [length_encode_6_and_2_128]; exact List.length_replicate 172 0
  have h := peek_encode_6_and_2_128 (zero_buffer 172) src (List.length_replicate 172 0) i
    (by omega)
  unfold peek at h
  rw [List.getD_eq_getElem?_getD, List.getElem?_eq_getElem hi] at h
  simp only [Option.getD_some] at h
  rw [h]
  exact mapping_getD_lt _

/-- The bits a Standard serialiser call leaves from its start position on: the
sector record OR-ed onto what the buffer holds after the `memset`. -/
theorem serialise_sector_standard_written (dest src : Buffer) (p n t : Nat)
    (ht : t < 256) (hn : n < 256) (hfit : p + 3134 ≤ 8 * dest.length) :
    Written (memset dest (p >>> 3) 0 (3134 >>> 3)) p (record_standard t n src)
      (serialise_sector_standard dest src p n t) := by
  rw [serialise_sector_standard_eq]
  generalize hbuf0 : memset dest (p >>> 3) 0 (3134 >>> 3) = buf0
  have hl0 : buf0.length = dest.length := by rw [← hbuf0, length_memset]
  have h0 : ∀ j, p / 8 ≤ j → j < p / 8 + 3 → peek buf0 j = 0 := by
    intro j hj1 hj2
    rw [← hbuf0, peek_memset, shr_3, if_pos ⟨hj1, by omega, by omega⟩]
  have hx : 254 ^^^ t ^^^ n < 256 :=
    Nat.xor_lt_two_pow (n := 8) (Nat.xor_lt_two_pow (n := 8) (by decide) ht) hn
  have hc : (encode_6_and_2_256 (zero_buffer 343) src).length = 343 := by
    rw [length_encode_6_and_2_256]; exact List.length_replicate 343 0
  have h1 := written_step_prologue buf0 p (by omega) h0
  have h2 := written_step_4_and_4 buf0 p _ _ h1 254 (by decide)
    (by simp only [List.length_append, length_bits_of_byte, length_bits_of_bytes, length_sync_words, four_and_four, List.length_cons, List.length_nil, hc]; omega)
  have h3 := written_step_4_and_4 buf0 p _ _ h2 t ht
    (by simp only [List.length_append, length_bits_of_byte, length_bits_of_bytes, length_sync_words, four_and_four, List.length_cons, List.length_nil, hc]; omega)
  have h4 := written_step_4_and_4 buf0 p _ _ h3 n hn
    (by simp only [List.length_append, length_bits_of_byte, length_bits_of_bytes, length_sync_words, four_and_four, List.length_cons, List.length_nil, hc]; omega)
  have h5 := written_step_4_and_4 buf0 p _ _ h4 (254 ^^^ t ^^^ n) hx
    (by simp only [List.length_append, length_bits_of_byte, length_bits_of_bytes, length_sync_words, four_and_four, List.length_cons, List.length_nil, hc]; omega)
  have h6 := written_step_byte buf0 p _ _ h5 0xde (by decide)
    (by simp only [List.length_append, length_bits_of_byte, length_bits_of_bytes, length_sync_words, four_and_four, List.length_cons, List.length_nil, hc]; omega)
  have h7 := written_step_byte buf0 p _ _ h6 0xaa (by decide)
    (by simp only [List.length_append, length_bits_of_byte, length_bits_of_bytes, length_sync_words, four_and_four, List.length_cons, List.length_nil, hc]; omega)
  have h8 := written_step_byte buf0 p _ _ h7 0xeb (by decide)
    (by simp only [List.length_append, length_bits_of_byte, length_bits_of_bytes, length_sync_words, four_and_four, List.length_cons, List.length_nil, hc]; omega)
  have h9 := written_syncs buf0 p 7 _ _ h8
    (by simp only [List.length_append, length_bits_of_byte, length_bits_of_bytes, length_sync_words, four_and_four, List.length_cons, List.length_nil, hc]; omega)
  have h10 := written_step_byte buf0 p _ _ h9 0xd5 (by decide)
    (by simp only [List.length_append, length_bits_of_byte, length_bits_of_bytes, length_sync_words, four_and_four, List.length_cons, List.length_nil, hc]; omega)
  have h11 := written_step_byte buf0 p _ _ h10 0xaa (by decide)
    (by simp only [List.length_append, length_bits_of_byte, length_bits_of_bytes, length_sync_words, four_and_four, List.length_cons, List.length_nil, hc]; omega)
  have h12 := written_step_byte buf0 p _ _ h11 0xad (by decide)
    (by simp only [List.length_append, length_bits_of_byte, length_bits_of_bytes, length_sync_words, four_and_four, List.length_cons, List.length_nil, hc]; omega)
  have h13 := written_contents buf0 p _ _ _ h12 (encode_256_bytes src)
    (by simp only [List.length_append, length_bits_of_byte, length_bits_of_bytes, length_sync_words, four_and_four, List.length_cons, List.length_nil, hc]; omega)
  rw [hc] at h13
  have h14 := written_step_byte buf0 p _ _ h13 0xde (by decide)
    (by simp only [List.length_append, length_bits_of_byte, length_bits_of_bytes, length_sync_words, four_and_four, List.length_cons, List.length_nil, hc]; omega)
  have h15 := written_step_byte buf0 p _ _ h14 0xaa (by decide)
    (by simp only [List.length_append, length_bits_of_byte, length_bits_of_bytes, length_sync_words, four_and_four, List.length_cons, List.length_nil, hc]; omega)
  have h16 := written_step_byte buf0 p _ _ h15 0xeb (by decide)
    (by simp only [List.length_append, length_bits_of_byte, length_bits_of_bytes, length_sync_words, four_and_four, List.length_cons, List.length_nil, hc]; omega)
  have h17 := written_syncs buf0 p 16 _ _ h16
    (by simp only [List.length_append, length_bits_of_byte, length_bits_of_bytes, length_sync_words, four_and_four, List.length_cons, List.length_nil, hc]; omega)
  unfold record_standard
  simp only [bits_of_bytes_append, bits_of_bytes_cons, bits_of_bytes_nil, four_and_four,
    List.append_assoc, List.append_nil, List.cons_append, List.nil_append] at h17 ⊢
  exact h17

/-- The bits a Custom serialiser call leaves from its start position on: the
sector record OR-ed onto what the buffer holds after the `memset`. -/
theorem serialise_sector_custom1_written (dest src : Buffer) (p n t : Nat)
    (hn : n < 256) (hfit : p + 1590 ≤ 8 * dest.length) :
    Written (memset dest (p >>> 3) 0 (1590 >>> 3)) p (record_custom1 n src)
      (serialise_sector_custom1 dest src p n t) := by
  rw [serialise_sector_custom1_eq]
  generalize hbuf0 : memset dest (p >>> 3) 0 (1590 >>> 3) = buf0
  have hl0 : buf0.length = dest.length := by rw [← hbuf0, length_memset]
  have h0 : ∀ j, p / 8 ≤ j → j < p / 8 + 3 → peek buf0 j = 0 := by
    intro j hj1 hj2
    rw [← hbuf0, peek_memset, shr_3, if_pos ⟨hj1, by omega, by omega⟩]
  have hc : (encode_6_and_2_128 (zero_buffer 172) src).length = 172 := by
    rw [length_encode_6_and_2_128]; exact List.length_replicate 172 0
  have h1 := written_step_prologue buf0 p (by omega) h0
  have h2 := written_step_4_and_4 buf0 p _ _ h1 n hn
    (by simp only [List.length_append, length_bits_of_byte, length_bits_of_bytes, length_sync_words, four_and_four, List.length_cons, List.length_nil, hc]; omega)
  have h3 := written_syncs buf0 p 7 _ _ h2
    (by simp only [List.length_append, length_bits_of_byte, length_bits_of_bytes, length_sync_words, four_and_four, List.length_cons, List.length_nil, hc]; omega)
  have h4 := written_step_byte buf0 p _ _ h3 0xd5 (by decide)
    (by simp only [List.length_append, length_bits_of_byte, length_bits_of_bytes, length_sync_words, four_and_four, List.length_cons, List.length_nil, hc]; omega)
  have h5 := written_step_byte buf0 p _ _ h4 0xaa (by decide)
    (by simp only [List.length_append, length_bits_of_byte, length_bits_of_bytes, length_sync_words, four_and_four, List.length_cons, List.length_nil, hc]; omega)
  have h6 := written_step_byte buf0 p _ _ h5 0xad (by decide)
    (by simp only [List.length_append, length_bits_of_byte, length_bits_of_bytes, length_sync_words, four_and_four, List.length_cons, List.length_nil, hc]; omega)
  have h7 := written_contents buf0 p _ _ _ h6 (encode_128_bytes src)
    (by simp only [List.length_append, length_bits_of_byte, length_bits_of_bytes, length_sync_words, four_and_four, List.length_cons, List.length_nil, hc]; omega)
  rw [hc] at h7
  have h8 := written_syncs buf0 p 8 _ _ h7
    (by simp only [List.length_append, length_bits_of_byte, length_bits_of_bytes, length_sync_words, four_and_four, List.length_cons, List.length_nil, hc]; omega)
  unfold record_custom1
  simp only [bits_of_bytes_append, bits_of_bytes_cons, bits_of_bytes_nil, four_and_four,
    List.append_assoc, List.append_nil, List.cons_append, List.nil_append] at h8 ⊢
  exact h8

theorem length_record_standard (t n : Nat) (s : List Nat) :
    (record_standard t n s).length = 3134 := by
  have hc : (encode_6_and_2_256 (zero_buffer 343) s).length = 343 := by
    rw [length_encode_6_and_2_256]; exact List.length_replicate 343 0
  simp only [record_standard, List.length_append, length_bits_of_bytes, length_sync_words,
    four_and_four, List.length_cons, List.length_nil, hc]

theorem length_record_custom1 (n : Nat) (s : List Nat) :
    (record_custom1 n s).length = 1590 := by
  have hc : (encode_6_and_2_128 (zero_buffer 172) s).length = 172 := by
    rw [length_encode_6_and_2_128]; exact List.length_replicate 172 0
  simp only [record_custom1, List.length_append, length_bits_of_bytes, length_sync_words,
    four_and_four, List.length_cons, List.length_nil, hc]

theorem peek_replicate (size v j : Nat) :
    peek (List.replicate size v) j = if j < size then v else 0 := by
  unfold peek
  rw [List.getD_eq_getElem?_getD, List.getElem?_replicate]
  split_ifs <;> rfl

theorem read_bit_memset_zero_buffer (size start count q : Nat) :
    read_bit (memset (zero_buffer size) start 0 count) q = false := by
  rw [read_bit_eq, peek_memset, peek_zero_buffer, ite_self]
  exact Nat.zero_testBit _

/-- C3. On an all-zero track buffer that holds the record, `serialise_sector_standard`
started at any bit position `p`, for track `t` and sector `n` below 256 and a
256-byte source `s`, ends at position `p + 3134` and leaves, read from bit `p`,
the 3134 bits of `record_standard t n s`: `D5 AA 96`, the 4-and-4 pairs of 254,
`t`, `n`, `254 ^ t ^ n`, `DE AA EB`, 7 sync words, `D5 AA AD`, the 343 encoded
bytes, `DE AA EB`, 16 sync words. -/
theorem serialise_sector_standard_record (size p t n : Nat) (s : List Nat)
    (ht : t < 256) (hn : n < 256) (_hlen : s.length = 256) (_hb : ∀ b ∈ s, b < 256)
    (hfit : p + 3134 ≤ 8 * size) :
    (serialise_sector_standard (zero_buffer size) s p n t).2 = p + 3134 ∧
    (record_standard t n s).length = 3134 ∧
    ∀ i, i < 3134 →
      read_bit (serialise_sector_standard (zero_buffer size) s p n t).1 (p + i)
        = (record_standard t n s).getD i false := by
  have h := serialise_sector_standard_written (zero_buffer size) s p n t ht hn
    (by rw [zero_buffer, List.length_replicate]; exact hfit)
  refine ⟨by rw [h.2.1, length_record_standard], length_record_standard t n s, ?_⟩
  intro i _
  rw [h.2.2 (p + i) (by omega), read_bit_memset_zero_buffer, Bool.false_or, Nat.add_sub_cancel_left]

/-- C3, at slot 1 of a zeroed track region, track 17, sector 5, all-zero source. -/
theorem serialise_sector_standard_record_witness :
    (3294 + 3134 ≤ 8 * 6656) ∧
    (serialise_sector_standard (zero_buffer 6656) (List.replicate 256 0) 3294 5 17).2
      = 3294 + 3134 ∧
    read_bit (serialise_sector_standard (zero_buffer 6656) (List.replicate 256 0) 3294 5 17).1
        (3294 + 0)
      = (record_standard 17 5 (List.replicate 256 0)).getD 0 false :=
  have h := serialise_sector_standard_record 6656 3294 17 5 (List.replicate 256 0)
    (by decide) (by decide) (List.length_replicate 256 0)
    (fun b h => by rw [List.eq_of_mem_replicate h]; decide) (by decide)
  ⟨by decide, h.1, h.2.2 0 (by decide)⟩

/-- C4. On an all-zero track buffer that holds the record, `serialise_sector_custom1`
started at any bit position `p`, for sector `n` below 256 and a 128-byte source
`s`, ends at position `p + 1590` and leaves, read from bit `p`, the 1590 bits of
`record_custom1 n s`: `D5 AA 96`, the 4-and-4 pair of `n`, 7 sync words,
`D5 AA AD`, the 172 encoded bytes, 8 sync words, with no epilogue; the track
number changes nothing of the result. -/
theorem serialise_sector_custom1_record (size p t n : Nat) (s : List Nat)
    (hn : n < 256) (_hlen : s.length = 128) (_hb : ∀ b ∈ s, b < 256)
    (hfit : p + 1590 ≤ 8 * size) :
    (serialise_sector_custom1 (zero_buffer size) s p n t).2 = p + 1590 ∧
    (record_custom1 n s).length = 1590 ∧
    (∀ i, i < 1590 →
      read_bit (serialise_sector_custom1 (zero_buffer size) s p n t).1 (p + i)
        = (record_custom1 n s).getD i false) ∧
    ∀ t' : Nat, serialise_sector_custom1 (zero_buffer size) s p n t'
        = serialise_sector_custom1 (zero_buffer size) s p n t := by
  have h := serialise_sector_custom1_written (zero_buffer size) s p n t hn
    (by rw [zero_buffer, List.length_replicate]; exact hfit)
  refine ⟨by rw [h.2.1, length_record_custom1], length_record_custom1 n s, ?_, fun _ => rfl⟩
  intro i _
  rw [h.2.2 (p + i) (by omega), read_bit_memset_zero_buffer, Bool.false_or, Nat.add_sub_cancel_left]

/-- C4, at slot 1 of a zeroed track region, sector 5, all-zero source. -/
theorem serialise_sector_custom1_record_witness :
    (1670 + 1590 ≤ 8 * 6656) ∧
    (serialise_sector_custom1 (zero_buffer 6656) (List.replicate 128 0) 1670 5 17).2
      = 1670 + 1590 ∧
    read_bit (serialise_sector_custom1 (zero_buffer 6656) (List.replicate 128 0) 1670 5 17).1
        (1670 + 0)
      = (record_custom1 5 (List.replicate 128 0)).getD 0 false ∧
    serialise_sector_custom1 (zero_buffer 6656) (List.replicate 128 0) 1670 5 3
      = serialise_sector_custom1 (zero_buffer 6656) (List.replicate 128 0) 1670 5 17 :=
  have h := serialise_sector_custom1_record 6656 1670 17 5 (List.replicate 128 0)
    (by decide) (List.length_replicate 128 0)
    (fun b h => by rw [List.eq_of_mem_replicate h]; decide) (by decide)
  ⟨by decide, h.1, h.2.2.1 0 (by decide), h.2.2.2 3⟩

theorem getD_sync_words_last : (sync_words 16).getD 159 false = false ∧
    (sync_words 8).getD 79 false = false := by
  decide

theorem getD_record_standard_last (t n : Nat) (s : List Nat) :
    (record_standard t n s).getD 3133 false = false := by
  have hl := length_record_standard t n s
  unfold record_standard at hl ⊢
  rw [List.length_append, length_sync_words] at hl
  rw [List.getD_append_right _ _ _ _ (by omega)]
  have e : ∀ k, k + 10 * 16 = 3134 → 3133 - k = 159 := by omega
  rw [e _ hl]
  exact getD_sync_words_last.1

theorem getD_record_custom1_last (n : Nat) (s : List Nat) :
    (record_custom1 n s).getD 1589 false = false := by
  have hl := length_record_custom1 n s
  unfold record_custom1 at hl ⊢
  rw [List.length_append, length_sync_words] at hl
  rw [List.getD_append_right _ _ _ _ (by omega)]
  have e : ∀ k, k + 10 * 8 = 1590 → 1589 - k = 79 := by omega
  rw [e _ hl]
  exact getD_sync_words_last.2

/-- The last bit of a Standard record is never stored into: after the call it is
what the buffer held before. -/
theorem serialise_sector_standard_last_bit (dest src : Buffer) (p n t : Nat)
    (ht : t < 256) (hn : n < 256) (hfit : p + 3134 ≤ 8 * dest.length) :
    read_bit (serialise_sector_standard dest src p n t).1 (p + 3133)
      = read_bit dest (p + 3133) := by
  have h := serialise_sector_standard_written dest src p n t ht hn hfit
  rw [h.2.2 _ (by omega), Nat.add_sub_cancel_left, getD_record_standard_last, Bool.or_false,
    read_bit_eq, read_bit_eq, peek_memset, shr_3, if_neg (by omega)]

/-- The last bit of a Custom record is never stored into: after the call it is
what the buffer held before. -/
theorem serialise_sector_custom1_last_bit (dest src : Buffer) (p n t : Nat)
    (hn : n < 256) (hfit : p + 1590 ≤ 8 * dest.length) :
    read_bit (serialise_sector_custom1 dest src p n t).1 (p + 1589)
      = read_bit dest (p + 1589) := by
  have h := serialise_sector_custom1_written dest src p n t hn hfit
  rw [h.2.2 _ (by omega), Nat.add_sub_cancel_left, getD_record_custom1_last, Bool.or_false,
    read_bit_eq, read_bit_eq, peek_memset, shr_3, if_neg (by omega)]

theorem read_bit_ones (q : Nat) (hq : q < 8 * 6656) :
    read_bit (List.replicate 6656 255) q = true := by
  rw [read_bit_eq, peek_replicate, if_pos (by omega)]
  have h : ∀ k < 8, Nat.testBit 255 k = true := by decide
  exact h _ (by omega)

/-- C5 (the code misses the claim). At slot 0 of a track region whose cells all hold
`0xFF`, the last bit of the record (a 0 bit of the last sync word) is 1 after the
call, for both geometries, while on a zeroed track region it is 0: the `memset`
clears `3134 >> 3 = 391` (resp. `1590 >> 3 = 198`) whole cells from the cell of
`p`, which ends before the end of the record. -/
theorem serialise_sector_tail_not_zeroed :
    read_bit (serialise_sector_standard (List.replicate 6656 255) (List.replicate 256 0)
        160 0 0).1 (160 + 3133) = true ∧
    read_bit (serialise_sector_standard (zero_buffer 6656) (List.replicate 256 0)
        160 0 0).1 (160 + 3133) = false ∧
    read_bit (serialise_sector_custom1 (List.replicate 6656 255) (List.replicate 128 0)
        80 0 0).1 (80 + 1589) = true ∧
    read_bit (serialise_sector_custom1 (zero_buffer 6656) (List.replicate 128 0)
        80 0 0).1 (80 + 1589) = false := by
  refine ⟨?_, ?_, ?_, ?_⟩
  · rw [serialise_sector_standard_last_bit _ _ _ _ _ (by decide) (by decide)
      (by rw [List.length_replicate]; decide)]
    exact read_bit_ones _ (by decide)
  · rw [serialise_sector_standard_last_bit _ _ _ _ _ (by decide) (by decide)
      (by rw [zero_buffer, List.length_replicate]; decide)]
    exact read_bit_zero_buffer _ _
  · rw [serialise_sector_custom1_last_bit _ _ _ _ _ (by decide)
      (by rw [List.length_replicate]; decide)]
    exact read_bit_ones _ (by decide)
  · rw [serialise_sector_custom1_last_bit _ _ _ _ _ (by decide)
      (by rw [zero_buffer, List.length_replicate]; decide)]
    exact read_bit_zero_buffer _ _

/-! ## CRC-32 -/

theorem shiftRight_xor (a b k : Nat) : (a ^^^ b) >>> k = (a >>> k) ^^^ (b >>> k) := by
  apply Nat.eq_of_testBit_eq
  intro i
  simp only [Nat.testBit_shiftRight, Nat.testBit_xor]

theorem xor_cancel_right (x y p : Nat) : (x ^^^ p) ^^^ (y ^^^ p) = x ^^^ y := by
  apply Nat.eq_of_testBit_eq
  intro i
  simp only [Nat.testBit_xor]
  cases x.testBit i <;> cases y.testBit i <;> cases p.testBit i <;> rfl

theorem xor_xor_right (x y p : Nat) : (x ^^^ y) ^^^ p = (x ^^^ p) ^^^ y := by
  apply Nat.eq_of_testBit_eq
  intro i
  simp only [Nat.testBit_xor]
  cases x.testBit i <;> cases y.testBit i <;> cases p.testBit i <;> rfl

/-- One bit step is linear over XOR. -/
theorem crc_bit_xor (a b : Nat) : crc_bit (a ^^^ b) = crc_bit a ^^^ crc_bit b := by
  have hab := Nat.xor_mod_two_eq (m := a) (n := b)
  unfold crc_bit
  rw [shiftRight_xor]
  rcases Nat.mod_two_eq_zero_or_one a with ha | ha <;>
    rcases Nat.mod_two_eq_zero_or_one b with hb | hb
  · rw [if_neg (by omega), if_neg (by omega), if_neg (by omega)]
  · rw [if_pos (by omega), if_neg (by omega), if_pos (by omega), Nat.xor_assoc]
  · rw [if_pos (by omega), if_pos (by omega), if_neg (by omega), xor_xor_right]
  · rw [if_neg (by omega), if_pos (by omega), if_pos (by omega), xor_cancel_right]

theorem crc_bit_shiftLeft (h k : Nat) : crc_bit (h <<< (k + 1)) = h <<< k := by
  unfold crc_bit
  rw [Nat.shiftLeft_succ, if_neg (by omega), Nat.shiftRight_eq_div_pow]
  omega

theorem split_low_byte (x : Nat) : x = (x &&& 0xFF) ^^^ ((x >>> 8) <<< 8) := by
  apply Nat.eq_of_testBit_eq
  intro i
  have h255 : (0xFF : Nat) = 2 ^ 8 - 1 := rfl
  rw [Nat.testBit_xor, Nat.testBit_and, h255, Nat.testBit_two_pow_sub_one,
    Nat.testBit_shiftLeft, Nat.testBit_shiftRight]
  by_cases h : i < 8
  · have h' : ¬ i ≥ 8 := by omega
    simp [h, h']
  · have h' : i ≥ 8 := by omega
    have e : 8 + (i - 8) = i := by omega
    simp [h, h', e]

/-- Eight bit steps: the low byte goes through the polynomial, the rest shifts down. -/
theorem crc_bit8_split (x : Nat) :
    crc_bit (crc_bit (crc_bit (crc_bit (crc_bit (crc_bit (crc_bit (crc_bit x))))))) =
      crc_bit (crc_bit (crc_bit (crc_bit (crc_bit (crc_bit (crc_bit (crc_bit (x &&& 0xFF))))))))
        ^^^ (x >>> 8) := by
  have h8 : ∀ h : Nat, crc_bit (crc_bit (crc_bit (crc_bit (crc_bit (crc_bit (crc_bit
      (crc_bit (h <<< 8)))))))) = h := by
    intro h
    rw [crc_bit_shiftLeft h 7, crc_bit_shiftLeft h 6, crc_bit_shiftLeft h 5,
      crc_bit_shiftLeft h 4, crc_bit_shiftLeft h 3, crc_bit_shiftLeft h 2,
      crc_bit_shiftLeft h 1, crc_bit_shiftLeft h 0, Nat.shiftLeft_zero]
  conv_lhs => rw [split_low_byte x]
  simp only [crc_bit_xor]
  rw [h8]

set_option maxRecDepth 100000 in
/-- Each table entry is eight bit steps of its index. -/
theorem crc32_tab_eq : ∀ i < 256, crc32_tab.getD i 0 =
    crc_bit (crc_bit (crc_bit (crc_bit (crc_bit (crc_bit (crc_bit (crc_bit i))))))) := by
  decide

theorem crc_byte_eq_table (crc b : Nat) (hb : b < 256) :
    crc_byte crc b = crc32_tab.getD ((crc ^^^ b) &&& 0xFF) 0 ^^^ (crc >>> 8) := by
  unfold crc_byte
  rw [crc_bit8_split, ← crc32_tab_eq _ (Nat.lt_succ_of_le Nat.and_le_right), shiftRight_xor]
  have e : b >>> 8 = 0 := by
    rw [Nat.shiftRight_eq_div_pow]
    exact Nat.div_eq_of_lt hb
  rw [e, Nat.xor_zero]

theorem crc32_loop_eq (buf : Buffer) (hb : ∀ b ∈ buf, b < 256) (size byte crc : Nat) :
    crc32_loop buf size byte crc =
      ((List.range size).map (fun k => peek buf (byte + k))).foldl crc_byte crc := by
  induction size generalizing byte crc with
  | zero => rfl
  | succ n ih =>
    rw [crc32_loop, ih, List.range_succ_eq_map, List.map_cons, List.map_map, List.foldl_cons,
      crc_byte_eq_table _ _ (peek_lt_256 buf hb _)]
    congr 1
    apply List.map_congr_left
    intro k _
    simp only [Function.comp, Nat.succ_eq_add_one]
    congr 1
    omega

theorem range_map_peek_take (buf : Buffer) (size : Nat) (hs : size ≤ buf.length) :
    (List.range size).map (fun k => peek buf (0 + k)) = buf.take size := by
  apply List.ext_getElem
  · simp [hs]
  · intro i h1 h2
    have hi : i < size := by simpa using h1
    simp [peek, List.getD_eq_getElem?_getD, List.getElem?_eq_getElem (show i < buf.length by omega)]

/-- C7. For every byte buffer the table-driven `crc32` is the reflected CRC-32
computed bit by bit (polynomial `0xEDB88320`, initial value `0xFFFFFFFF`, final
complement); it gives 0 for the empty buffer and `0xCBF43926` for "123456789". -/
theorem crc32_eq_reference (buf : List Nat) (hb : ∀ b ∈ buf, b < 256) (size : Nat)
    (hs : size ≤ buf.length) :
    crc32 buf size = crc32_reference (buf.take size) ∧
    crc32 [] 0 = 0x00000000 ∧
    crc32 [0x31, 0x32, 0x33, 0x34, 0x35, 0x36, 0x37, 0x38, 0x39] 9 = 0xCBF43926 := by
  refine ⟨?_, by decide, by decide⟩
  unfold crc32 crc32_reference
  rw [crc32_loop_eq buf hb, range_map_peek_take buf size hs]

/-- C7, at the nine bytes "123456789". -/
theorem crc32_eq_reference_witness :
    (9 ≤ [0x31, 0x32, 0x33, 0x34, 0x35, 0x36, 0x37, 0x38, 0x39].length) ∧
    crc32 [0x31, 0x32, 0x33, 0x34, 0x35, 0x36, 0x37, 0x38, 0x39] 9
      = crc32_reference ([0x31, 0x32, 0x33, 0x34, 0x35, 0x36, 0x37, 0x38, 0x39].take 9) :=
  ⟨by decide,
   (crc32_eq_reference [0x31, 0x32, 0x33, 0x34, 0x35, 0x36, 0x37, 0x38, 0x39] (by decide) 9
      (by decide)).1⟩

/-! ## The interleaving tables -/

/-- C9. Each of the six interleaving tables has one entry per sector of a track
(16 or 32), every entry is below that count, no entry occurs twice, and the table
is a permutation of `0 .. N-1`. -/
theorem interleaving_tables_are_permutations :
    (Standard_Dos_Interleaving.length = 16 ∧ (∀ x ∈ Standard_Dos_Interleaving, x < 16) ∧
      Standard_Dos_Interleaving.Nodup ∧ Standard_Dos_Interleaving.Perm (List.range 16)) ∧
    (Standard_Physical_Interleaving.length = 16 ∧
      (∀ x ∈ Standard_Physical_Interleaving, x < 16) ∧
      Standard_Physical_Interleaving.Nodup ∧
      Standard_Physical_Interleaving.Perm (List.range 16)) ∧
    (Standard_Interleaving1.length = 16 ∧ (∀ x ∈ Standard_Interleaving1, x < 16) ∧
      Standard_Interleaving1.Nodup ∧ Standard_Interleaving1.Perm (List.range 16)) ∧
    (Custom_Dos_Interleaving.length = 32 ∧ (∀ x ∈ Custom_Dos_Interleaving, x < 32) ∧
      Custom_Dos_Interleaving.Nodup ∧ Custom_Dos_Interleaving.Perm (List.range 32)) ∧
    (Custom_Physical_Interleaving.length = 32 ∧ (∀ x ∈ Custom_Physical_Interleaving, x < 32) ∧
      Custom_Physical_Interleaving.Nodup ∧ Custom_Physical_Interleaving.Perm (List.range 32)) ∧
    (Custom_Interleaving1.length = 32 ∧ (∀ x ∈ Custom_Interleaving1, x < 32) ∧
      Custom_Interleaving1.Nodup ∧ Custom_Interleaving1.Perm (List.range 32)) := by
  decide

/-! ## The driver -/

theorem length_write_4_and_4 (buf : Buffer) (pos v : Nat) :
    (write_4_and_4 buf pos v).1.length = buf.length := by
  unfold write_4_and_4
  simp only [length_write_byte]

theorem length_write_sync (buf : Buffer) (pos : Nat) :
    (write_sync buf pos).1.length = buf.length := by
  unfold write_sync
  simp only [length_write_byte]

theorem length_write_syncs (n : Nat) (st : Buffer × Nat) :
    (write_syncs n st).1.length = st.1.length := by
  induction n generalizing st with
  | zero => rfl
  | succ n ih => rw [write_syncs, ih, length_write_sync]

theorem length_write_contents (contents : Buffer) (count c : Nat) (st : Buffer × Nat) :
    (write_contents contents count c st).1.length = st.1.length := by
  induction count generalizing c st with
  | zero => rfl
  | succ n ih => rw [write_contents, ih, length_write_byte]

theorem length_serialise_sector_standard (dest src : Buffer) (p n t : Nat) :
    (serialise_sector_standard dest src p n t).1.length = dest.length := by
  rw [serialise_sector_standard_eq]
  simp only [step_byte, step_prologue, step_4_and_4, length_write_syncs, length_write_byte,
    length_write_contents, length_write_4_and_4, length_write_byte_prologue, length_memset]

theorem length_serialise_sector_custom1 (dest src : Buffer) (p n t : Nat) :
    (serialise_sector_custom1 dest src p n t).1.length = dest.length := by
  rw [serialise_sector_custom1_eq]
  simp only [step_byte, step_prologue, step_4_and_4, length_write_syncs, length_write_byte,
    length_write_contents, length_write_4_and_4, length_write_byte_prologue, length_memset]

theorem length_run_call (bStructure : Bool) (binary woz : Buffer) (call : SerialiserCall) :
    (run_call bStructure binary woz call).length = woz.length := by
  unfold run_call store_view offset_view
  simp only []
  split_ifs
  · rw [List.length_append, length_serialise_sector_standard, List.length_take, List.length_drop]
    omega
  · rw [List.length_append, length_serialise_sector_custom1, List.length_take, List.length_drop]
    omega

theorem length_interleaving_table (bStructure : Bool) (interleaving : Nat) :
    (interleaving_table bStructure interleaving).length = sectors_per_track bStructure := by
  cases bStructure
  · by_cases h1 : interleaving = 1
    · simp [interleaving_table, sectors_per_track, h1]; rfl
    · by_cases h2 : interleaving = 2
      · simp [interleaving_table, sectors_per_track, h2]; rfl
      · simp [interleaving_table, sectors_per_track, h1, h2]; rfl
  · by_cases h1 : interleaving = 1
    · simp [interleaving_table, sectors_per_track, h1]; rfl
    · by_cases h2 : interleaving = 2
      · simp [interleaving_table, sectors_per_track, h2]; rfl
      · simp [interleaving_table, sectors_per_track, h1, h2]; rfl

theorem interleaving_table_lt (bStructure : Bool) (interleaving : Nat) :
    ∀ x ∈ interleaving_table bStructure interleaving, x < sectors_per_track bStructure := by
  cases bStructure
  · by_cases h1 : interleaving = 1
    · simp [interleaving_table, sectors_per_track, h1]; decide
    · by_cases h2 : interleaving = 2
      · simp [interleaving_table, sectors_per_track, h2]; decide
      · simp [interleaving_table, sectors_per_track, h1, h2]; decide
  · by_cases h1 : interleaving = 1
    · simp [interleaving_table, sectors_per_track, h1]; decide
    · by_cases h2 : interleaving = 2
      · simp [interleaving_table, sectors_per_track, h2]; decide
      · simp [interleaving_table, sectors_per_track, h1, h2]; decide

theorem length_offset_table (bStructure : Bool) :
    (offset_table bStructure).length = sectors_per_track bStructure := by
  cases bStructure <;> rfl

/-- With the logical sector below the sector count, both table lookups of the
loop body are inside their tables. -/
theorem serialiser_call_some (bStructure : Bool) (interleaving j track sector : Nat)
    (hs : sector < sectors_per_track bStructure) :
    ∃ ps oh, (interleaving_table bStructure interleaving)[sector]? = some ps ∧
      (offset_table bStructure)[ps]? = some oh ∧
      serialiser_call bStructure interleaving j track sector =
        some { dest_offset := 256 + track * 6656, src_offset := j * sector_size bStructure,
               offset_header := oh, physical_sector := ps, track := track } := by
  have h1 : sector < (interleaving_table bStructure interleaving).length := by
    rw [length_interleaving_table]; exact hs
  have h2 : (interleaving_table bStructure interleaving)[sector]
      < (offset_table bStructure).length := by
    rw [length_offset_table]
    exact interleaving_table_lt bStructure interleaving _ (List.getElem_mem h1)
  refine ⟨(interleaving_table bStructure interleaving)[sector],
    (offset_table bStructure)[(interleaving_table bStructure interleaving)[sector]],
    List.getElem?_eq_getElem h1, List.getElem?_eq_getElem h2, ?_⟩
  unfold serialiser_call
  rw [List.getElem?_eq_getElem h1]
  simp only [Option.bind_eq_bind, Option.some_bind]
  rw [List.getElem?_eq_getElem h2]
  rfl

/-- One iteration from a cursor inside the track: it succeeds, keeps the image
length, and moves the cursor on by one sector. -/
theorem loop_body_some (bStructure : Bool) (interleaving : Nat) (binary : Buffer) (j : Nat)
    (st : LoopState) (hs : st.sector < sectors_per_track bStructure) :
    ∃ st', loop_body bStructure interleaving binary j st = some st' ∧
      st'.woz.length = st.woz.length ∧
      st'.track = st.track + (st.sector + 1) / sectors_per_track bStructure ∧
      st'.sector = (st.sector + 1) % sectors_per_track bStructure ∧
      ∃ call, serialiser_call bStructure interleaving j st.track st.sector = some call ∧
        st'.woz = run_call bStructure binary st.woz call := by
  obtain ⟨ps, oh, _, _, hc⟩ := serialiser_call_some bStructure interleaving j st.track st.sector hs
  unfold loop_body
  rw [hc]
  simp only [Option.bind_eq_bind, Option.some_bind]
  by_cases h : st.sector + 1 > sectors_per_track bStructure - 1
  · rw [if_pos h]
    refine ⟨_, rfl, length_run_call _ _ _ _, ?_, ?_, _, rfl, rfl⟩
    · show st.track + 1 = _
      cases bStructure <;> simp only [sectors_per_track] at hs h ⊢ <;> simp at hs h ⊢ <;> omega
    · show 0 = _
      cases bStructure <;> simp only [sectors_per_track] at hs h ⊢ <;> simp at hs h ⊢ <;> omega
  · rw [if_neg h]
    refine ⟨_, rfl, length_run_call _ _ _ _, ?_, ?_, _, rfl, rfl⟩
    · show st.track = _
      cases bStructure <;> simp only [sectors_per_track] at hs h ⊢ <;> simp at hs h ⊢ <;> omega
    · show st.sector + 1 = _
      cases bStructure <;> simp only [sectors_per_track] at hs h ⊢ <;> simp at hs h ⊢ <;> omega

/-- From a cursor inside the track the loop runs any number of iterations to the
end; the cursor advances by that many sectors and the image keeps its length. -/
theorem main_loop_cursor (bStructure : Bool) (interleaving : Nat) (binary : Buffer)
    (count j0 : Nat) (st : LoopState) (hs : st.sector < sectors_per_track bStructure) :
    ∃ st', main_loop bStructure interleaving binary count j0 st = some st' ∧
      st'.woz.length = st.woz.length ∧
      st'.track = st.track + (st.sector + count) / sectors_per_track bStructure ∧
      st'.sector = (st.sector + count) % sectors_per_track bStructure := by
  induction count generalizing j0 st with
  | zero =>
    refine ⟨st, rfl, rfl, ?_, ?_⟩
    · rw [Nat.add_zero, Nat.div_eq_of_lt hs, Nat.add_zero]
    · rw [Nat.add_zero, Nat.mod_eq_of_lt hs]
  | succ n ih =>
    obtain ⟨st1, h1, hl1, ht1, hs1, _⟩ := loop_body_some bStructure interleaving binary j0 st hs
    have hN : 0 < sectors_per_track bStructure := by omega
    have hs1' : st1.sector < sectors_per_track bStructure := by
      rw [hs1]; exact Nat.mod_lt _ hN
    obtain ⟨st2, h2, hl2, ht2, hs2⟩ := ih (j0 + 1) st1 hs1'
    refine ⟨st2, ?_, by rw [hl2, hl1], ?_, ?_⟩
    · rw [main_loop, h1]
      exact h2
    · rw [ht2, ht1, hs1]
      cases bStructure <;> simp only [sectors_per_track] <;> simp <;> omega
    · rw [hs2, hs1]
      cases bStructure <;> simp only [sectors_per_track] <;> simp <;> omega

theorem main_loop_split (bStructure : Bool) (interleaving : Nat) (binary : Buffer)
    (a b j0 : Nat) (st : LoopState) :
    main_loop bStructure interleaving binary (a + b) j0 st =
      (main_loop bStructure interleaving binary a j0 st).bind
        (main_loop bStructure interleaving binary b (j0 + a)) := by
  induction a generalizing j0 st with
  | zero => simp [main_loop]
  | succ n ih =>
    rw [Nat.add_right_comm, main_loop, main_loop]
    cases h : loop_body bStructure interleaving binary j0 st with
    | none => rfl
    | some st1 =>
      simp only [Option.some_bind]
      rw [ih, show j0 + 1 + n = j0 + (n + 1) by omega]

set_option maxRecDepth 100000 in
theorem crc32_tab_lt : ∀ b ∈ crc32_tab, b < 2 ^ 32 := by
  decide

theorem crc32_tab_getD_lt (i : Nat) : crc32_tab.getD i 0 < 2 ^ 32 := by
  rw [List.getD_eq_getElem?_getD]
  by_cases h : i < crc32_tab.length
  · rw [List.getElem?_eq_getElem h]
    exact crc32_tab_lt _ (List.getElem_mem h)
  · rw [List.getElem?_eq_none (by omega)]
    decide

theorem crc32_loop_lt (buf : Buffer) (size byte crc : Nat) (h : crc < 2 ^ 32) :
    crc32_loop buf size byte crc < 2 ^ 32 := by
  induction size generalizing byte crc with
  | zero => exact h
  | succ n ih =>
    rw [crc32_loop]
    apply ih
    apply Nat.xor_lt_two_pow (crc32_tab_getD_lt _)
    rw [Nat.shiftRight_eq_div_pow]
    exact lt_of_le_of_lt (Nat.div_le_self _ _) h

theorem crc32_lt (buf : Buffer) (size : Nat) : crc32 buf size < 2 ^ 32 := by
  unfold crc32
  exact Nat.xor_lt_two_pow (crc32_loop_lt buf size 0 _ (by decide)) (by decide)

theorem offset_view_write_crc (woz : Buffer) :
    offset_view (write_crc woz) 12 = offset_view woz 12 := by
  unfold offset_view write_crc poke
  simp only []
  rw [List.drop_set_of_lt _ _ (by decide), List.drop_set_of_lt _ _ (by decide),
    List.drop_set_of_lt _ _ (by decide), List.drop_set_of_lt _ _ (by decide)]

theorem length_write_crc (woz : Buffer) : (write_crc woz).length = woz.length := by
  unfold write_crc
  simp only [length_poke]

/-- The finalisation step on an image of 233216 bytes: cells 8 to 11 hold the four
bytes of the CRC of cells 12 on, least significant first. -/
theorem peek_write_crc (woz : Buffer) (hw : woz.length = 233216) :
    peek (write_crc woz) 8 = crc32 (offset_view woz 12) 233204 % 256 ∧
    peek (write_crc woz) 9 = crc32 (offset_view woz 12) 233204 / 256 % 256 ∧
    peek (write_crc woz) 10 = crc32 (offset_view woz 12) 233204 / 65536 % 256 ∧
    peek (write_crc woz) 11 = crc32 (offset_view woz 12) 233204 / 16777216 := by
  have hlt := crc32_lt (offset_view woz 12) 233204
  have hand : ∀ x : Nat, x &&& 0xff = x % 256 := fun x => Nat.and_pow_two_sub_one_eq_mod x 8
  have h8 : 8 < woz.length := by omega
  have h9 : 9 < woz.length := by omega
  have h10 : 10 < woz.length := by omega
  have h11 : 11 < woz.length := by omega
  have e11 : crc32 (offset_view woz 12) 233204 / 16777216 % 256
      = crc32 (offset_view woz 12) 233204 / 16777216 := by omega
  unfold write_crc
  simp only [hand, Nat.shiftRight_eq_div_pow]
  refine ⟨?_, ?_, ?_, ?_⟩
  · rw [peek_poke_ne _ _ _ _ (by decide), peek_poke_ne _ _ _ _ (by decide),
      peek_poke_ne _ _ _ _ (by decide), peek_poke_self _ _ _ h8]
  · rw [peek_poke_ne _ _ _ _ (by decide), peek_poke_ne _ _ _ _ (by decide),
      peek_poke_self _ _ _ (by rw [length_poke]; exact h9)]
  · rw [peek_poke_ne _ _ _ _ (by decide),
      peek_poke_self _ _ _ (by rw [length_poke, length_poke]; exact h10)]
  · rw [peek_poke_self _ _ _ (by rw [length_poke, length_poke, length_poke]; exact h11)]
    exact e11

/-- C8. For a 233216-byte image, a first sector inside the track and a cursor that
stays within tracks 0..34, every track region `256 + 6656 * track` the loop writes
to ends inside the image, the driver runs to its end, and in the image it leaves
cells 8, 9, 10, 11 hold, least significant byte first, the `crc32` of cells 12 to
233215 as they are after the placement loop (they are the same in the final image);
the four cells reassemble to that CRC. -/
theorem image_crc_written (bStructure : Bool) (interleaving first_track first_sector : Nat)
    (woz : Buffer) (source : List Nat) (hw : woz.length = 233216)
    (hfs : first_sector < sectors_per_track bStructure)
    (htracks : ∀ j, j < nb_sectors source.length (sector_size bStructure) →
      first_track + (first_sector + j) / sectors_per_track bStructure ≤ 34) :
    ∃ st w,
      main_loop bStructure interleaving (binary_buffer source (sector_size bStructure))
        (nb_sectors source.length (sector_size bStructure)) 0
        { woz := woz, track := first_track, sector := first_sector } = some st ∧
      main_image bStructure interleaving first_track first_sector woz source = some w ∧
      w.length = 233216 ∧
      peek w 8 = crc32 (offset_view st.woz 12) 233204 % 256 ∧
      peek w 9 = crc32 (offset_view st.woz 12) 233204 / 256 % 256 ∧
      peek w 10 = crc32 (offset_view st.woz 12) 233204 / 65536 % 256 ∧
      peek w 11 = crc32 (offset_view st.woz 12) 233204 / 16777216 ∧
      peek w 8 + 256 * peek w 9 + 65536 * peek w 10 + 16777216 * peek w 11
        = crc32 (offset_view st.woz 12) 233204 ∧
      crc32 (offset_view w 12) 233204 = crc32 (offset_view st.woz 12) 233204 ∧
      ∀ j, j < nb_sectors source.length (sector_size bStructure) →
        256 + (first_track + (first_sector + j) / sectors_per_track bStructure) * 6656 + 6656
          ≤ w.length := by
  obtain ⟨st, h1, hl, _, _⟩ := main_loop_cursor bStructure interleaving
    (binary_buffer source (sector_size bStructure))
    (nb_sectors source.length (sector_size bStructure)) 0
    { woz := woz, track := first_track, sector := first_sector } hfs
  have hl' : st.woz.length = 233216 := by rw [hl]; exact hw
  obtain ⟨p8, p9, p10, p11⟩ := peek_write_crc st.woz hl'
  have hlt := crc32_lt (offset_view st.woz 12) 233204
  refine ⟨st, write_crc st.woz, h1, ?_, by rw [length_write_crc, hl'], p8, p9, p10, p11, ?_, ?_,
    ?_⟩
  · unfold main_image
    rw [h1]
    rfl
  · rw [p8, p9, p10, p11]
    omega
  · rw [offset_view_write_crc]
  · intro j hj
    have h := htracks j hj
    rw [length_write_crc, hl']
    omega

/-- C8, for a source of 257 bytes — two sectors — placed from track 34, sector 14 of a
zeroed image: the last two slots of the last track. -/
theorem image_crc_written_witness :
    ((zero_buffer 233216).length = 233216 ∧ 14 < sectors_per_track false ∧
     nb_sectors (List.replicate 257 7).length (sector_size false) = 2 ∧
     ∀ j, j < nb_sectors (List.replicate 257 7).length (sector_size false) →
       34 + (14 + j) / sectors_per_track false ≤ 34) ∧
    ∃ st w,
      main_loop false 0 (binary_buffer (List.replicate 257 7) (sector_size false))
        (nb_sectors (List.replicate 257 7).length (sector_size false)) 0
        { woz := zero_buffer 233216, track := 34, sector := 14 } = some st ∧
      main_image false 0 34 14 (zero_buffer 233216) (List.replicate 257 7) = some w ∧
      w.length = 233216 ∧
      peek w 8 = crc32 (offset_view st.woz 12) 233204 % 256 ∧
      peek w 9 = crc32 (offset_view st.woz 12) 233204 / 256 % 256 ∧
      peek w 10 = crc32 (offset_view st.woz 12) 233204 / 65536 % 256 ∧
      peek w 11 = crc32 (offset_view st.woz 12) 233204 / 16777216 ∧
      peek w 8 + 256 * peek w 9 + 65536 * peek w 10 + 16777216 * peek w 11
        = crc32 (offset_view st.woz 12) 233204 ∧
      crc32 (offset_view w 12) 233204 = crc32 (offset_view st.woz 12) 233204 ∧
      ∀ j, j < nb_sectors (List.replicate 257 7).length (sector_size false) →
        256 + (34 + (14 + j) / sectors_per_track false) * 6656 + 6656 ≤ w.length :=
  have hn : nb_sectors (List.replicate 257 7).length (sector_size false) = 2 := by
    rw [List.length_replicate]; rfl
  have ht : ∀ j, j < nb_sectors (List.replicate 257 7).length (sector_size false) →
      34 + (14 + j) / sectors_per_track false ≤ 34 := by
    rw [hn]; decide
  ⟨⟨List.length_replicate 233216 0, by decide, hn, ht⟩,
   image_crc_written false 0 34 14 (zero_buffer 233216) (List.replicate 257 7)
     (List.length_replicate 233216 0) (by decide) ht⟩

/-! ## Positions and offset tables -/

theorem write_syncs_snd (n : Nat) (st : Buffer × Nat) :
    (write_syncs n st).2 = st.2 + 10 * n := by
  induction n generalizing st with
  | zero => rfl
  | succ n ih =>
    rw [write_syncs, ih]
    show st.2 + 8 + 2 + 10 * n = _
    omega

theorem write_contents_snd (contents : Buffer) (count c : Nat) (st : Buffer × Nat) :
    (write_contents contents count c st).2 = st.2 + 8 * count := by
  induction count generalizing c st with
  | zero => rfl
  | succ n ih =>
    rw [write_contents, ih, write_byte_snd]
    omega

theorem step_byte_snd (v : Nat) (st : Buffer × Nat) : (step_byte v st).2 = st.2 + 8 := rfl

theorem step_prologue_snd (v : Nat) (st : Buffer × Nat) : (step_prologue v st).2 = st.2 + 8 := rfl

theorem step_4_and_4_snd (v : Nat) (st : Buffer × Nat) : (step_4_and_4 v st).2 = st.2 + 8 + 8 := rfl

/-- The position a Standard serialiser call ends at, for any buffer and arguments. -/
theorem serialise_sector_standard_snd (dest src : Buffer) (p n t : Nat) :
    (serialise_sector_standard dest src p n t).2 = p + 3134 := by
  rw [serialise_sector_standard_eq]
  simp only [write_syncs_snd, write_contents_snd, step_byte_snd, step_prologue_snd,
    step_4_and_4_snd]

/-- The position a Custom serialiser call ends at, for any buffer and arguments. -/
theorem serialise_sector_custom1_snd (dest src : Buffer) (p n t : Nat) :
    (serialise_sector_custom1 dest src p n t).2 = p + 1590 := by
  rw [serialise_sector_custom1_eq]
  simp only [write_syncs_snd, write_contents_snd, step_byte_snd, step_prologue_snd,
    step_4_and_4_snd]

theorem offset_tables_steps :
    (∀ k < 15, Offset_Standard_Header.getD (k + 1) 0 = Offset_Standard_Header.getD k 0 + 3134) ∧
    (∀ k < 31, Offset_Custom1_Header.getD (k + 1) 0 = Offset_Custom1_Header.getD k 0 + 1590) := by
  decide

/-- C15. The Standard offset table is `160 + 3134 * k` for `k = 0..15` and the Custom
one `80 + 1590 * k` for `k = 0..31`; the first offsets are the lengths of 16 and 8
sync words; and a serialiser call started at the offset of slot `k` ends exactly at
the offset of slot `k + 1`, so consecutive records neither overlap nor leave bits
between them. -/
theorem offset_tables_arithmetic :
    Offset_Standard_Header = (List.range 16).map (fun k => 160 + 3134 * k) ∧
    Offset_Custom1_Header = (List.range 32).map (fun k => 80 + 1590 * k) ∧
    (sync_words 16).length = 160 ∧ (sync_words 8).length = 80 ∧
    (∀ k, k < 15 → ∀ (dest src : Buffer) (n t : Nat),
      (serialise_sector_standard dest src (Offset_Standard_Header.getD k 0) n t).2
        = Offset_Standard_Header.getD (k + 1) 0) ∧
    (∀ k, k < 31 → ∀ (dest src : Buffer) (n t : Nat),
      (serialise_sector_custom1 dest src (Offset_Custom1_Header.getD k 0) n t).2
        = Offset_Custom1_Header.getD (k + 1) 0) := by
  refine ⟨by decide, by decide, length_sync_words 16, length_sync_words 8, ?_, ?_⟩
  · intro k hk dest src n t
    rw [serialise_sector_standard_snd, offset_tables_steps.1 k hk]
  · intro k hk dest src n t
    rw [serialise_sector_custom1_snd, offset_tables_steps.2 k hk]

/-! ## The nibble table and the encoders' output -/

/-- Every cell the 256-byte encoder leaves is the table's entry for some index. -/
theorem encode_256_cells (dest src : Buffer) (hd : dest.length = 343) :
    ∀ b ∈ encode_6_and_2_256 dest src,
      ∃ i, i < 343 ∧ b = six_and_two_mapping.getD (xored (pre_256 src) 342 i) 0 := by
  intro b hb
  obtain ⟨i, hi, rfl⟩ := List.getElem_of_mem hb
  have hl : (encode_6_and_2_256 dest src).length = 343 := by
    rw [length_encode_6_and_2_256, hd]
  have h := peek_encode_6_and_2_256 dest src hd i (by omega)
  unfold peek at h
  rw [List.getD_eq_getElem?_getD, List.getElem?_eq_getElem hi] at h
  simp only [Option.getD_some] at h
  exact ⟨i, by omega, h⟩

/-- Every cell the 128-byte encoder leaves is the table's entry for some index. -/
theorem encode_128_cells (dest src : Buffer) (hd : dest.length = 172) :
    ∀ b ∈ encode_6_and_2_128 dest src,
      ∃ i, i < 172 ∧ b = six_and_two_mapping.getD (xored (pre_128 src) 171 i) 0 := by
  intro b hb
  obtain ⟨i, hi, rfl⟩ := List.getElem_of_mem hb
  have hl : (encode_6_and_2_128 dest src).length = 172 := by
    rw [length_encode_6_and_2_128, hd]
  have h := peek_encode_6_and_2_128 dest src hd i (by omega)
  unfold peek at h
  rw [List.getD_eq_getElem?_getD, List.getElem?_eq_getElem hi] at h
  simp only [Option.getD_some] at h
  exact ⟨i, by omega, h⟩

theorem mapping_getD_mem (x : Nat) (hx : x < 64) :
    six_and_two_mapping.getD x 0 ∈ six_and_two_mapping := by
  have hl : x < six_and_two_mapping.length := hx
  rw [List.getD_eq_getElem?_getD, List.getElem?_eq_getElem hl]
  exact List.getElem_mem hl

theorem mapping_getD_not_reserved (x : Nat) :
    six_and_two_mapping.getD x 0 ≠ 0xD5 ∧ six_and_two_mapping.getD x 0 ≠ 0xAA := by
  rw [List.getD_eq_getElem?_getD]
  by_cases h : x < six_and_two_mapping.length
  · rw [List.getElem?_eq_getElem h]
    have hall : ∀ b ∈ six_and_two_mapping, b ≠ 0xD5 ∧ b ≠ 0xAA := by decide
    exact hall _ (List.getElem_mem h)
  · rw [List.getElem?_eq_none (by omega)]
    decide

/-- C18 as stated fails: the table's first entry is `0x96`, the third byte of the
address prologue `D5 AA 96`, and the 256-byte encoder outputs it as the first byte
of the all-zero sector; `0xAD`, `0xDE` and `0xEB` are table entries too. -/
theorem mapping_meets_framing_markers :
    (0x96 ∈ six_and_two_mapping ∧ 0x96 ∈ framing_markers) ∧
    (0xAD ∈ six_and_two_mapping ∧ 0xAD ∈ framing_markers) ∧
    (0xDE ∈ six_and_two_mapping ∧ 0xDE ∈ framing_markers) ∧
    (0xEB ∈ six_and_two_mapping ∧ 0xEB ∈ framing_markers) ∧
    (encode_6_and_2_256 (zero_buffer 343) (List.replicate 256 0)).getD 0 0 = 0x96 := by
  refine ⟨by decide, by decide, by decide, by decide, ?_⟩
  have h := peek_encode_6_and_2_256 (zero_buffer 343) (List.replicate 256 0)
    (List.length_replicate 343 0) 0 (by decide)
  have hl : ∀ i, low2 (List.replicate 256 0) i = 0 := by
    intro i
    unfold low2
    rw [peek_replicate]
    split_ifs <;> rfl
  unfold peek at h
  rw [h]
  unfold xored pre_256
  rw [if_neg (by omega), if_pos (by omega), hl, hl, hl]
  rfl

/-- C18, amended. No entry of the nibble table, hence no byte either encoder leaves,
is `0xD5` or `0xAA`, the two bytes that open every prologue and sit in the middle of
every marker sequence. -/
theorem mapping_avoids_reserved_bytes (dest256 dest128 src256 src128 : Buffer)
    (hd256 : dest256.length = 343) (hd128 : dest128.length = 172) :
    (∀ b ∈ six_and_two_mapping, b ≠ 0xD5 ∧ b ≠ 0xAA) ∧
    (∀ b ∈ encode_6_and_2_256 dest256 src256, b ≠ 0xD5 ∧ b ≠ 0xAA) ∧
    (∀ b ∈ encode_6_and_2_128 dest128 src128, b ≠ 0xD5 ∧ b ≠ 0xAA) := by
  refine ⟨by decide, ?_, ?_⟩
  · intro b hb
    obtain ⟨i, _, rfl⟩ := encode_256_cells dest256 src256 hd256 b hb
    exact mapping_getD_not_reserved _
  · intro b hb
    obtain ⟨i, _, rfl⟩ := encode_128_cells dest128 src128 hd128 b hb
    exact mapping_getD_not_reserved _

/-- C18 amended, at the all-zero sectors. -/
theorem mapping_avoids_reserved_bytes_witness :
    ((zero_buffer 343).length = 343 ∧ (zero_buffer 172).length = 172) ∧
    (∀ b ∈ encode_6_and_2_256 (zero_buffer 343) (List.replicate 256 0), b ≠ 0xD5 ∧ b ≠ 0xAA) ∧
    (∀ b ∈ encode_6_and_2_128 (zero_buffer 172) (List.replicate 128 0), b ≠ 0xD5 ∧ b ≠ 0xAA) :=
  have h := mapping_avoids_reserved_bytes (zero_buffer 343) (zero_buffer 172)
    (List.replicate 256 0) (List.replicate 128 0) (List.length_replicate 343 0)
    (List.length_replicate 172 0)
  ⟨⟨List.length_replicate 343 0, List.length_replicate 172 0⟩, h.2.1, h.2.2⟩

/-- C19. Every entry of the nibble table has its most significant bit set (it is
between `0x80` and `0xFF`), and so has every byte either encoder leaves for a
sector of bytes: none has a leading zero bit. -/
theorem mapping_msb_set (src256 src128 : List Nat)
    (_hlen256 : src256.length = 256) (hb256 : ∀ b ∈ src256, b < 256)
    (_hlen128 : src128.length = 128) (hb128 : ∀ b ∈ src128, b < 256)
    (dest256 dest128 : Buffer) (hd256 : dest256.length = 343) (hd128 : dest128.length = 172) :
    (∀ b ∈ six_and_two_mapping, 0x80 ≤ b ∧ b ≤ 0xFF ∧ b.testBit 7 = true) ∧
    (∀ b ∈ encode_6_and_2_256 dest256 src256,
      b ∈ six_and_two_mapping ∧ 0x80 ≤ b ∧ b.testBit 7 = true) ∧
    (∀ b ∈ encode_6_and_2_128 dest128 src128,
      b ∈ six_and_two_mapping ∧ 0x80 ≤ b ∧ b.testBit 7 = true) := by
  have htab : ∀ b ∈ six_and_two_mapping, 0x80 ≤ b ∧ b ≤ 0xFF ∧ b.testBit 7 = true := by decide
  refine ⟨htab, ?_, ?_⟩
  · intro b hb
    obtain ⟨i, _, rfl⟩ := encode_256_cells dest256 src256 hd256 b hb
    have hm := mapping_getD_mem _ (xored_lt _ (pre_256_lt src256 hb256) 342 i)
    exact ⟨hm, (htab _ hm).1, (htab _ hm).2.2⟩
  · intro b hb
    obtain ⟨i, _, rfl⟩ := encode_128_cells dest128 src128 hd128 b hb
    have hm := mapping_getD_mem _ (xored_lt _ (pre_128_lt src128 hb128) 171 i)
    exact ⟨hm, (htab _ hm).1, (htab _ hm).2.2⟩

/-- C19, at the all-zero sectors. -/
theorem mapping_msb_set_witness :
    ((List.replicate 256 0).length = 256 ∧ (List.replicate 128 0).length = 128) ∧
    (∀ b ∈ encode_6_and_2_256 (zero_buffer 343) (List.replicate 256 0),
      b ∈ six_and_two_mapping ∧ 0x80 ≤ b ∧ b.testBit 7 = true) ∧
    (∀ b ∈ encode_6_and_2_128 (zero_buffer 172) (List.replicate 128 0),
      b ∈ six_and_two_mapping ∧ 0x80 ≤ b ∧ b.testBit 7 = true) :=
  have h := mapping_msb_set (List.replicate 256 0) (List.replicate 128 0)
    (List.length_replicate 256 0) (fun b h => by rw [List.eq_of_mem_replicate h]; decide)
    (List.length_replicate 128 0) (fun b h => by rw [List.eq_of_mem_replicate h]; decide)
    (zero_buffer 343) (zero_buffer 172) (List.length_replicate 343 0)
    (List.length_replicate 172 0)
  ⟨⟨List.length_replicate 256 0, List.length_replicate 128 0⟩, h.2.1, h.2.2⟩

/-! ## The XOR checksum of the encoded block -/

theorem xor_fold_range (e : Nat → Nat) (n : Nat) :
    xor_fold ((List.range (n + 1)).map e) = xor_unfold e n := by
  unfold xor_fold
  induction n with
  | zero =>
    show 0 ^^^ e 0 = e 0
    exact Nat.zero_xor _
  | succ k ih =>
    rw [List.range_succ, List.map_append, List.foldl_append, ih]
    simp only [List.map_cons, List.map_nil, List.foldl_cons, List.foldl_nil]
    rw [xor_unfold, Nat.xor_comm]

theorem map_unmap_eq_range (block : List Nat) (n : Nat) (h : block.length = n) :
    block.map unmap = (List.range n).map (fun k => unmap (block.getD k 0)) := by
  conv_lhs => rw [← range_map_peek block n h]
  rw [List.map_map]
  rfl

/-- C17. For every sector of bytes, un-mapping the 343 (resp. 172) bytes either
encoder leaves and XOR-folding all of them gives 0. -/
theorem encoders_xor_fold_zero (src256 src128 : List Nat)
    (_hlen256 : src256.length = 256) (hb256 : ∀ b ∈ src256, b < 256)
    (_hlen128 : src128.length = 128) (hb128 : ∀ b ∈ src128, b < 256)
    (dest256 dest128 : Buffer) (hd256 : dest256.length = 343) (hd128 : dest128.length = 172) :
    xor_fold ((encode_6_and_2_256 dest256 src256).map unmap) = 0 ∧
    xor_fold ((encode_6_and_2_128 dest128 src128).map unmap) = 0 := by
  constructor
  · rw [map_unmap_eq_range _ 343 (by rw [length_encode_6_and_2_256, hd256]),
      xor_fold_range _ 342]
    apply xor_unfold_last _ (pre_256 src256) 341
    · intro k hk
      exact unmap_encode_256 dest256 src256 hd256 hb256 k hk
    · unfold pre_256
      simp
  · rw [map_unmap_eq_range _ 172 (by rw [length_encode_6_and_2_128, hd128]),
      xor_fold_range _ 171]
    apply xor_unfold_last _ (pre_128 src128) 170
    · intro k hk
      exact unmap_encode_128 dest128 src128 hd128 hb128 k hk
    · unfold pre_128
      simp

/-- C17, at the all-zero sectors. -/
theorem encoders_xor_fold_zero_witness :
    ((List.replicate 256 0).length = 256 ∧ (List.replicate 128 0).length = 128) ∧
    xor_fold ((encode_6_and_2_256 (zero_buffer 343) (List.replicate 256 0)).map unmap) = 0 ∧
    xor_fold ((encode_6_and_2_128 (zero_buffer 172) (List.replicate 128 0)).map unmap) = 0 :=
  ⟨⟨List.length_replicate 256 0, List.length_replicate 128 0⟩,
   encoders_xor_fold_zero (List.replicate 256 0) (List.replicate 128 0)
    (List.length_replicate 256 0) (fun b h => by rw [List.eq_of_mem_replicate h]; decide)
    (List.length_replicate 128 0) (fun b h => by rw [List.eq_of_mem_replicate h]; decide)
    (zero_buffer 343) (zero_buffer 172) (List.length_replicate 343 0)
    (List.length_replicate 172 0)⟩

/-! ## The prologue writer at a byte boundary -/

/-- C16. At a byte-aligned position inside the buffer whose cell is zero,
`write_byte_prologue` leaves `0xCD` for the value `0x0D` and `0xF3` for the value
`0x03`; for every other byte value it returns exactly what `write_byte` returns,
with the value itself in the cell. -/
theorem write_byte_prologue_aligned (buf : Buffer) (pos : Nat) (ha : pos % 8 = 0)
    (hin : pos / 8 < buf.length) (h0 : peek buf (pos / 8) = 0) :
    peek (write_byte_prologue buf pos 0x0D).1 (pos / 8) = 0xCD ∧
    peek (write_byte_prologue buf pos 0x03).1 (pos / 8) = 0xF3 ∧
    ∀ v, v < 256 → v ≠ 0x0D → v ≠ 0x03 →
      write_byte_prologue buf pos v = write_byte buf pos v ∧
      peek (write_byte_prologue buf pos v).1 (pos / 8) = v := by
  have hfit : pos + 8 ≤ 8 * buf.length := by omega
  have hw : ∀ v, v < 256 → peek (write_byte buf pos v).1 (pos / 8) = v := by
    intro v hv
    rw [peek_write_byte _ _ _ _ hfit, if_pos rfl, h0, ha, Nat.shiftRight_zero, Nat.zero_or,
      Nat.mod_eq_of_lt hv]
  refine ⟨?_, ?_, ?_⟩
  · rw [peek_write_byte_prologue_self _ _ _ hfit, hw _ (by decide)]
    rfl
  · rw [peek_write_byte_prologue_self _ _ _ hfit, hw _ (by decide)]
    rfl
  · intro v hv h1 h2
    have e := write_byte_prologue_eq buf pos v (by rw [hw v hv]; exact h1)
      (by rw [hw v hv]; exact h2)
    exact ⟨e, by rw [e, hw v hv]⟩

/-- C16, at bit position 16 of a zeroed 8-byte buffer. -/
theorem write_byte_prologue_aligned_witness :
    (16 % 8 = 0 ∧ 16 / 8 < (zero_buffer 8).length ∧ peek (zero_buffer 8) (16 / 8) = 0) ∧
    peek (write_byte_prologue (zero_buffer 8) 16 0x0D).1 (16 / 8) = 0xCD ∧
    peek (write_byte_prologue (zero_buffer 8) 16 0x03).1 (16 / 8) = 0xF3 ∧
    write_byte_prologue (zero_buffer 8) 16 0xD5 = write_byte (zero_buffer 8) 16 0xD5 :=
  have h := write_byte_prologue_aligned (zero_buffer 8) 16 (by decide) (by decide)
    (peek_zero_buffer 8 _)
  ⟨⟨by decide, by decide, peek_zero_buffer 8 _⟩, h.1, h.2.1,
   (h.2.2 0xD5 (by decide) (by decide) (by decide)).1⟩

/-! ## Sector count and source chunks -/

theorem getD_append_zeros (l : List Nat) (m x : Nat) :
    (l ++ List.replicate m 0).getD x 0 = l.getD x 0 := by
  by_cases h : x < l.length
  · rw [List.getD_append _ _ _ _ h]
  · have h2 : l.length ≤ x := by omega
    rw [List.getD_append_right _ _ _ _ h2]
    have e0 : l.getD x 0 = 0 := by
      simp [List.getD_eq_getElem?_getD, List.getElem?_eq_none h2]
    have e1 := peek_replicate m 0 (x - l.length)
    unfold peek at e1
    rw [e0, e1, ite_self]

theorem peek_offset_view (base : Buffer) (k i : Nat) :
    peek (offset_view base k) i = peek base (k + i) := by
  unfold peek offset_view
  rw [List.getD_eq_getElem?_getD, List.getD_eq_getElem?_getD, List.getElem?_drop]

theorem nb_sectors_eq (bStructure : Bool) (len : Nat) :
    nb_sectors len (sector_size bStructure) =
      (len + sector_size bStructure - 1) / sector_size bStructure := by
  unfold nb_sectors
  cases bStructure <;> simp only [sector_size] <;> simp <;> split_ifs <;> omega

theorem length_binary_buffer (bStructure : Bool) (source : List Nat) :
    (binary_buffer source (sector_size bStructure)).length =
      nb_sectors source.length (sector_size bStructure) * sector_size bStructure := by
  unfold binary_buffer
  rw [List.length_append, List.length_replicate, nb_sectors_eq]
  cases bStructure <;> simp only [sector_size] <;> simp <;> omega

theorem chunk_eq (bStructure : Bool) (source : List Nat) (j : Nat)
    (hj : j < nb_sectors source.length (sector_size bStructure)) :
    (offset_view (binary_buffer source (sector_size bStructure))
        (j * sector_size bStructure)).take (sector_size bStructure) =
      (List.range (sector_size bStructure)).map
        (fun i => source.getD (j * sector_size bStructure + i) 0) := by
  have hl := length_binary_buffer bStructure source
  apply List.ext_getElem
  · rw [List.length_take, List.length_map, List.length_range]
    unfold offset_view
    rw [List.length_drop, hl]
    cases bStructure <;> simp only [sector_size] at hj ⊢ <;> simp at hj ⊢ <;> omega
  · intro i h1 h2
    have hi : i < sector_size bStructure := by simpa using h2
    rw [List.getElem_take, List.getElem_map, List.getElem_range]
    have e := peek_offset_view (binary_buffer source (sector_size bStructure))
      (j * sector_size bStructure) i
    unfold peek at e
    rw [List.getD_eq_getElem?_getD, List.getElem?_eq_getElem (by
      rw [List.length_take] at h1; omega)] at e
    simp only [Option.getD_some] at e
    rw [e]
    unfold binary_buffer
    exact getD_append_zeros _ _ _

theorem chunk_257 (src : List Nat) (h : src.length = 257) :
    (List.range 256).map (fun i => src.getD (1 * 256 + i) 0)
      = src.getD 256 0 :: List.replicate 255 0 := by
  apply List.ext_getElem
  · rw [List.length_map, List.length_range, List.length_cons, List.length_replicate]
  · intro i h1 h2
    rw [List.getElem_map, List.getElem_range]
    cases i with
    | zero => rfl
    | succ k =>
      rw [List.getElem_cons_succ, List.getElem_replicate]
      simp [List.getD_eq_getElem?_getD, List.getElem?_eq_none (show src.length ≤ 1 * 256 + (k + 1) by omega)]

/-- C11. For every source and either sector size `S`, the driver's sector count is
`ceil(L / S)` (0 for an empty source), the buffer `binary` has `count * S` cells, and
chunk `j` — the `S` cells at `binary + j * S` — is the source bytes `j*S .. (j+1)*S - 1`
with 0 where the source has ended; a source of 257 bytes with 256-byte sectors gives
2 sectors, the second being its last byte followed by 255 zero bytes. -/
theorem sector_count_and_chunks (bStructure : Bool) (source : List Nat) :
    nb_sectors source.length (sector_size bStructure)
      = (source.length + sector_size bStructure - 1) / sector_size bStructure ∧
    (source.length = 0 → nb_sectors source.length (sector_size bStructure) = 0) ∧
    (binary_buffer source (sector_size bStructure)).length
      = nb_sectors source.length (sector_size bStructure) * sector_size bStructure ∧
    (∀ j, j < nb_sectors source.length (sector_size bStructure) →
      (offset_view (binary_buffer source (sector_size bStructure))
          (j * sector_size bStructure)).take (sector_size bStructure)
        = (List.range (sector_size bStructure)).map
            (fun i => source.getD (j * sector_size bStructure + i) 0)) ∧
    (∀ src : List Nat, src.length = 257 →
      nb_sectors src.length (sector_size false) = 2 ∧
      (offset_view (binary_buffer src (sector_size false)) (1 * sector_size false)).take
          (sector_size false)
        = src.getD 256 0 :: List.replicate 255 0) := by
  refine ⟨nb_sectors_eq bStructure _, ?_, length_binary_buffer bStructure source,
    fun j hj => chunk_eq bStructure source j hj, ?_⟩
  · intro h
    rw [nb_sectors_eq, h]
    cases bStructure <;> rfl
  · intro src h
    have hn : nb_sectors src.length (sector_size false) = 2 := by
      rw [h]; rfl
    refine ⟨hn, ?_⟩
    rw [chunk_eq false src 1 (by rw [hn]; decide)]
    exact chunk_257 src h

/-! ## The sector number handed to the serialiser -/

theorem physical_interleaving_identity (bStructure : Bool) :
    ∀ sector, sector < sectors_per_track bStructure →
      (interleaving_table bStructure 1)[sector]? = some sector := by
  cases bStructure
  · have h : ∀ sector < 16, Standard_Physical_Interleaving[sector]? = some sector := by decide
    exact h
  · have h : ∀ sector < 32, Custom_Physical_Interleaving[sector]? = some sector := by decide
    exact h

/-- C12 as stated fails: in a Standard run with DOS interleaving whose cursor is at
logical sector 1, the sector number handed to the serialiser is 13. -/
theorem serialiser_sector_number_not_logical :
    ∃ call, serialiser_call false 0 0 0 1 = some call ∧
      call.physical_sector = 13 ∧ call.physical_sector ≠ 1 :=
  ⟨_, rfl, rfl, by decide⟩

/-- C12, amended. In every iteration whose logical sector is below the sector count,
the sector number handed to the serialiser is the physical slot that the chosen
interleaving table gives for the logical sector — the slot whose bit offset the
record is written at; under the physical interleaving scheme that is the logical
sector number itself. -/
theorem serialiser_sector_number_physical (bStructure : Bool)
    (interleaving j track sector : Nat) (binary woz : Buffer)
    (hs : sector < sectors_per_track bStructure) :
    ∃ call,
      serialiser_call bStructure interleaving j track sector = some call ∧
      (interleaving_table bStructure interleaving)[sector]? = some call.physical_sector ∧
      (offset_table bStructure)[call.physical_sector]? = some call.offset_header ∧
      (interleaving = 1 → call.physical_sector = sector) ∧
      run_call bStructure binary woz call =
        store_view woz call.dest_offset
          (if !bStructure then
            serialise_sector_standard (offset_view woz call.dest_offset)
              (offset_view binary call.src_offset) call.offset_header call.physical_sector
              call.track
          else
            serialise_sector_custom1 (offset_view woz call.dest_offset)
              (offset_view binary call.src_offset) call.offset_header call.physical_sector
              call.track).1 := by
  obtain ⟨ps, oh, hps, hoh, hc⟩ := serialiser_call_some bStructure interleaving j track sector hs
  refine ⟨_, hc, hps, hoh, ?_, rfl⟩
  intro h1
  subst h1
  rw [physical_interleaving_identity bStructure sector hs] at hps
  exact (Option.some.inj hps).symm

/-- C12 amended, at logical sector 1 of a Standard run with DOS interleaving. -/
theorem serialiser_sector_number_physical_witness :
    (1 < sectors_per_track false) ∧
    ∃ call,
      serialiser_call false 0 0 0 1 = some call ∧
      (interleaving_table false 0)[1]? = some call.physical_sector ∧
      (offset_table false)[call.physical_sector]? = some call.offset_header ∧
      ((0 : Nat) = 1 → call.physical_sector = 1) ∧
      run_call false (zero_buffer 256) (zero_buffer 233216) call =
        store_view (zero_buffer 233216) call.dest_offset
          (if !false then
            serialise_sector_standard (offset_view (zero_buffer 233216) call.dest_offset)
              (offset_view (zero_buffer 256) call.src_offset) call.offset_header
              call.physical_sector call.track
          else
            serialise_sector_custom1 (offset_view (zero_buffer 233216) call.dest_offset)
              (offset_view (zero_buffer 256) call.src_offset) call.offset_header
              call.physical_sector call.track).1 :=
  ⟨by decide,
   serialiser_sector_number_physical false 0 0 0 1 (zero_buffer 256) (zero_buffer 233216)
     (by decide)⟩

/-! ## What the driver leaves untouched -/

theorem peek_store_view_lt (woz : Buffer) (k : Nat) (region : Buffer) (i : Nat) (hi : i < k)
    (hr : region.length = (offset_view woz k).length) :
    peek (store_view woz k region) i = peek woz i := by
  unfold offset_view at hr
  rw [List.length_drop] at hr
  unfold peek store_view
  by_cases h : i < woz.length
  · rw [List.getD_append _ _ _ _ (by rw [List.length_take]; omega)]
    simp [List.getD_eq_getElem?_getD, List.getElem?_take, hi]
  · have h1 : (woz.take k ++ region).length ≤ i := by
      rw [List.length_append, List.length_take]; omega
    simp [List.getD_eq_getElem?_getD, List.getElem?_eq_none h1,
      List.getElem?_eq_none (show woz.length ≤ i by omega)]

theorem peek_run_call_lt (bStructure : Bool) (binary woz : Buffer) (call : SerialiserCall)
    (i : Nat) (hi : i < call.dest_offset) :
    peek (run_call bStructure binary woz call) i = peek woz i := by
  unfold run_call
  apply peek_store_view_lt _ _ _ _ hi
  split_ifs
  · exact length_serialise_sector_standard _ _ _ _ _
  · exact length_serialise_sector_custom1 _ _ _ _ _

/-- One iteration changes no cell of the 256-byte container header. -/
theorem loop_body_header (bStructure : Bool) (interleaving : Nat) (binary : Buffer) (j : Nat)
    (st st' : LoopState) (hs : st.sector < sectors_per_track bStructure)
    (h : loop_body bStructure interleaving binary j st = some st') (i : Nat) (hi : i < 256) :
    peek st'.woz i = peek st.woz i := by
  obtain ⟨ps, oh, _, _, hc⟩ := serialiser_call_some bStructure interleaving j st.track st.sector hs
  obtain ⟨st'', hb, _, _, _, call, hcall, hw⟩ :=
    loop_body_some bStructure interleaving binary j st hs
  rw [hb] at h
  have e : st'' = st' := Option.some.inj h
  subst e
  rw [hc] at hcall
  have hcall' := Option.some.inj hcall
  rw [hw, ← hcall']
  apply peek_run_call_lt
  show i < 256 + st.track * 6656
  omega

/-- The placement loop changes no cell of the 256-byte container header. -/
theorem main_loop_header (bStructure : Bool) (interleaving : Nat) (binary : Buffer)
    (count j0 : Nat) (st st' : LoopState) (hs : st.sector < sectors_per_track bStructure)
    (h : main_loop bStructure interleaving binary count j0 st = some st') (i : Nat)
    (hi : i < 256) :
    peek st'.woz i = peek st.woz i := by
  induction count generalizing j0 st with
  | zero =>
    rw [main_loop] at h
    rw [← Option.some.inj h]
  | succ n ih =>
    obtain ⟨st1, h1, _, _, hs1, _⟩ := loop_body_some bStructure interleaving binary j0 st hs
    have hN : 0 < sectors_per_track bStructure := by omega
    have hs1' : st1.sector < sectors_per_track bStructure := by
      rw [hs1]; exact Nat.mod_lt _ hN
    rw [main_loop, h1] at h
    rw [ih (j0 + 1) st1 hs1' h, loop_body_header bStructure interleaving binary j0 st st1 hs h1 i hi]

theorem peek_write_crc_ne (woz : Buffer) (i : Nat) (hi : i < 8 ∨ 12 ≤ i) :
    peek (write_crc woz) i = peek woz i := by
  unfold write_crc
  simp only []
  rw [peek_poke_ne _ _ _ _ (by omega), peek_poke_ne _ _ _ _ (by omega),
    peek_poke_ne _ _ _ _ (by omega), peek_poke_ne _ _ _ _ (by omega)]

/-- C13. For a 233216-byte image, a first sector inside the track and a cursor that
stays within tracks 0..34, the driver returns an image of the same length that
differs from the input only in cells 8..11 and in cells from 256 on: cells 0..7
and 12..255 are unchanged. -/
theorem image_frame (bStructure : Bool) (interleaving first_track first_sector : Nat)
    (woz : Buffer) (source : List Nat) (hw : woz.length = 233216)
    (hfs : first_sector < sectors_per_track bStructure)
    (_htracks : ∀ j, j < nb_sectors source.length (sector_size bStructure) →
      first_track + (first_sector + j) / sectors_per_track bStructure ≤ 34) :
    ∃ w, main_image bStructure interleaving first_track first_sector woz source = some w ∧
      w.length = 233216 ∧
      ∀ i, i < 256 → (i < 8 ∨ 12 ≤ i) → peek w i = peek woz i := by
  obtain ⟨st, h1, hl, _, _⟩ := main_loop_cursor bStructure interleaving
    (binary_buffer source (sector_size bStructure))
    (nb_sectors source.length (sector_size bStructure)) 0
    { woz := woz, track := first_track, sector := first_sector } hfs
  refine ⟨write_crc st.woz, ?_, by rw [length_write_crc, hl]; exact hw, ?_⟩
  · unfold main_image
    rw [h1]
    rfl
  · intro i hi hne
    rw [peek_write_crc_ne _ _ hne]
    exact main_loop_header bStructure interleaving _ _ 0 _ st hfs h1 i hi

/-- C13, for a one-byte source written at track 0, sector 0 of a zeroed image. -/
theorem image_frame_witness :
    ((zero_buffer 233216).length = 233216 ∧ 0 < sectors_per_track false) ∧
    ∃ w, main_image false 0 0 0 (zero_buffer 233216) [7] = some w ∧
      w.length = 233216 ∧
      ∀ i, i < 256 → (i < 8 ∨ 12 ≤ i) → peek w i = peek (zero_buffer 233216) i :=
  ⟨⟨List.length_replicate 233216 0, by decide⟩,
   image_frame false 0 0 0 (zero_buffer 233216) [7] (List.length_replicate 233216 0)
     (by decide) (fun j hj => by
       have h1 : nb_sectors [7].length (sector_size false) = 1 := by decide
       rw [h1] at hj
       have h2 : j = 0 := by omega
       subst h2
       decide)⟩

/-! ## The cells a serialiser call indexes -/

theorem mem_write_byte_cells (pos c : Nat) :
    c ∈ write_byte_cells pos ↔ c = pos / 8 ∨ (c = pos / 8 + 1 ∧ pos % 8 ≠ 0) := by
  unfold write_byte_cells
  rw [and_7, shr_3]
  split_ifs with h
  · simp [h]
  · simp only [List.mem_singleton]
    constructor
    · intro h1; exact Or.inl h1
    · rintro (h1 | ⟨_, h2⟩)
      · exact h1
      · exact absurd h2 h

theorem peek_write_byte_frame (buf : Buffer) (pos v j : Nat) (hj : j ∉ write_byte_cells pos) :
    peek (write_byte buf pos v).1 j = peek buf j := by
  rw [mem_write_byte_cells] at hj
  unfold write_byte
  simp only [and_7, shr_3]
  split_ifs with h
  · rw [peek_poke_ne _ _ _ _ (by intro e; exact hj (Or.inr ⟨e, h⟩)),
      peek_poke_ne _ _ _ _ (by intro e; exact hj (Or.inl e))]
  · rw [peek_poke_ne _ _ _ _ (by intro e; exact hj (Or.inl e))]

theorem peek_write_byte_prologue_frame (buf : Buffer) (pos v j : Nat)
    (hj : j ∉ write_byte_cells pos) :
    peek (write_byte_prologue buf pos v).1 j = peek buf j := by
  rw [peek_write_byte_prologue_ne _ _ _ _
    (by intro e; exact hj ((mem_write_byte_cells pos j).mpr (Or.inl e))),
    peek_write_byte_frame _ _ _ _ hj]

theorem logged_step_byte (buf0 : Buffer) (log : List Nat × Nat) (st : Buffer × Nat)
    (h : Logged buf0 log st) (v : Nat) : Logged buf0 (log_byte log) (step_byte v st) := by
  obtain ⟨hp, hf⟩ := h
  refine ⟨by show st.2 + 8 = log.2 + 8; rw [hp], ?_⟩
  intro j hj
  have hj' : j ∉ log.1 ∧ j ∉ write_byte_cells st.2 := by
    rw [hp]
    constructor
    · intro e; exact hj (List.mem_append_left _ e)
    · intro e; exact hj (List.mem_append_right _ e)
  show peek (write_byte st.1 st.2 v).1 j = _
  rw [peek_write_byte_frame _ _ _ _ hj'.2, hf j hj'.1]

theorem logged_step_prologue (buf0 : Buffer) (log : List Nat × Nat) (st : Buffer × Nat)
    (h : Logged buf0 log st) (v : Nat) : Logged buf0 (log_byte log) (step_prologue v st) := by
  obtain ⟨hp, hf⟩ := h
  refine ⟨by show st.2 + 8 = log.2 + 8; rw [hp], ?_⟩
  intro j hj
  have hj' : j ∉ log.1 ∧ j ∉ write_byte_cells st.2 := by
    rw [hp]
    constructor
    · intro e; exact hj (List.mem_append_left _ e)
    · intro e; exact hj (List.mem_append_right _ e)
  show peek (write_byte_prologue st.1 st.2 v).1 j = _
  rw [peek_write_byte_prologue_frame _ _ _ _ hj'.2, hf j hj'.1]

theorem logged_step_4_and_4 (buf0 : Buffer) (log : List Nat × Nat) (st : Buffer × Nat)
    (h : Logged buf0 log st) (v : Nat) : Logged buf0 (log_bytes 2 log) (step_4_and_4 v st) :=
  logged_step_byte buf0 _ _ (logged_step_byte buf0 log st h _) _

theorem logged_syncs (buf0 : Buffer) (n : Nat) (log : List Nat × Nat) (st : Buffer × Nat)
    (h : Logged buf0 log st) : Logged buf0 (log_syncs n log) (write_syncs n st) := by
  induction n generalizing log st with
  | zero => exact h
  | succ n ih =>
    rw [log_syncs, write_syncs]
    apply ih
    have h1 := logged_step_byte buf0 log st h 0xff
    exact ⟨by show (write_byte st.1 st.2 0xff).2 + 2 = (log_byte log).2 + 2
              rw [show (write_byte st.1 st.2 0xff).2 = (log_byte log).2 from h1.1], h1.2⟩

theorem logged_contents (buf0 : Buffer) (contents : Buffer) (count c : Nat)
    (log : List Nat × Nat) (st : Buffer × Nat) (h : Logged buf0 log st) :
    Logged buf0 (log_bytes count log) (write_contents contents count c st) := by
  induction count generalizing c log st with
  | zero => exact h
  | succ n ih =>
    rw [log_bytes, write_contents]
    exact ih _ _ _ (logged_step_byte buf0 log st h _)

theorem logged_memset (dest : Buffer) (p count : Nat) :
    Logged dest (memset_cells (p >>> 3) count, p) (memset dest (p >>> 3) 0 count, p) := by
  refine ⟨rfl, ?_⟩
  intro j hj
  rw [peek_memset, if_neg]
  intro ⟨h1, h2, _⟩
  apply hj
  unfold memset_cells
  rw [List.mem_map]
  exact ⟨j - p >>> 3, List.mem_range.mpr (by omega), by omega⟩

/-- A Standard serialiser call ends at its log's position and changes no cell
outside its log. -/
theorem serialise_sector_standard_logged (dest src : Buffer) (p n t : Nat) :
    Logged dest (serialise_sector_standard_cells p) (serialise_sector_standard dest src p n t) := by
  rw [serialise_sector_standard_eq]
  unfold serialise_sector_standard_cells
  have h := logged_memset dest p (3134 >>> 3)
  have h := logged_step_prologue dest _ _ h 0xd5
  have h := logged_step_prologue dest _ _ h 0xaa
  have h := logged_step_prologue dest _ _ h 0x96
  have h := logged_step_4_and_4 dest _ _ h 254
  have h := logged_step_4_and_4 dest _ _ h t
  have h := logged_step_4_and_4 dest _ _ h n
  have h := logged_step_4_and_4 dest _ _ h (254 ^^^ t ^^^ n)
  have h := logged_step_byte dest _ _ h 0xde
  have h := logged_step_byte dest _ _ h 0xaa
  have h := logged_step_byte dest _ _ h 0xeb
  have h := logged_syncs dest 7 _ _ h
  have h := logged_step_byte dest _ _ h 0xd5
  have h := logged_step_byte dest _ _ h 0xaa
  have h := logged_step_byte dest _ _ h 0xad
  have h := logged_contents dest (encode_6_and_2_256 (zero_buffer 343) src) 343 0 _ _ h
  have h := logged_step_byte dest _ _ h 0xde
  have h := logged_step_byte dest _ _ h 0xaa
  have h := logged_step_byte dest _ _ h 0xeb
  exact logged_syncs dest 16 _ _ h

/-- A Custom serialiser call ends at its log's position and changes no cell outside
its log. -/
theorem serialise_sector_custom1_logged (dest src : Buffer) (p n t : Nat) :
    Logged dest (serialise_sector_custom1_cells p) (serialise_sector_custom1 dest src p n t) := by
  rw [serialise_sector_custom1_eq]
  unfold serialise_sector_custom1_cells
  have h := logged_memset dest p (1590 >>> 3)
  have h := logged_step_prologue dest _ _ h 0xd5
  have h := logged_step_prologue dest _ _ h 0xaa
  have h := logged_step_prologue dest _ _ h 0x96
  have h := logged_step_4_and_4 dest _ _ h n
  have h := logged_syncs dest 7 _ _ h
  have h := logged_step_byte dest _ _ h 0xd5
  have h := logged_step_byte dest _ _ h 0xaa
  have h := logged_step_byte dest _ _ h 0xad
  have h := logged_contents dest (encode_6_and_2_128 (zero_buffer 172) src) 172 0 _ _ h
  exact logged_syncs dest 8 _ _ h

theorem logbelow_byte (p span : Nat) (log : List Nat × Nat) (h : LogBelow p span log) :
    LogBelow p span (log_byte log) := by
  intro c hc
  rcases List.mem_append.mp hc with h1 | h1
  · rcases h c h1 with h2 | h2
    · exact Or.inl h2
    · exact Or.inr (by show 8 * c < log.2 + 8; omega)
  · right
    show 8 * c < log.2 + 8
    rcases (mem_write_byte_cells _ _).mp h1 with h2 | ⟨h2, h3⟩ <;> omega

theorem logbelow_bytes (p span n : Nat) (log : List Nat × Nat) (h : LogBelow p span log) :
    LogBelow p span (log_bytes n log) := by
  induction n generalizing log with
  | zero => exact h
  | succ n ih => exact ih _ (logbelow_byte p span log h)

theorem logbelow_sync (p span : Nat) (log : List Nat × Nat) (h : LogBelow p span log) :
    LogBelow p span (log_sync log) := by
  intro c hc
  rcases logbelow_byte p span log h c hc with h1 | h1
  · exact Or.inl h1
  · exact Or.inr (by show 8 * c < (log_byte log).2 + 2; omega)

theorem logbelow_syncs (p span n : Nat) (log : List Nat × Nat) (h : LogBelow p span log) :
    LogBelow p span (log_syncs n log) := by
  induction n generalizing log with
  | zero => exact h
  | succ n ih => exact ih _ (logbelow_sync p span log h)

theorem logbelow_memset (p span : Nat) : LogBelow p span (memset_cells (p >>> 3) span, p) := by
  intro c hc
  left
  obtain ⟨i, hi, rfl⟩ := List.mem_map.mp hc
  rw [shr_3]
  have := List.mem_range.mp hi
  omega

theorem serialise_sector_standard_cells_below (p : Nat) :
    LogBelow p (3134 >>> 3) (serialise_sector_standard_cells p) := by
  unfold serialise_sector_standard_cells
  have h := logbelow_memset p (3134 >>> 3)
  have h := logbelow_bytes p _ 3 _ h
  have h := logbelow_bytes p _ 2 _ h
  have h := logbelow_bytes p _ 2 _ h
  have h := logbelow_bytes p _ 2 _ h
  have h := logbelow_bytes p _ 2 _ h
  have h := logbelow_bytes p _ 3 _ h
  have h := logbelow_syncs p _ 7 _ h
  have h := logbelow_bytes p _ 3 _ h
  have h := logbelow_bytes p _ 343 _ h
  have h := logbelow_bytes p _ 3 _ h
  exact logbelow_syncs p _ 16 _ h

theorem serialise_sector_custom1_cells_below (p : Nat) :
    LogBelow p (1590 >>> 3) (serialise_sector_custom1_cells p) := by
  unfold serialise_sector_custom1_cells
  have h := logbelow_memset p (1590 >>> 3)
  have h := logbelow_bytes p _ 3 _ h
  have h := logbelow_bytes p _ 2 _ h
  have h := logbelow_syncs p _ 7 _ h
  have h := logbelow_bytes p _ 3 _ h
  have h := logbelow_bytes p _ 172 _ h
  exact logbelow_syncs p _ 8 _ h

theorem serialise_sector_standard_cells_snd (p : Nat) :
    (serialise_sector_standard_cells p).2 = p + 3134 := by
  rw [← (serialise_sector_standard_logged [] [] p 0 0).1, serialise_sector_standard_snd]

theorem serialise_sector_custom1_cells_snd (p : Nat) :
    (serialise_sector_custom1_cells p).2 = p + 1590 := by
  rw [← (serialise_sector_custom1_logged [] [] p 0 0).1, serialise_sector_custom1_snd]

theorem offset_tables_bounds :
    (∀ k < 16, Offset_Standard_Header.getD k 0 ≤ 47170) ∧
    (∀ k < 32, Offset_Custom1_Header.getD k 0 ≤ 49370) := by
  decide

/-- C14. For every Standard slot `kS` and every Custom slot `kC`, a serialiser call
started at the slot's table offset indexes only cells below 6656 (the `memset`
included), ends at a bit position of at most 53248, and leaves every cell outside
the cells it indexes — so every cell from 6656 on — as it was. -/
theorem serialiser_within_track_region (kS kC : Nat) (hS : kS < 16) (hC : kC < 32)
    (dest src : Buffer) (n t : Nat) :
    ((∀ c ∈ (serialise_sector_standard_cells (Offset_Standard_Header.getD kS 0)).1, c < 6656) ∧
     (serialise_sector_standard dest src (Offset_Standard_Header.getD kS 0) n t).2 ≤ 53248 ∧
     (∀ j, j ∉ (serialise_sector_standard_cells (Offset_Standard_Header.getD kS 0)).1 →
        peek (serialise_sector_standard dest src (Offset_Standard_Header.getD kS 0) n t).1 j
          = peek dest j) ∧
     (∀ j, 6656 ≤ j →
        peek (serialise_sector_standard dest src (Offset_Standard_Header.getD kS 0) n t).1 j
          = peek dest j)) ∧
    ((∀ c ∈ (serialise_sector_custom1_cells (Offset_Custom1_Header.getD kC 0)).1, c < 6656) ∧
     (serialise_sector_custom1 dest src (Offset_Custom1_Header.getD kC 0) n t).2 ≤ 53248 ∧
     (∀ j, j ∉ (serialise_sector_custom1_cells (Offset_Custom1_Header.getD kC 0)).1 →
        peek (serialise_sector_custom1 dest src (Offset_Custom1_Header.getD kC 0) n t).1 j
          = peek dest j) ∧
     (∀ j, 6656 ≤ j →
        peek (serialise_sector_custom1 dest src (Offset_Custom1_Header.getD kC 0) n t).1 j
          = peek dest j)) := by
  have hoS := offset_tables_bounds.1 kS hS
  have hoC := offset_tables_bounds.2 kC hC
  have hcS : ∀ c ∈ (serialise_sector_standard_cells (Offset_Standard_Header.getD kS 0)).1,
      c < 6656 := by
    intro c hc
    have h := serialise_sector_standard_cells_below _ c hc
    rw [serialise_sector_standard_cells_snd] at h
    omega
  have hcC : ∀ c ∈ (serialise_sector_custom1_cells (Offset_Custom1_Header.getD kC 0)).1,
      c < 6656 := by
    intro c hc
    have h := serialise_sector_custom1_cells_below _ c hc
    rw [serialise_sector_custom1_cells_snd] at h
    omega
  have hlS := serialise_sector_standard_logged dest src (Offset_Standard_Header.getD kS 0) n t
  have hlC := serialise_sector_custom1_logged dest src (Offset_Custom1_Header.getD kC 0) n t
  refine ⟨⟨hcS, by rw [serialise_sector_standard_snd]; omega, hlS.2, ?_⟩,
    ⟨hcC, by rw [serialise_sector_custom1_snd]; omega, hlC.2, ?_⟩⟩
  · intro j hj
    exact hlS.2 j (fun hm => by have := hcS j hm; omega)
  · intro j hj
    exact hlC.2 j (fun hm => by have := hcC j hm; omega)

/-- C14, at the last slot of each geometry. -/
theorem serialiser_within_track_region_witness :
    (15 < 16 ∧ 31 < 32) ∧
    (∀ c ∈ (serialise_sector_standard_cells (Offset_Standard_Header.getD 15 0)).1, c < 6656) ∧
    (serialise_sector_standard (zero_buffer 6656) (zero_buffer 256)
      (Offset_Standard_Header.getD 15 0) 15 34).2 ≤ 53248 ∧
    (∀ c ∈ (serialise_sector_custom1_cells (Offset_Custom1_Header.getD 31 0)).1, c < 6656) ∧
    (serialise_sector_custom1 (zero_buffer 6656) (zero_buffer 128)
      (Offset_Custom1_Header.getD 31 0) 31 34).2 ≤ 53248 :=
  have h := serialiser_within_track_region 15 31 (by decide) (by decide) (zero_buffer 6656)
    (zero_buffer 256) 15 34
  have h' := serialiser_within_track_region 15 31 (by decide) (by decide) (zero_buffer 6656)
    (zero_buffer 128) 31 34
  ⟨⟨by decide, by decide⟩, h.1.1, h.1.2.1, h'.2.1, h'.2.2.1⟩

/-! ## `write_byte` as eight `write_bit` calls -/

theorem testBit_eq_shift_and (v k : Nat) : decide ((v >>> k) &&& 1 ≠ 0) = v.testBit k := by
  rw [Nat.testBit_to_div_mod, Nat.and_one_is_mod, Nat.shiftRight_eq_div_pow, decide_eq_decide]
  omega

theorem length_write_bit (buf : Buffer) (pos b : Nat) :
    (write_bit buf pos b).1.length = buf.length := by
  unfold write_bit
  simp only [length_poke]

theorem peek_write_bit_lt (buf : Buffer) (pos b : Nat) (h : ∀ j, peek buf j < 256) (j : Nat) :
    peek (write_bit buf pos b).1 j < 256 := by
  unfold write_bit
  simp only []
  rw [peek_poke]
  by_cases hc : j = pos >>> 3 ∧ pos >>> 3 < buf.length
  · rw [if_pos hc]
    exact Nat.mod_lt _ (by decide)
  · rw [if_neg hc]
    exact h j

/-- The bits `write_bit` leaves: the bit at `pos` is OR-ed with the value written. -/
theorem read_bit_write_bit (buf : Buffer) (pos b q : Nat) (hin : pos / 8 < buf.length) :
    read_bit (write_bit buf pos b).1 q
      = (read_bit buf q || (decide (q = pos) && decide (b ≠ 0))) := by
  rw [read_bit_eq, read_bit_eq]
  unfold write_bit
  simp only [and_7, shr_3, peek_poke]
  have hk : 7 - q % 8 < 8 := by omega
  by_cases h1 : q / 8 = pos / 8
  · rw [if_pos ⟨h1, hin⟩, testBit_byte_or _ _ _ hk, Nat.testBit_shiftRight, h1]
    congr 1
    by_cases hb : b ≠ 0
    · rw [if_pos hb]
      have e : (0x80 : Nat) = 2 ^ 7 := rfl
      have eb : decide (b ≠ 0) = true := decide_eq_true hb
      rw [e, Nat.testBit_two_pow, eb, Bool.and_true, decide_eq_decide]
      omega
    · rw [if_neg hb]
      simp [hb]
  · rw [if_neg (by intro h; exact h1 h.1)]
    have e : decide (q = pos) = false := by
      rw [decide_eq_false_iff_not]
      intro h
      exact h1 (by rw [h])
    rw [e, Bool.false_and, Bool.or_false]

/-- The bits a run of `write_bit` calls leaves. -/
theorem read_bit_write_bits (v k : Nat) (st : Buffer × Nat)
    (hfit : st.2 + k ≤ 8 * st.1.length) (hbytes : ∀ j, peek st.1 j < 256) :
    (write_bits v k st).2 = st.2 + k ∧
    (write_bits v k st).1.length = st.1.length ∧
    (∀ j, peek (write_bits v k st).1 j < 256) ∧
    ∀ q, read_bit (write_bits v k st).1 q
      = (read_bit st.1 q ||
          (decide (st.2 ≤ q ∧ q < st.2 + k) && v.testBit (k - 1 - (q - st.2)))) := by
  induction k generalizing st with
  | zero =>
    refine ⟨rfl, rfl, hbytes, ?_⟩
    intro q
    have e : decide (st.2 ≤ q ∧ q < st.2 + 0) = false := by
      rw [decide_eq_false_iff_not]; omega
    rw [e, Bool.false_and, Bool.or_false]
    rfl
  | succ n ih =>
    have hl := length_write_bit st.1 st.2 ((v >>> n) &&& 1)
    obtain ⟨h1, h2, h3, h4⟩ := ih (write_bit st.1 st.2 ((v >>> n) &&& 1))
      (by rw [hl]; show st.2 + 1 + n ≤ _; omega)
      (peek_write_bit_lt _ _ _ hbytes)
    rw [write_bits]
    refine ⟨by rw [h1]; show st.2 + 1 + n = _; omega, by rw [h2, hl], h3, ?_⟩
    intro q
    rw [h4 q, read_bit_write_bit _ _ _ _ (by omega), testBit_eq_shift_and, Bool.or_assoc]
    congr 1
    show (decide (q = st.2) && v.testBit n ||
      decide (st.2 + 1 ≤ q ∧ q < st.2 + 1 + n) && v.testBit (n - 1 - (q - (st.2 + 1)))) = _
    by_cases hq : q = st.2
    · subst hq
      have e1 : decide (st.2 + 1 ≤ st.2 ∧ st.2 < st.2 + 1 + n) = false := by
        rw [decide_eq_false_iff_not]; omega
      have e2 : decide (st.2 ≤ st.2 ∧ st.2 < st.2 + (n + 1)) = true := by
        rw [decide_eq_true_iff]; omega
      have e3 : n + 1 - 1 - (st.2 - st.2) = n := by omega
      rw [e1, e2, e3]
      simp
    · have e0 : decide (q = st.2) = false := by
        rw [decide_eq_false_iff_not]; exact hq
      rw [e0, Bool.false_and, Bool.false_or]
      by_cases hr : st.2 + 1 ≤ q ∧ q < st.2 + 1 + n
      · have e1 : decide (st.2 + 1 ≤ q ∧ q < st.2 + 1 + n) = true := by
          rw [decide_eq_true_iff]; exact hr
        have e2 : decide (st.2 ≤ q ∧ q < st.2 + (n + 1)) = true := by
          rw [decide_eq_true_iff]; omega
        have e3 : n + 1 - 1 - (q - st.2) = n - 1 - (q - (st.2 + 1)) := by omega
        rw [e1, e2, e3]
      · have e1 : decide (st.2 + 1 ≤ q ∧ q < st.2 + 1 + n) = false := by
          rw [decide_eq_false_iff_not]; exact hr
        have e2 : decide (st.2 ≤ q ∧ q < st.2 + (n + 1)) = false := by
          rw [decide_eq_false_iff_not]; omega
        rw [e1, e2, Bool.false_and, Bool.false_and]

/-- Two buffers of bytes of the same length with the same bits are the same buffer. -/
theorem buffer_ext_of_read_bit (b1 b2 : Buffer) (hl : b1.length = b2.length)
    (h1 : ∀ j, peek b1 j < 256) (h2 : ∀ j, peek b2 j < 256)
    (hr : ∀ q, read_bit b1 q = read_bit b2 q) : b1 = b2 := by
  apply List.ext_getElem hl
  intro i hi1 hi2
  have e1 : peek b1 i = b1[i] := by
    simp [peek, List.getD_eq_getElem?_getD, List.getElem?_eq_getElem hi1]
  have e2 : peek b2 i = b2[i] := by
    simp [peek, List.getD_eq_getElem?_getD, List.getElem?_eq_getElem hi2]
  rw [← e1, ← e2]
  apply Nat.eq_of_testBit_eq
  intro t
  by_cases ht : t < 8
  · have h := hr (8 * i + (7 - t))
    rw [read_bit_eq, read_bit_eq] at h
    have c1 : (8 * i + (7 - t)) / 8 = i := by omega
    have c2 : 7 - (8 * i + (7 - t)) % 8 = t := by omega
    rw [c1, c2] at h
    exact h
  · rw [testBit_high _ _ (h1 i) (by omega), testBit_high _ _ (h2 i) (by omega)]

theorem peek_write_byte_lt (buf : Buffer) (pos v : Nat) (h : ∀ j, peek buf j < 256)
    (hfit : pos + 8 ≤ 8 * buf.length) (j : Nat) : peek (write_byte buf pos v).1 j < 256 := by
  rw [peek_write_byte _ _ _ _ hfit]
  split_ifs
  · exact Nat.mod_lt _ (by decide)
  · exact Nat.mod_lt _ (by decide)
  · exact h j

/-- C20. For every buffer of bytes, every bit position whose eight bits lie in the
buffer and every byte value, `write_byte` returns the same buffer and the same
position as eight successive `write_bit` calls supplying bit 7 of the value, then
bit 6, down to bit 0. -/
theorem write_byte_eq_write_bits (buf : Buffer) (pos v : Nat) (hb : ∀ b ∈ buf, b < 256)
    (hv : v < 256) (hfit : pos + 8 ≤ 8 * buf.length) :
    write_byte buf pos v = write_bits v 8 (buf, pos) := by
  have hbytes : ∀ j, peek buf j < 256 := peek_lt_256 buf hb
  obtain ⟨h1, h2, h3, h4⟩ := read_bit_write_bits v 8 (buf, pos) hfit hbytes
  apply Prod.ext
  · apply buffer_ext_of_read_bit _ _ (by rw [length_write_byte, h2])
      (peek_write_byte_lt buf pos v hbytes hfit) h3
    intro q
    rw [read_bit_write_byte _ _ _ _ hv hfit, h4 q]
    rfl
  · rw [h1]
    rfl

/-- C20, for the byte `0xD5` written at bit position 3 of a buffer of eight `0x11` bytes. -/
theorem write_byte_eq_write_bits_witness :
    ((0xD5 : Nat) < 256 ∧ 3 + 8 ≤ 8 * (List.replicate 8 0x11).length) ∧
    write_byte (List.replicate 8 0x11) 3 0xD5 = write_bits 0xD5 8 (List.replicate 8 0x11, 3) :=
  ⟨⟨by decide, by decide⟩,
   write_byte_eq_write_bits (List.replicate 8 0x11) 3 0xD5
     (fun b h => by rw [List.eq_of_mem_replicate h]; decide) (by decide) (by decide)⟩

/-! ## Reading written bytes back -/

/-- The bytes read back from a run of byte writes onto zero bits. -/
theorem read_byte_of_written (buf0 : Buffer) (p : Nat) (vs : List Nat) (st : Buffer × Nat)
    (h : Written buf0 p (bits_of_bytes vs) st) (hv : ∀ v ∈ vs, v < 256)
    (hzero : ∀ q, p ≤ q → q < p + 8 * vs.length → read_bit buf0 q = false)
    (i : Nat) (hi : i < vs.length) :
    read_byte st.1 (p + 8 * i) = vs.getD i 0 := by
  obtain ⟨_, _, hq⟩ := h
  have hvi : vs.getD i 0 < 256 := peek_lt_256 vs hv i
  unfold read_byte
  rw [← bits_value_bits_of_byte _ hvi]
  congr 1
  conv_rhs => rw [bits_of_byte_eq_map_getD]
  apply List.map_congr_left
  intro k hk
  have hk' : k < 8 := List.mem_range.mp hk
  rw [hq _ (by omega), hzero _ (by omega) (by omega), Bool.false_or]
  have e : p + 8 * i + k - p = 8 * i + k := by omega
  rw [e, getD_bits_of_bytes vs i k hi hk']

/-! ## The 4-and-4 pair -/

set_option maxRecDepth 8192 in
theorem decode_4_and_4_pair :
    ∀ v < 256, decode_4_and_4 ((v >>> 1) ||| 0xAA) (v ||| 0xAA) = v := by
  decide

theorem four_and_four_bytes (v : Nat) (hv : v < 256) : ∀ b ∈ four_and_four v, b < 256 := by
  intro b hb
  unfold four_and_four at hb
  rcases List.mem_cons.mp hb with h | h
  · rw [h]
    exact Nat.or_lt_two_pow (n := 8) (by rw [Nat.shiftRight_eq_div_pow]; omega) (by decide)
  · rw [List.mem_singleton.mp h]
    exact Nat.or_lt_two_pow (n := 8) hv (by decide)

/-- C23. For every byte value `v`, the two bytes `write_4_and_4` leaves on a zeroed
buffer, read back at the position it was called at, are `(v >> 1) | 0xAA` and
`v | 0xAA`, and the standard 4-and-4 decode of the pair is `v`. -/
theorem write_4_and_4_decodes (size p v : Nat) (hv : v < 256) (hfit : p + 16 ≤ 8 * size) :
    read_byte (write_4_and_4 (zero_buffer size) p v).1 p = (v >>> 1) ||| 0xAA ∧
    read_byte (write_4_and_4 (zero_buffer size) p v).1 (p + 8) = v ||| 0xAA ∧
    decode_4_and_4 (read_byte (write_4_and_4 (zero_buffer size) p v).1 p)
      (read_byte (write_4_and_4 (zero_buffer size) p v).1 (p + 8)) = v := by
  have hl : (zero_buffer size).length = size := List.length_replicate size 0
  have h := written_write_4_and_4 (zero_buffer size) p [] (zero_buffer size, p)
    (written_init _ p) v hv (by rw [hl]; exact hfit)
  rw [List.nil_append] at h
  have hz : ∀ q, p ≤ q → q < p + 8 * (four_and_four v).length →
      read_bit (zero_buffer size) q = false := fun q _ _ => read_bit_zero_buffer size q
  have hlen : (four_and_four v).length = 2 := rfl
  have h0 := read_byte_of_written _ p (four_and_four v) _ h (four_and_four_bytes v hv) hz 0
    (by rw [hlen]; decide)
  have h1 := read_byte_of_written _ p (four_and_four v) _ h (four_and_four_bytes v hv) hz 1
    (by rw [hlen]; decide)
  have e0 : read_byte (write_4_and_4 (zero_buffer size) p v).1 p = (v >>> 1) ||| 0xAA := h0
  have e1 : read_byte (write_4_and_4 (zero_buffer size) p v).1 (p + 8) = v ||| 0xAA := h1
  refine ⟨e0, e1, ?_⟩
  rw [e0, e1]
  exact decode_4_and_4_pair v hv

/-- C23, for the value 254 written at bit position 3 of a zeroed 8-byte buffer. -/
theorem write_4_and_4_decodes_witness :
    ((254 : Nat) < 256 ∧ 3 + 16 ≤ 8 * 8) ∧
    read_byte (write_4_and_4 (zero_buffer 8) 3 254).1 3 = (254 >>> 1) ||| 0xAA ∧
    read_byte (write_4_and_4 (zero_buffer 8) 3 254).1 (3 + 8) = 254 ||| 0xAA ∧
    decode_4_and_4 (read_byte (write_4_and_4 (zero_buffer 8) 3 254).1 3)
      (read_byte (write_4_and_4 (zero_buffer 8) 3 254).1 (3 + 8)) = 254 :=
  ⟨⟨by decide, by decide⟩, write_4_and_4_decodes 8 3 254 (by decide) (by decide)⟩

/-! ## The indices into the nibble table -/

/-- A store loop of `a + b` iterations is its first `a` iterations followed by the
remaining `b`. -/
theorem store_loop_split (base : Nat) (value : Nat → Buffer → Nat) (a b c : Nat) (dest : Buffer) :
    store_loop base value (a + b) c dest =
      store_loop base value b (c + a) (store_loop base value a c dest) := by
  induction a generalizing c dest with
  | zero => rw [Nat.zero_add]; rfl
  | succ a ih =>
    rw [show a + 1 + b = (a + b) + 1 by omega, store_loop, ih, store_loop,
      show c + 1 + a = c + (a + 1) by omega]

/-- The cell the mapping loop reads at iteration `c` is the cell as the loop found it. -/
theorem peek_mapping_loop_index (dest : Buffer) (c : Nat) :
    peek (store_loop 0 (fun c d => six_and_two_mapping.getD (peek d c) 0) c 0 dest) c =
      peek dest c := by
  rw [peek_store_loop_cell (fun x => six_and_two_mapping.getD x 0), if_neg (by omega)]

theorem peek_xor_fill_256_lt (dest src : Buffer) (hd : dest.length = 343)
    (hb : ∀ b ∈ src, b < 256) (i : Nat) (hi : i < 343) :
    peek (fill_256 dest src) i < 64 ∧ peek (xor_loop 342 (fill_256 dest src)) i < 64 := by
  have hx := xored_lt (pre_256 src) (pre_256_lt src hb) 342 i
  constructor
  · rw [peek_fill_256 _ _ hd i hi]
    exact pre_256_lt src hb i
  · rw [peek_xor_loop _ _ (by rw [length_fill_256]; omega)]
    unfold xored at hx
    split_ifs with h
    · rw [if_pos h] at hx
      rw [peek_fill_256 _ _ hd i hi, peek_fill_256 _ _ hd (i - 1) (by omega)]
      exact hx
    · rw [peek_fill_256 _ _ hd i hi]
      exact pre_256_lt src hb i

theorem peek_xor_fill_128_lt (dest src : Buffer) (hd : dest.length = 172)
    (hb : ∀ b ∈ src, b < 256) (i : Nat) (hi : i < 172) :
    peek (fill_128 dest src) i < 64 ∧ peek (xor_loop 171 (fill_128 dest src)) i < 64 := by
  have hx := xored_lt (pre_128 src) (pre_128_lt src hb) 171 i
  constructor
  · rw [peek_fill_128 _ _ hd i hi]
    exact pre_128_lt src hb i
  · rw [peek_xor_loop _ _ (by rw [length_fill_128]; omega)]
    unfold xored at hx
    split_ifs with h
    · rw [if_pos h] at hx
      rw [peek_fill_128 _ _ hd i hi, peek_fill_128 _ _ hd (i - 1) (by omega)]
      exact hx
    · rw [peek_fill_128 _ _ hd i hi]
      exact pre_128_lt src hb i

/-- C24. For every sector of bytes, at every iteration `c` of the mapping loop of
`encode_6_and_2_256` (343 iterations) and of `encode_6_and_2_128` (172 iterations),
the cell `dest[c]` that the loop uses as index into the 64-entry table
`six_and_two_mapping` is below 64; so is every cell after the low-bits packing and
the `>> 2` step, before the XOR pass. -/
theorem encoder_indices_below_64 (src : List Nat) (hb : ∀ b ∈ src, b < 256)
    (dest256 dest128 : Buffer) (hd256 : dest256.length = 343) (hd128 : dest128.length = 172) :
    six_and_two_mapping.length = 64 ∧
    (∀ c, c < 343 →
      encode_6_and_2_256 dest256 src =
        store_loop 0 (fun c d => six_and_two_mapping.getD (peek d c) 0) (343 - c) c
          (store_loop 0 (fun c d => six_and_two_mapping.getD (peek d c) 0) c 0
            (xor_loop 342 (fill_256 dest256 src))) ∧
      peek (store_loop 0 (fun c d => six_and_two_mapping.getD (peek d c) 0) c 0
        (xor_loop 342 (fill_256 dest256 src))) c < 64 ∧
      peek (fill_256 dest256 src) c < 64) ∧
    (∀ c, c < 172 →
      encode_6_and_2_128 dest128 src =
        store_loop 0 (fun c d => six_and_two_mapping.getD (peek d c) 0) (172 - c) c
          (store_loop 0 (fun c d => six_and_two_mapping.getD (peek d c) 0) c 0
            (xor_loop 171 (fill_128 dest128 src))) ∧
      peek (store_loop 0 (fun c d => six_and_two_mapping.getD (peek d c) 0) c 0
        (xor_loop 171 (fill_128 dest128 src))) c < 64 ∧
      peek (fill_128 dest128 src) c < 64) := by
  refine ⟨rfl, ?_, ?_⟩
  · intro c hc
    have h := peek_xor_fill_256_lt dest256 src hd256 hb c hc
    refine ⟨?_, ?_, h.1⟩
    · have e := store_loop_split 0 (fun c d => six_and_two_mapping.getD (peek d c) 0)
        c (343 - c) 0 (xor_loop 342 (fill_256 dest256 src))
      rw [show c + (343 - c) = 343 by omega, Nat.zero_add] at e
      rw [encode_6_and_2_256_eq, e]
    · rw [peek_mapping_loop_index]
      exact h.2
  · intro c hc
    have h := peek_xor_fill_128_lt dest128 src hd128 hb c hc
    refine ⟨?_, ?_, h.1⟩
    · have e := store_loop_split 0 (fun c d => six_and_two_mapping.getD (peek d c) 0)
        c (172 - c) 0 (xor_loop 171 (fill_128 dest128 src))
      rw [show c + (172 - c) = 172 by omega, Nat.zero_add] at e
      rw [encode_6_and_2_128_eq, e]
    · rw [peek_mapping_loop_index]
      exact h.2

/-- C24, at the sector of 256 bytes `0xFF`. -/
theorem encoder_indices_below_64_witness :
    (∀ b ∈ List.replicate 256 255, b < 256) ∧
    (∀ c, c < 343 →
      peek (store_loop 0 (fun c d => six_and_two_mapping.getD (peek d c) 0) c 0
        (xor_loop 342 (fill_256 (zero_buffer 343) (List.replicate 256 255)))) c < 64) ∧
    (∀ c, c < 172 →
      peek (store_loop 0 (fun c d => six_and_two_mapping.getD (peek d c) 0) c 0
        (xor_loop 171 (fill_128 (zero_buffer 172) (List.replicate 256 255)))) c < 64) :=
  have hb : ∀ b ∈ List.replicate 256 255, b < 256 :=
    fun b h => by rw [List.eq_of_mem_replicate h]; decide
  have h := encoder_indices_below_64 (List.replicate 256 255) hb
    (zero_buffer 343) (zero_buffer 172) (List.length_replicate 343 0)
    (List.length_replicate 172 0)
  ⟨hb, fun c hc => (h.2.1 c hc).2.1, fun c hc => (h.2.2 c hc).2.1⟩

/-! ## Cells below the writer -/

theorem keeps_step_byte (lo : Nat) (buf0 : Buffer) (st : Buffer × Nat)
    (h : Keeps lo buf0 st) (v : Nat) : Keeps lo buf0 (step_byte v st) := by
  obtain ⟨hp, hf⟩ := h
  refine ⟨by show 8 * lo ≤ st.2 + 8; omega, ?_⟩
  intro j hj
  show peek (write_byte st.1 st.2 v).1 j = _
  rw [peek_write_byte_frame _ _ _ _
    (by rw [mem_write_byte_cells]; omega), hf j hj]

theorem keeps_step_prologue (lo : Nat) (buf0 : Buffer) (st : Buffer × Nat)
    (h : Keeps lo buf0 st) (v : Nat) : Keeps lo buf0 (step_prologue v st) := by
  obtain ⟨hp, hf⟩ := h
  refine ⟨by show 8 * lo ≤ st.2 + 8; omega, ?_⟩
  intro j hj
  show peek (write_byte_prologue st.1 st.2 v).1 j = _
  rw [peek_write_byte_prologue_frame _ _ _ _
    (by rw [mem_write_byte_cells]; omega), hf j hj]

theorem keeps_step_4_and_4 (lo : Nat) (buf0 : Buffer) (st : Buffer × Nat)
    (h : Keeps lo buf0 st) (v : Nat) : Keeps lo buf0 (step_4_and_4 v st) :=
  keeps_step_byte lo buf0 _ (keeps_step_byte lo buf0 st h _) _

theorem keeps_syncs (lo : Nat) (buf0 : Buffer) (n : Nat) (st : Buffer × Nat)
    (h : Keeps lo buf0 st) : Keeps lo buf0 (write_syncs n st) := by
  induction n generalizing st with
  | zero => exact h
  | succ n ih =>
    rw [write_syncs]
    apply ih
    have h1 := keeps_step_byte lo buf0 st h 0xff
    exact ⟨by show 8 * lo ≤ (write_byte st.1 st.2 0xff).2 + 2
              have := h1.1
              rw [show (step_byte 0xff st).2 = (write_byte st.1 st.2 0xff).2 from rfl] at this
              omega, h1.2⟩

theorem keeps_contents (lo : Nat) (buf0 : Buffer) (contents : Buffer) (count c : Nat)
    (st : Buffer × Nat) (h : Keeps lo buf0 st) :
    Keeps lo buf0 (write_contents contents count c st) := by
  induction count generalizing c st with
  | zero => exact h
  | succ n ih =>
    rw [write_contents]
    exact ih _ _ (keeps_step_byte lo buf0 st h _)

theorem keeps_init (buf : Buffer) (p : Nat) : Keeps (p / 8) buf (buf, p) :=
  ⟨by show 8 * (p / 8) ≤ p; omega, fun _ _ => rfl⟩

/-- The first prologue write leaves the cells before the cell of `p` as they were
and, on a zero cell, the substituted `0xD5 >> shift` in the cell of `p`. -/
theorem peek_first_prologue (buf0 : Buffer) (p : Nat) (hfit : p + 8 ≤ 8 * buf0.length)
    (h0 : peek buf0 (p / 8) = 0) :
    Keeps (p / 8 + 1) (poke buf0 (p / 8) (prologue_fix (0xd5 >>> (p % 8))))
      (step_prologue 0xd5 (buf0, p)) := by
  refine ⟨by show 8 * (p / 8 + 1) ≤ p + 8; omega, ?_⟩
  intro j hj
  show peek (write_byte_prologue buf0 p 0xd5).1 j = _
  by_cases e : j = p / 8
  · rw [e, peek_write_byte_prologue_self _ _ _ hfit, peek_write_byte _ _ _ _ hfit, if_pos rfl,
      h0, peek_poke_self _ _ _ (by omega), Nat.zero_or]
    congr 1
    apply Nat.mod_eq_of_lt
    rw [Nat.shiftRight_eq_div_pow]
    exact Nat.lt_of_le_of_lt (Nat.div_le_self _ _) (by decide)
  · rw [peek_poke_ne _ _ _ _ e, peek_write_byte_prologue_frame _ _ _ _
      (by rw [mem_write_byte_cells]; omega)]

/-- A Standard serialiser call leaves every cell before the cell of its start position
as it was, and in that cell the substituted `0xD5 >> shift`. -/
theorem serialise_sector_standard_head (dest src : Buffer) (p n t : Nat)
    (hfit : p + 8 ≤ 8 * dest.length) :
    (∀ j, j < p / 8 → peek (serialise_sector_standard dest src p n t).1 j = peek dest j) ∧
    peek (serialise_sector_standard dest src p n t).1 (p / 8) =
      prologue_fix (0xd5 >>> (p % 8)) := by
  rw [serialise_sector_standard_eq]
  generalize hbuf0 : memset dest (p >>> 3) 0 (3134 >>> 3) = buf0
  have hl0 : buf0.length = dest.length := by rw [← hbuf0, length_memset]
  have hz : peek buf0 (p / 8) = 0 := by
    rw [← hbuf0, peek_memset, shr_3, if_pos ⟨Nat.le_refl _, by omega, by omega⟩]
  have h := peek_first_prologue buf0 p (by omega) hz
  have h := keeps_step_prologue _ _ _ h 0xaa
  have h := keeps_step_prologue _ _ _ h 0x96
  have h := keeps_step_4_and_4 _ _ _ h 254
  have h := keeps_step_4_and_4 _ _ _ h t
  have h := keeps_step_4_and_4 _ _ _ h n
  have h := keeps_step_4_and_4 _ _ _ h (254 ^^^ t ^^^ n)
  have h := keeps_step_byte _ _ _ h 0xde
  have h := keeps_step_byte _ _ _ h 0xaa
  have h := keeps_step_byte _ _ _ h 0xeb
  have h := keeps_syncs _ _ 7 _ h
  have h := keeps_step_byte _ _ _ h 0xd5
  have h := keeps_step_byte _ _ _ h 0xaa
  have h := keeps_step_byte _ _ _ h 0xad
  have h := keeps_contents _ _ (encode_6_and_2_256 (zero_buffer 343) src) 343 0 _ h
  have h := keeps_step_byte _ _ _ h 0xde
  have h := keeps_step_byte _ _ _ h 0xaa
  have h := keeps_step_byte _ _ _ h 0xeb
  have h := keeps_syncs _ _ 16 _ h
  constructor
  · intro j hj
    rw [h.2 j (by omega), peek_poke_ne _ _ _ _ (by omega), ← hbuf0, peek_memset, shr_3,
      if_neg (by omega)]
  · rw [h.2 _ (by omega), peek_poke_self _ _ _ (by omega)]

/-- A Custom serialiser call leaves every cell before the cell of its start position
as it was, and in that cell the substituted `0xD5 >> shift`. -/
theorem serialise_sector_custom1_head (dest src : Buffer) (p n t : Nat)
    (hfit : p + 8 ≤ 8 * dest.length) :
    (∀ j, j < p / 8 → peek (serialise_sector_custom1 dest src p n t).1 j = peek dest j) ∧
    peek (serialise_sector_custom1 dest src p n t).1 (p / 8) =
      prologue_fix (0xd5 >>> (p % 8)) := by
  rw [serialise_sector_custom1_eq]
  generalize hbuf0 : memset dest (p >>> 3) 0 (1590 >>> 3) = buf0
  have hl0 : buf0.length = dest.length := by rw [← hbuf0, length_memset]
  have hz : peek buf0 (p / 8) = 0 := by
    rw [← hbuf0, peek_memset, shr_3, if_pos ⟨Nat.le_refl _, by omega, by omega⟩]
  have h := peek_first_prologue buf0 p (by omega) hz
  have h := keeps_step_prologue _ _ _ h 0xaa
  have h := keeps_step_prologue _ _ _ h 0x96
  have h := keeps_step_4_and_4 _ _ _ h n
  have h := keeps_syncs _ _ 7 _ h
  have h := keeps_step_byte _ _ _ h 0xd5
  have h := keeps_step_byte _ _ _ h 0xaa
  have h := keeps_step_byte _ _ _ h 0xad
  have h := keeps_contents _ _ (encode_6_and_2_128 (zero_buffer 172) src) 172 0 _ h
  have h := keeps_syncs _ _ 8 _ h
  constructor
  · intro j hj
    rw [h.2 j (by omega), peek_poke_ne _ _ _ _ (by omega), ← hbuf0, peek_memset, shr_3,
      if_neg (by omega)]
  · rw [h.2 _ (by omega), peek_poke_self _ _ _ (by omega)]
/-! ## The header prologue at every alignment -/

/-- C22. For every bit position `p` of a zeroed buffer that holds 24 bits from `p`, the
three `write_byte_prologue` calls with `0xD5`, `0xAA`, `0x96` end at `p + 24` and leave
bits that read back MSB-first from `p` as `0xD5`, `0xAA`, `0x96`; from `p` on, every
bit is the bit the plain `write_byte` calls leave, and every cell before the cell of
`p` is still zero: the substitution reaches only bits of the cell of `p` that precede
`p`. -/
theorem prologue_reads_back (size p : Nat) (hfit : p + 24 ≤ 8 * size) :
    read_byte (step_prologue 0x96 (step_prologue 0xaa
      (step_prologue 0xd5 (zero_buffer size, p)))).1 p = 0xD5 ∧
    read_byte (step_prologue 0x96 (step_prologue 0xaa
      (step_prologue 0xd5 (zero_buffer size, p)))).1 (p + 8) = 0xAA ∧
    read_byte (step_prologue 0x96 (step_prologue 0xaa
      (step_prologue 0xd5 (zero_buffer size, p)))).1 (p + 16) = 0x96 ∧
    (step_prologue 0x96 (step_prologue 0xaa
      (step_prologue 0xd5 (zero_buffer size, p)))).2 = p + 24 ∧
    (∀ q, p ≤ q →
      read_bit (step_prologue 0x96 (step_prologue 0xaa
        (step_prologue 0xd5 (zero_buffer size, p)))).1 q =
      read_bit (write_bytes (zero_buffer size) p [0xd5, 0xaa, 0x96]).1 q) ∧
    (∀ j, j < p / 8 →
      peek (step_prologue 0x96 (step_prologue 0xaa
        (step_prologue 0xd5 (zero_buffer size, p)))).1 j = 0) := by
  have hl : (zero_buffer size).length = size := List.length_replicate size 0
  have hb : ∀ v ∈ [0xd5, 0xaa, 0x96], v < 256 := by decide
  have hw := written_step_prologue (zero_buffer size) p (by rw [hl]; exact hfit)
    (fun j _ _ => peek_zero_buffer size j)
  have hz : ∀ q, p ≤ q → q < p + 8 * [0xd5, 0xaa, 0x96].length →
      read_bit (zero_buffer size) q = false := fun q _ _ => read_bit_zero_buffer size q
  have h0 := read_byte_of_written _ p [0xd5, 0xaa, 0x96] _ hw hb hz 0 (by decide)
  have h1 := read_byte_of_written _ p [0xd5, 0xaa, 0x96] _ hw hb hz 1 (by decide)
  have h2 := read_byte_of_written _ p [0xd5, 0xaa, 0x96] _ hw hb hz 2 (by decide)
  have hp := written_write_bytes (zero_buffer size) p [0xd5, 0xaa, 0x96] []
    (zero_buffer size, p) (written_init _ p) hb (by rw [hl]; exact hfit)
  rw [List.nil_append] at hp
  have hk := keeps_step_prologue _ _ _ (keeps_step_prologue _ _ _
    (keeps_step_prologue _ _ _ (keeps_init (zero_buffer size) p) 0xd5) 0xaa) 0x96
  refine ⟨h0, h1, h2, rfl, ?_, ?_⟩
  · intro q hq
    rw [hw.2.2 q hq, hp.2.2 q hq]
  · intro j hj
    rw [hk.2 j hj, peek_zero_buffer]

/-- C22, at bit position 4 of a zeroed 8-byte buffer, where the substitution fires:
the cell of `p` reads `0xCD`, not the `0x0D` the plain writes leave. -/
theorem prologue_reads_back_witness :
    (4 + 24 ≤ 8 * 8 ∧
     peek (step_prologue 0x96 (step_prologue 0xaa
       (step_prologue 0xd5 (zero_buffer 8, 4)))).1 0 = 0xCD ∧
     peek (write_bytes (zero_buffer 8) 4 [0xd5, 0xaa, 0x96]).1 0 = 0x0D) ∧
    read_byte (step_prologue 0x96 (step_prologue 0xaa
      (step_prologue 0xd5 (zero_buffer 8, 4)))).1 4 = 0xD5 ∧
    read_byte (step_prologue 0x96 (step_prologue 0xaa
      (step_prologue 0xd5 (zero_buffer 8, 4)))).1 (4 + 8) = 0xAA ∧
    read_byte (step_prologue 0x96 (step_prologue 0xaa
      (step_prologue 0xd5 (zero_buffer 8, 4)))).1 (4 + 16) = 0x96 :=
  have h := prologue_reads_back 8 4 (by decide)
  ⟨⟨by decide, by decide, by decide⟩, h.1, h.2.1, h.2.2.1⟩

/-! ## A slot and the slot after it -/

set_option maxRecDepth 8192 in
theorem sync_words_tail : ∀ d < 8, 1 ≤ d →
    (sync_words 16).getD (160 - d) false = decide (3 ≤ d) ∧
    (sync_words 8).getD (80 - d) false = decide (3 ≤ d) := by
  decide

theorem record_standard_tail (t n : Nat) (s : List Nat) (d : Nat) (h1 : 1 ≤ d) (h2 : d < 8) :
    (record_standard t n s).getD (3134 - d) false = decide (3 ≤ d) := by
  have hl := length_record_standard t n s
  unfold record_standard at hl ⊢
  rw [List.length_append, length_sync_words] at hl
  rw [List.getD_append_right _ _ _ _ (by omega)]
  have e : ∀ k, k + 10 * 16 = 3134 → 3134 - d - k = 160 - d := by omega
  rw [e _ hl]
  exact (sync_words_tail d h2 h1).1

theorem record_custom1_tail (n : Nat) (s : List Nat) (d : Nat) (h1 : 1 ≤ d) (h2 : d < 8) :
    (record_custom1 n s).getD (1590 - d) false = decide (3 ≤ d) := by
  have hl := length_record_custom1 n s
  unfold record_custom1 at hl ⊢
  rw [List.length_append, length_sync_words] at hl
  rw [List.getD_append_right _ _ _ _ (by omega)]
  have e : ∀ k, k + 10 * 8 = 1590 → 1590 - d - k = 80 - d := by omega
  rw [e _ hl]
  exact (sync_words_tail d h2 h1).2

/-- At an even shift, the bits of the substituted `0xD5 >> shift` that precede the
prologue are the last bits of a sync word: ones, then two zeros. -/
theorem prologue_fix_gap_bits : ∀ s < 8, s % 2 = 0 → ∀ d < 8, 1 ≤ d → d ≤ s →
    (prologue_fix (0xd5 >>> s)).testBit (7 - (s - d)) = decide (3 ≤ d) := by
  decide

/-- A Standard record written at an even position of a zeroed buffer keeps all of its
3134 bits when the next record is written right after it. -/
theorem standard_slot_kept (size p : Nat) (hp : p % 2 = 0) (hfit : p + 3134 + 8 ≤ 8 * size)
    (src1 src2 : Buffer) (n1 t1 n2 t2 : Nat) (ht : t1 < 256) (hn : n1 < 256)
    (i : Nat) (hi : i < 3134) :
    read_bit (serialise_sector_standard
        (serialise_sector_standard (zero_buffer size) src1 p n1 t1).1 src2 (p + 3134) n2 t2).1
        (p + i) =
      read_bit (serialise_sector_standard (zero_buffer size) src1 p n1 t1).1 (p + i) := by
  have hl : (zero_buffer size).length = size := List.length_replicate size 0
  have hlA : (serialise_sector_standard (zero_buffer size) src1 p n1 t1).1.length = size := by
    rw [length_serialise_sector_standard, hl]
  have hw := serialise_sector_standard_written (zero_buffer size) src1 p n1 t1 ht hn
    (by rw [hl]; omega)
  have hA : read_bit (serialise_sector_standard (zero_buffer size) src1 p n1 t1).1 (p + i) =
      (record_standard t1 n1 src1).getD i false := by
    rw [hw.2.2 (p + i) (by omega), read_bit_memset_zero_buffer, Bool.false_or,
      show p + i - p = i by omega]
  have hd := serialise_sector_standard_head
    (serialise_sector_standard (zero_buffer size) src1 p n1 t1).1 src2 (p + 3134) n2 t2
    (by rw [hlA]; omega)
  rw [hA, read_bit_eq]
  by_cases hc : (p + i) / 8 < (p + 3134) / 8
  · rw [hd.1 _ hc, ← read_bit_eq, hA]
  · have e : (p + i) / 8 = (p + 3134) / 8 := by omega
    have hmod : (p + i) % 8 = (p + 3134) % 8 - (3134 - i) := by omega
    have hrec : (record_standard t1 n1 src1).getD i false = decide (3 ≤ 3134 - i) := by
      have h := record_standard_tail t1 n1 src1 (3134 - i) (by omega) (by omega)
      rwa [show 3134 - (3134 - i) = i by omega] at h
    rw [e, hd.2, hmod, hrec]
    exact prologue_fix_gap_bits _ (by omega) (by omega) _ (by omega) (by omega) (by omega)

/-- A Custom record written at an even position of a zeroed buffer keeps all of its
1590 bits when the next record is written right after it. -/
theorem custom1_slot_kept (size p : Nat) (hp : p % 2 = 0) (hfit : p + 1590 + 8 ≤ 8 * size)
    (src1 src2 : Buffer) (n1 t1 n2 t2 : Nat) (hn : n1 < 256)
    (i : Nat) (hi : i < 1590) :
    read_bit (serialise_sector_custom1
        (serialise_sector_custom1 (zero_buffer size) src1 p n1 t1).1 src2 (p + 1590) n2 t2).1
        (p + i) =
      read_bit (serialise_sector_custom1 (zero_buffer size) src1 p n1 t1).1 (p + i) := by
  have hl : (zero_buffer size).length = size := List.length_replicate size 0
  have hlA : (serialise_sector_custom1 (zero_buffer size) src1 p n1 t1).1.length = size := by
    rw [length_serialise_sector_custom1, hl]
  have hw := serialise_sector_custom1_written (zero_buffer size) src1 p n1 t1 hn
    (by rw [hl]; omega)
  have hA : read_bit (serialise_sector_custom1 (zero_buffer size) src1 p n1 t1).1 (p + i) =
      (record_custom1 n1 src1).getD i false := by
    rw [hw.2.2 (p + i) (by omega), read_bit_memset_zero_buffer, Bool.false_or,
      show p + i - p = i by omega]
  have hd := serialise_sector_custom1_head
    (serialise_sector_custom1 (zero_buffer size) src1 p n1 t1).1 src2 (p + 1590) n2 t2
    (by rw [hlA]; omega)
  rw [hA, read_bit_eq]
  by_cases hc : (p + i) / 8 < (p + 1590) / 8
  · rw [hd.1 _ hc, ← read_bit_eq, hA]
  · have e : (p + i) / 8 = (p + 1590) / 8 := by omega
    have hmod : (p + i) % 8 = (p + 1590) % 8 - (1590 - i) := by omega
    have hrec : (record_custom1 n1 src1).getD i false = decide (3 ≤ 1590 - i) := by
      have h := record_custom1_tail n1 src1 (1590 - i) (by omega) (by omega)
      rwa [show 1590 - (1590 - i) = i by omega] at h
    rw [e, hd.2, hmod, hrec]
    exact prologue_fix_gap_bits _ (by omega) (by omega) _ (by omega) (by omega) (by omega)

theorem offset_tables_even :
    (∀ k < 16, Offset_Standard_Header.getD k 0 % 2 = 0) ∧
    (∀ k < 32, Offset_Custom1_Header.getD k 0 % 2 = 0) := by
  decide
/-- C21. On an all-zero track region that holds every slot, writing Standard slot `k`
and then slot `k + 1` at their table offsets, for `k` from 0 to 14, leaves each of
the 3134 bits of slot `k` as it is after writing slot `k` alone; likewise for Custom
slots `k` from 0 to 30 and their 1590 bits. -/
theorem slot_kept_by_next_slot (size kS kC : Nat) (hsize : 6370 ≤ size)
    (hS : kS < 15) (hC : kC < 31) (src1 src2 : Buffer) (n1 t1 n2 t2 : Nat)
    (ht : t1 < 256) (hn : n1 < 256) :
    (∀ i, i < 3134 →
      read_bit (serialise_sector_standard
          (serialise_sector_standard (zero_buffer size) src1
            (Offset_Standard_Header.getD kS 0) n1 t1).1
          src2 (Offset_Standard_Header.getD (kS + 1) 0) n2 t2).1
          (Offset_Standard_Header.getD kS 0 + i) =
        read_bit (serialise_sector_standard (zero_buffer size) src1
          (Offset_Standard_Header.getD kS 0) n1 t1).1
          (Offset_Standard_Header.getD kS 0 + i)) ∧
    (∀ i, i < 1590 →
      read_bit (serialise_sector_custom1
          (serialise_sector_custom1 (zero_buffer size) src1
            (Offset_Custom1_Header.getD kC 0) n1 t1).1
          src2 (Offset_Custom1_Header.getD (kC + 1) 0) n2 t2).1
          (Offset_Custom1_Header.getD kC 0 + i) =
        read_bit (serialise_sector_custom1 (zero_buffer size) src1
          (Offset_Custom1_Header.getD kC 0) n1 t1).1
          (Offset_Custom1_Header.getD kC 0 + i)) := by
  constructor
  · intro i hi
    have hb := offset_tables_bounds.1 (kS + 1) (by omega)
    rw [offset_tables_steps.1 kS hS] at hb ⊢
    exact standard_slot_kept size _ (offset_tables_even.1 kS (by omega)) (by omega)
      src1 src2 n1 t1 n2 t2 ht hn i hi
  · intro i hi
    have hb := offset_tables_bounds.2 (kC + 1) (by omega)
    rw [offset_tables_steps.2 kC hC] at hb ⊢
    exact custom1_slot_kept size _ (offset_tables_even.2 kC (by omega)) (by omega)
      src1 src2 n1 t1 n2 t2 hn i hi

/-- C21, for the first slots of a 6656-byte track region, sectors 5 and 6 of track 3. -/
theorem slot_kept_by_next_slot_witness :
    ((6370 ≤ 6656 ∧ 0 < 15 ∧ 0 < 31) ∧ (3 : Nat) < 256 ∧ (5 : Nat) < 256) ∧
    (∀ i, i < 3134 →
      read_bit (serialise_sector_standard
          (serialise_sector_standard (zero_buffer 6656) (List.replicate 256 255)
            (Offset_Standard_Header.getD 0 0) 5 3).1
          (List.replicate 256 1) (Offset_Standard_Header.getD (0 + 1) 0) 6 3).1
          (Offset_Standard_Header.getD 0 0 + i) =
        read_bit (serialise_sector_standard (zero_buffer 6656) (List.replicate 256 255)
          (Offset_Standard_Header.getD 0 0) 5 3).1
          (Offset_Standard_Header.getD 0 0 + i)) ∧
    (∀ i, i < 1590 →
      read_bit (serialise_sector_custom1
          (serialise_sector_custom1 (zero_buffer 6656) (List.replicate 256 255)
            (Offset_Custom1_Header.getD 0 0) 5 3).1
          (List.replicate 256 1) (Offset_Custom1_Header.getD (0 + 1) 0) 6 3).1
          (Offset_Custom1_Header.getD 0 0 + i) =
        read_bit (serialise_sector_custom1 (zero_buffer 6656) (List.replicate 256 255)
          (Offset_Custom1_Header.getD 0 0) 5 3).1
          (Offset_Custom1_Header.getD 0 0 + i)) :=
  ⟨⟨⟨by decide, by decide, by decide⟩, by decide, by decide⟩,
    slot_kept_by_next_slot 6656 0 0 (by decide) (by decide) (by decide)
      (List.replicate 256 255) (List.replicate 256 1) 5 3 6 3 (by decide) (by decide)⟩
/-! ## The bits an iteration leaves in the image -/

theorem offset_view_store_view (woz : Buffer) (k : Nat) (region : Buffer)
    (hk : k ≤ woz.length) : offset_view (store_view woz k region) k = region := by
  unfold offset_view store_view
  exact List.drop_left' (by rw [List.length_take]; omega)

theorem read_bit_offset_view (w : Buffer) (k q : Nat) :
    read_bit (offset_view w k) q = read_bit w (8 * k + q) := by
  rw [read_bit_eq, read_bit_eq, peek_offset_view,
    show (8 * k + q) / 8 = k + q / 8 by omega, show (8 * k + q) % 8 = q % 8 by omega]

/-- A bit at or after `p` once `memset(dest + (p >> 3), 0, c)` has run: zero inside
the span of `c` cells, the bit of `dest` after it. -/
theorem read_bit_memset_span (dest : Buffer) (p c i : Nat) (hfit : (p + i) / 8 < dest.length) :
    read_bit (memset dest (p >>> 3) 0 c) (p + i) =
      (decide (8 * c ≤ p % 8 + i) && read_bit dest (p + i)) := by
  rw [read_bit_eq, read_bit_eq, peek_memset, shr_3]
  by_cases h : 8 * c ≤ p % 8 + i
  · rw [if_neg (by omega), decide_eq_true h, Bool.true_and]
  · rw [if_pos ⟨by omega, by omega, hfit⟩, decide_eq_false h, Bool.false_and]
    exact Nat.zero_testBit _

theorem peek_take (s : Buffer) (n k : Nat) (hk : k < n) : peek (s.take n) k = peek s k := by
  unfold peek
  rw [List.getD_eq_getElem?_getD, List.getD_eq_getElem?_getD, List.getElem?_take, if_pos hk]

theorem pre_256_take (s : Buffer) : pre_256 (s.take 256) = pre_256 s := by
  funext i
  unfold pre_256 low2
  split_ifs
  · rw [peek_take s 256 i (by omega), peek_take s 256 (i + 86) (by omega),
      peek_take s 256 (i + 172) (by omega)]
  · rw [peek_take s 256 i (by omega), peek_take s 256 (i + 86) (by omega)]
  · rw [peek_take s 256 (i - 86) (by omega)]
  · rw [peek_take s 256 255 (by omega)]

theorem pre_128_take (s : Buffer) : pre_128 (s.take 128) = pre_128 s := by
  funext i
  unfold pre_128 low2
  split_ifs
  · rw [peek_take s 128 i (by omega), peek_take s 128 (i + 43) (by omega),
      peek_take s 128 (i + 86) (by omega)]
  · rw [peek_take s 128 i (by omega), peek_take s 128 (i + 43) (by omega)]
  · rw [peek_take s 128 (i - 43) (by omega)]
  · rw [peek_take s 128 127 (by omega)]

theorem buffer_ext_of_peek (a b : Buffer) (hl : a.length = b.length)
    (h : ∀ i, i < a.length → peek a i = peek b i) : a = b := by
  apply List.ext_getElem hl
  intro i h1 h2
  have e := h i h1
  unfold peek at e
  rw [List.getD_eq_getElem?_getD, List.getD_eq_getElem?_getD, List.getElem?_eq_getElem h1,
    List.getElem?_eq_getElem h2] at e
  exact e

/-- The 256-byte encoder reads the first 256 cells of its source only. -/
theorem encode_6_and_2_256_take (s : Buffer) :
    encode_6_and_2_256 (zero_buffer 343) (s.take 256) = encode_6_and_2_256 (zero_buffer 343) s := by
  have hz : (zero_buffer 343).length = 343 := List.length_replicate 343 0
  apply buffer_ext_of_peek
  · rw [length_encode_6_and_2_256, length_encode_6_and_2_256]
  · intro i hi
    rw [length_encode_6_and_2_256, hz] at hi
    rw [peek_encode_6_and_2_256 _ _ hz i hi, peek_encode_6_and_2_256 _ _ hz i hi, pre_256_take]

/-- The 128-byte encoder reads the first 128 cells of its source only. -/
theorem encode_6_and_2_128_take (s : Buffer) :
    encode_6_and_2_128 (zero_buffer 172) (s.take 128) = encode_6_and_2_128 (zero_buffer 172) s := by
  have hz : (zero_buffer 172).length = 172 := List.length_replicate 172 0
  apply buffer_ext_of_peek
  · rw [length_encode_6_and_2_128, length_encode_6_and_2_128]
  · intro i hi
    rw [length_encode_6_and_2_128, hz] at hi
    rw [peek_encode_6_and_2_128 _ _ hz i hi, peek_encode_6_and_2_128 _ _ hz i hi, pre_128_take]

theorem record_standard_take (t n : Nat) (s : Buffer) :
    record_standard t n (s.take 256) = record_standard t n s := by
  unfold record_standard
  rw [encode_6_and_2_256_take]

theorem record_custom1_take (n : Nat) (s : Buffer) :
    record_custom1 n (s.take 128) = record_custom1 n s := by
  unfold record_custom1
  rw [encode_6_and_2_128_take]
theorem run_call_standard (binary woz : Buffer) (call : SerialiserCall) :
    run_call false binary woz call =
      store_view woz call.dest_offset
        (serialise_sector_standard (offset_view woz call.dest_offset)
          (offset_view binary call.src_offset) call.offset_header call.physical_sector
          call.track).1 := rfl

theorem run_call_custom1 (binary woz : Buffer) (call : SerialiserCall) :
    run_call true binary woz call =
      store_view woz call.dest_offset
        (serialise_sector_custom1 (offset_view woz call.dest_offset)
          (offset_view binary call.src_offset) call.offset_header call.physical_sector
          call.track).1 := rfl

/-- The bits of a Standard record in the image after the serialiser call of an
iteration whose track region lies inside the image: the record, OR-ed onto the bits
the image had where the `memset` span has ended. -/
theorem run_call_standard_bits (binary woz : Buffer) (call : SerialiserCall)
    (hD : call.dest_offset ≤ woz.length)
    (hfit : call.offset_header + 3134 ≤ 8 * (woz.length - call.dest_offset))
    (ht : call.track < 256) (hn : call.physical_sector < 256) (i : Nat) (hi : i < 3134) :
    read_bit (run_call false binary woz call)
        (8 * call.dest_offset + (call.offset_header + i)) =
      ((record_standard call.track call.physical_sector
          ((offset_view binary call.src_offset).take 256)).getD i false ||
        (decide (3128 ≤ call.offset_header % 8 + i) &&
          read_bit woz (8 * call.dest_offset + (call.offset_header + i)))) := by
  have hl : (offset_view woz call.dest_offset).length = woz.length - call.dest_offset := by
    unfold offset_view; rw [List.length_drop]
  have hw := serialise_sector_standard_written (offset_view woz call.dest_offset)
    (offset_view binary call.src_offset) call.offset_header call.physical_sector call.track
    ht hn (by rw [hl]; exact hfit)
  rw [← read_bit_offset_view, ← read_bit_offset_view, run_call_standard,
    offset_view_store_view _ _ _ hD, hw.2.2 _ (by omega),
    read_bit_memset_span _ _ _ _ (by rw [hl]; omega), record_standard_take,
    show call.offset_header + i - call.offset_header = i by omega, Bool.or_comm]
  rfl

/-- The bits of a Custom record in the image after the serialiser call of an
iteration whose track region lies inside the image. -/
theorem run_call_custom1_bits (binary woz : Buffer) (call : SerialiserCall)
    (hD : call.dest_offset ≤ woz.length)
    (hfit : call.offset_header + 1590 ≤ 8 * (woz.length - call.dest_offset))
    (hn : call.physical_sector < 256) (i : Nat) (hi : i < 1590) :
    read_bit (run_call true binary woz call)
        (8 * call.dest_offset + (call.offset_header + i)) =
      ((record_custom1 call.physical_sector
          ((offset_view binary call.src_offset).take 128)).getD i false ||
        (decide (1584 ≤ call.offset_header % 8 + i) &&
          read_bit woz (8 * call.dest_offset + (call.offset_header + i)))) := by
  have hl : (offset_view woz call.dest_offset).length = woz.length - call.dest_offset := by
    unfold offset_view; rw [List.length_drop]
  have hw := serialise_sector_custom1_written (offset_view woz call.dest_offset)
    (offset_view binary call.src_offset) call.offset_header call.physical_sector call.track
    hn (by rw [hl]; exact hfit)
  rw [← read_bit_offset_view, ← read_bit_offset_view, run_call_custom1,
    offset_view_store_view _ _ _ hD, hw.2.2 _ (by omega),
    read_bit_memset_span _ _ _ _ (by rw [hl]; omega), record_custom1_take,
    show call.offset_header + i - call.offset_header = i by omega, Bool.or_comm]
  rfl

/-- The entries of the offset tables, their parity and the room after them. -/
theorem offset_table_entry (bStructure : Bool) (ps oh : Nat)
    (h : (offset_table bStructure)[ps]? = some oh) :
    ps < sectors_per_track bStructure ∧ oh % 8 ≤ 6 ∧ oh + 3134 ≤ 8 * 6656 := by
  have hS : ∀ ps < 16, ∀ oh, Offset_Standard_Header[ps]? = some oh →
      oh % 8 ≤ 6 ∧ oh + 3134 ≤ 8 * 6656 := by decide
  have hC : ∀ ps < 32, ∀ oh, Offset_Custom1_Header[ps]? = some oh →
      oh % 8 ≤ 6 ∧ oh + 3134 ≤ 8 * 6656 := by decide
  have hlt : ps < (offset_table bStructure).length := by
    by_contra hc
    rw [List.getElem?_eq_none (by omega)] at h
    exact Option.noConfusion h
  rw [length_offset_table] at hlt
  refine ⟨hlt, ?_⟩
  cases bStructure
  · exact hS ps hlt oh h
  · exact hC ps hlt oh h

/-- C10. With the first sector below the sector count `N`, a 233216-byte image, a
buffer `binary` that holds `count` sectors and a cursor that stays within tracks
0..34, the state in which the driver's iteration `j` starts has track
`first_track + (first_sector + j) / N` and logical sector `(first_sector + j) % N`;
the iteration looks the physical slot up in the chosen interleaving table and the
slot's bit offset in the geometry's offset table, and calls the serialiser on the
image at byte offset `256 + 6656 * track` — a track region that lies inside the
image — with the source at chunk `j`, which lies inside `binary`. In the image
after the iteration, bit `i` of the record of chunk `j` stands at bit
`8 * (256 + 6656 * track) + offset + i`: every bit is the record bit, OR-ed with
the bit the image had there where the serialiser's `memset` span has ended, so
the first 3122 (Custom: 1578) bits are the record bits whatever the image held.
The whole loop is that iteration placed between the `j` before it and the ones
after it. -/
theorem placement_loop_iteration (bStructure : Bool)
    (interleaving first_track first_sector : Nat) (binary woz : Buffer) (count j : Nat)
    (hw : woz.length = 233216)
    (hbin : count * sector_size bStructure ≤ binary.length)
    (hfs : first_sector < sectors_per_track bStructure)
    (htracks : ∀ i, i < count →
      first_track + (first_sector + i) / sectors_per_track bStructure ≤ 34)
    (hj : j < count) :
    ∃ st ps oh st',
      main_loop bStructure interleaving binary j 0
        { woz := woz, track := first_track, sector := first_sector } = some st ∧
      st.track = first_track + (first_sector + j) / sectors_per_track bStructure ∧
      st.sector = (first_sector + j) % sectors_per_track bStructure ∧
      (interleaving_table bStructure interleaving)[st.sector]? = some ps ∧
      (offset_table bStructure)[ps]? = some oh ∧
      serialiser_call bStructure interleaving j st.track st.sector =
        some { dest_offset := 256 + st.track * 6656, src_offset := j * sector_size bStructure,
               offset_header := oh, physical_sector := ps, track := st.track } ∧
      loop_body bStructure interleaving binary j st = some st' ∧
      st'.woz = run_call bStructure binary st.woz
        { dest_offset := 256 + st.track * 6656, src_offset := j * sector_size bStructure,
          offset_header := oh, physical_sector := ps, track := st.track } ∧
      main_loop bStructure interleaving binary count 0
          { woz := woz, track := first_track, sector := first_sector } =
        main_loop bStructure interleaving binary (count - (j + 1)) (j + 1) st' ∧
      st.woz.length = 233216 ∧ st'.woz.length = 233216 ∧
      256 + st.track * 6656 + 6656 ≤ 233216 ∧
      (j + 1) * sector_size bStructure ≤ binary.length ∧
      (bStructure = false → ∀ i, i < 3134 →
        read_bit st'.woz (8 * (256 + st.track * 6656) + (oh + i)) =
          ((record_standard st.track ps
              ((offset_view binary (j * sector_size bStructure)).take
                (sector_size bStructure))).getD i false ||
            (decide (3128 ≤ oh % 8 + i) &&
              read_bit st.woz (8 * (256 + st.track * 6656) + (oh + i)))) ∧
        (i < 3122 →
          read_bit st'.woz (8 * (256 + st.track * 6656) + (oh + i)) =
            (record_standard st.track ps
              ((offset_view binary (j * sector_size bStructure)).take
                (sector_size bStructure))).getD i false)) ∧
      (bStructure = true → ∀ i, i < 1590 →
        read_bit st'.woz (8 * (256 + st.track * 6656) + (oh + i)) =
          ((record_custom1 ps
              ((offset_view binary (j * sector_size bStructure)).take
                (sector_size bStructure))).getD i false ||
            (decide (1584 ≤ oh % 8 + i) &&
              read_bit st.woz (8 * (256 + st.track * 6656) + (oh + i)))) ∧
        (i < 1578 →
          read_bit st'.woz (8 * (256 + st.track * 6656) + (oh + i)) =
            (record_custom1 ps
              ((offset_view binary (j * sector_size bStructure)).take
                (sector_size bStructure))).getD i false)) := by
  obtain ⟨st, h1, hl, ht, hs⟩ := main_loop_cursor bStructure interleaving binary j 0
    { woz := woz, track := first_track, sector := first_sector } hfs
  have hN : 0 < sectors_per_track bStructure := by omega
  have hs' : st.sector < sectors_per_track bStructure := by
    rw [hs]; exact Nat.mod_lt _ hN
  obtain ⟨ps, oh, hps, hoh, hc⟩ :=
    serialiser_call_some bStructure interleaving j st.track st.sector hs'
  obtain ⟨st', hb, hl', _, _, call, hcall, hwoz⟩ :=
    loop_body_some bStructure interleaving binary j st hs'
  rw [hc] at hcall
  have hcall' := Option.some.inj hcall
  have hlen : st.woz.length = 233216 := by rw [hl]; exact hw
  have htr : st.track ≤ 34 := by rw [ht]; exact htracks j hj
  obtain ⟨hpsN, hoh8, hohfit⟩ := offset_table_entry bStructure ps oh hoh
  have hps256 : ps < 256 := by
    cases bStructure <;> simp only [sectors_per_track] at hpsN <;> simp at hpsN <;> omega
  have hchunk : (j + 1) * sector_size bStructure ≤ binary.length :=
    Nat.le_trans (Nat.mul_le_mul_right _ hj) hbin
  have hsplit : main_loop bStructure interleaving binary count 0
      { woz := woz, track := first_track, sector := first_sector } =
      main_loop bStructure interleaving binary (count - (j + 1)) (j + 1) st' := by
    have e : count = j + ((count - (j + 1)) + 1) := by omega
    conv_lhs => rw [e, main_loop_split, h1]
    simp only [Option.some_bind, Nat.zero_add]
    rw [main_loop, hb]
    rfl
  have hwoz' : st'.woz = run_call bStructure binary st.woz
      { dest_offset := 256 + st.track * 6656, src_offset := j * sector_size bStructure,
        offset_header := oh, physical_sector := ps, track := st.track } := by
    rw [hwoz, ← hcall']
  refine ⟨st, ps, oh, st', h1, ht, hs, hps, hoh, hc, hb, hwoz', hsplit, hlen,
    by rw [hl', hlen], by omega, hchunk, ?_, ?_⟩
  · intro hS i hi
    subst hS
    have hbits : read_bit st'.woz (8 * (256 + st.track * 6656) + (oh + i)) =
        ((record_standard st.track ps
            ((offset_view binary (j * sector_size false)).take 256)).getD i false ||
          (decide (3128 ≤ oh % 8 + i) &&
            read_bit st.woz (8 * (256 + st.track * 6656) + (oh + i)))) := by
      rw [hwoz']
      exact run_call_standard_bits binary st.woz
        { dest_offset := 256 + st.track * 6656, src_offset := j * sector_size false,
          offset_header := oh, physical_sector := ps, track := st.track }
        (by show 256 + st.track * 6656 ≤ st.woz.length; omega)
        (by show oh + 3134 ≤ 8 * (st.woz.length - (256 + st.track * 6656)); omega)
        (by show st.track < 256; omega) hps256 i hi
    refine ⟨hbits, ?_⟩
    intro hi2
    rw [hbits, decide_eq_false (by omega), Bool.false_and, Bool.or_false]
    rfl
  · intro hS i hi
    subst hS
    have hbits : read_bit st'.woz (8 * (256 + st.track * 6656) + (oh + i)) =
        ((record_custom1 ps
            ((offset_view binary (j * sector_size true)).take 128)).getD i false ||
          (decide (1584 ≤ oh % 8 + i) &&
            read_bit st.woz (8 * (256 + st.track * 6656) + (oh + i)))) := by
      rw [hwoz']
      exact run_call_custom1_bits binary st.woz
        { dest_offset := 256 + st.track * 6656, src_offset := j * sector_size true,
          offset_header := oh, physical_sector := ps, track := st.track }
        (by show 256 + st.track * 6656 ≤ st.woz.length; omega)
        (by show oh + 1590 ≤ 8 * (st.woz.length - (256 + st.track * 6656)); omega)
        hps256 i hi
    refine ⟨hbits, ?_⟩
    intro hi2
    rw [hbits, decide_eq_false (by omega), Bool.false_and, Bool.or_false]
    rfl

/-- C10, at the third iteration of a Standard run with DOS interleaving started at
track 3, sector 14, on a zeroed image: the cursor has rolled over to track 4,
sector 0. -/
theorem placement_loop_iteration_witness :
    ((zero_buffer 233216).length = 233216 ∧
     5 * sector_size false ≤ (List.replicate 1280 7).length ∧
     14 < sectors_per_track false ∧
     (∀ i, i < 5 → 3 + (14 + i) / sectors_per_track false ≤ 34) ∧ 2 < 5) ∧
    ∃ st ps oh st',
      main_loop false 0 (List.replicate 1280 7) 2 0
        { woz := zero_buffer 233216, track := 3, sector := 14 } = some st ∧
      st.track = 3 + (14 + 2) / sectors_per_track false ∧
      st.sector = (14 + 2) % sectors_per_track false ∧
      (interleaving_table false 0)[st.sector]? = some ps ∧
      (offset_table false)[ps]? = some oh ∧
      serialiser_call false 0 2 st.track st.sector =
        some { dest_offset := 256 + st.track * 6656, src_offset := 2 * sector_size false,
               offset_header := oh, physical_sector := ps, track := st.track } ∧
      loop_body false 0 (List.replicate 1280 7) 2 st = some st' ∧
      st'.woz = run_call false (List.replicate 1280 7) st.woz
        { dest_offset := 256 + st.track * 6656, src_offset := 2 * sector_size false,
          offset_header := oh, physical_sector := ps, track := st.track } ∧
      main_loop false 0 (List.replicate 1280 7) 5 0
          { woz := zero_buffer 233216, track := 3, sector := 14 } =
        main_loop false 0 (List.replicate 1280 7) (5 - (2 + 1)) (2 + 1) st' ∧
      st.woz.length = 233216 ∧ st'.woz.length = 233216 ∧
      256 + st.track * 6656 + 6656 ≤ 233216 ∧
      (2 + 1) * sector_size false ≤ (List.replicate 1280 7).length ∧
      (false = false → ∀ i, i < 3134 →
        read_bit st'.woz (8 * (256 + st.track * 6656) + (oh + i)) =
          ((record_standard st.track ps
              ((offset_view (List.replicate 1280 7) (2 * sector_size false)).take
                (sector_size false))).getD i false ||
            (decide (3128 ≤ oh % 8 + i) &&
              read_bit st.woz (8 * (256 + st.track * 6656) + (oh + i)))) ∧
        (i < 3122 →
          read_bit st'.woz (8 * (256 + st.track * 6656) + (oh + i)) =
            (record_standard st.track ps
              ((offset_view (List.replicate 1280 7) (2 * sector_size false)).take
                (sector_size false))).getD i false)) ∧
      (false = true → ∀ i, i < 1590 →
        read_bit st'.woz (8 * (256 + st.track * 6656) + (oh + i)) =
          ((record_custom1 ps
              ((offset_view (List.replicate 1280 7) (2 * sector_size false)).take
                (sector_size false))).getD i false ||
            (decide (1584 ≤ oh % 8 + i) &&
              read_bit st.woz (8 * (256 + st.track * 6656) + (oh + i)))) ∧
        (i < 1578 →
          read_bit st'.woz (8 * (256 + st.track * 6656) + (oh + i)) =
            (record_custom1 ps
              ((offset_view (List.replicate 1280 7) (2 * sector_size false)).take
                (sector_size false))).getD i false)) :=
  have hw : (zero_buffer 233216).length = 233216 := List.length_replicate 233216 0
  have hbin : 5 * sector_size false ≤ (List.replicate 1280 7).length :=
    Nat.le_of_eq (List.length_replicate 1280 7).symm
  have htracks : ∀ i, i < 5 → 3 + (14 + i) / sectors_per_track false ≤ 34 := by decide
  ⟨⟨hw, hbin, by decide, htracks, by decide⟩,
   placement_loop_iteration false 0 3 14 (List.replicate 1280 7) (zero_buffer 233216) 5 2
     hw hbin (by decide) htracks (by decide)⟩

end W2W
